import Mathlib

/-!
# LOOS `Matrix.hpp`: layout policies and the matrix container

A shallow embedding of `src/Matrix.hpp`.

* C++ `int` and `long` values are mathematical integers (`Int`).  Signed
  overflow is undefined behaviour in C++, so the embedding describes the
  program on the overflow-free range, where machine and exact arithmetic agree.
  C++ `/` on integers truncates toward zero: it is `Int.tdiv`.
* `assert(e)` is a fatal failure: the operation returns `Fault.assertion`.
* `boost::shared_array<T>` is a handle (`Option Nat`, `none` is the null
  handle) into a heap of blocks, so that several matrices can name one block.
  Its `operator[]` asserts `px != 0` and `i >= 0` (`BOOST_ASSERT`, a fatal
  failure like `assert`): subscripting the null handle or at a negative index
  returns `Fault.sharedAssertion`.  An index at or beyond the end of the block
  is checked by nobody and is reported as `Fault.outOfBuffer`.
* `T&` is a `Ref`: a block address with a position inside that block.
-/

namespace loos

/-! ## Failures -/

/-- Ways an operation of `Matrix.hpp` can fail to produce its result. -/
inductive Fault where
  /-- An `assert(...)` of `Matrix.hpp` was violated. -/
  | assertion
  /-- The array form of `new` was asked for a negative number of elements. -/
  | badAlloc
  /-- The shared array was subscripted at or beyond the end of its block. -/
  | outOfBuffer
  /-- A `BOOST_ASSERT` of `boost::shared_array::operator[]` was violated: the
  handle is null or the index is negative. -/
  | sharedAssertion
  deriving DecidableEq, Repr

-- Equality of results is decidable, so that closed facts evaluate.
deriving instance DecidableEq for Except

/-! ## Layout policies -/

/-- The `struct Duple`: a pair of `int`s. -/
structure Duple where
  i : Int
  j : Int
  deriving DecidableEq, Repr

/-- The `class Triangular`: fields `int m, n; long s`. -/
structure Triangular where
  m : Int
  n : Int
  s : Int
  deriving DecidableEq, Repr

/-- Constructor `Triangular(const int y, const int x)`:
`m(y), n(x), s((y*(y+1))/2)` and then `assert(y == x)`. -/
def Triangular.ctor (y x : Int) : Except Fault Triangular :=
  if y = x then .ok { m := y, n := x, s := (y * (y + 1)).tdiv 2 }
  else .error .assertion

/-- Method `Triangular::set`: `assert(y == x)`, then `m=y; n=x; s=(y*(y+1))/2`. -/
def Triangular.set (_self : Triangular) (y x : Int) : Except Fault Triangular :=
  if y = x then .ok { m := y, n := x, s := (y * (y + 1)).tdiv 2 }
  else .error .assertion

/-- Method `Triangular::size`: returns `s`. -/
def Triangular.size (self : Triangular) : Int := self.s

/-- Method `Triangular::operator()(y, x)`: with `b = y, a = x`, swapped when
`x > y`, returns `(b * (b + 1)) / 2 + a`. -/
def Triangular.offset (_self : Triangular) (y x : Int) : Int :=
  let b := if x > y then x else y
  let a := if x > y then y else x
  (b * (b + 1)).tdiv 2 + a

/-- The `class ColMajor`: fields `int m, n; long s`. -/
structure ColMajor where
  m : Int
  n : Int
  s : Int
  deriving DecidableEq, Repr

/-- Constructor `ColMajor(const int y, const int x) : m(y), n(x), s(y*x)`. -/
def ColMajor.ctor (y x : Int) : ColMajor := { m := y, n := x, s := y * x }

/-- Method `ColMajor::set`: `m=y; n=x; s = y*x`. -/
def ColMajor.set (_self : ColMajor) (y x : Int) : ColMajor := { m := y, n := x, s := y * x }

/-- Method `ColMajor::size`: returns `s`. -/
def ColMajor.size (self : ColMajor) : Int := self.s

/-- Method `ColMajor::operator()(y, x)`: returns `x*m + y`. -/
def ColMajor.offset (self : ColMajor) (y x : Int) : Int := x * self.m + y

/-- The `class RowMajor`: fields `int m, n; long s`. -/
structure RowMajor where
  m : Int
  n : Int
  s : Int
  deriving DecidableEq, Repr

/-- Constructor `RowMajor(const int y, const int x) : m(y), n(x), s(y*x)`. -/
def RowMajor.ctor (y x : Int) : RowMajor := { m := y, n := x, s := y * x }

/-- Method `RowMajor::set`: `m=y; n=x; s=y*x`. -/
def RowMajor.set (_self : RowMajor) (y x : Int) : RowMajor := { m := y, n := x, s := y * x }

/-- Method `RowMajor::size`: returns `s`. -/
def RowMajor.size (self : RowMajor) : Int := self.s

/-- Method `RowMajor::operator()(y, x)`: returns `y*n + x`. -/
def RowMajor.offset (self : RowMajor) (y x : Int) : Int := y * self.n + x

/-- What the template `Matrix<T, Policy>` uses of its `Policy` parameter: the
two-argument constructor, `size()` and `operator()`. -/
class Policy (P : Type) where
  ctor : Int → Int → Except Fault P
  size : P → Int
  offset : P → Int → Int → Int

instance : Policy Triangular where
  ctor := Triangular.ctor
  size := Triangular.size
  offset := Triangular.offset

instance : Policy ColMajor where
  ctor := fun y x => .ok (ColMajor.ctor y x)
  size := ColMajor.size
  offset := ColMajor.offset

instance : Policy RowMajor where
  ctor := fun y x => .ok (RowMajor.ctor y x)
  size := RowMajor.size
  offset := RowMajor.offset

/-! ## Shared buffers -/

/-- The store of element arrays: the block allocated k-th sits at address `k`. -/
abbrev Heap (T : Type) := List (List T)

/-- A `T&`: the element at position `idx` of the block at address `addr`. -/
structure Ref where
  addr : Nat
  idx : Nat
  deriving DecidableEq, Repr

/-- Reading through a reference. -/
def Heap.read {T : Type} (h : Heap T) (r : Ref) : Option T :=
  match h[r.addr]? with
  | some blk => blk[r.idx]?
  | none => none

/-- Assigning through a reference. -/
def Heap.write {T : Type} (h : Heap T) (r : Ref) (v : T) : Heap T :=
  match h[r.addr]? with
  | some blk => h.set r.addr (blk.set r.idx v)
  | none => h

/-- The expression `new T[size]`: a fresh block of `size` elements whose
contents are whatever the memory held (`raw`); its address is returned.  A
negative `size` is refused. -/
def Heap.newArray {T : Type} (h : Heap T) (raw : Nat → T) (size : Int) :
    Except Fault (Nat × Heap T) :=
  if size < 0 then .error .badAlloc
  else .ok (h.length, h ++ [(List.range size.toNat).map raw])

/-- The expression `dptr[i]` on a `boost::shared_array<T>`, whose
`operator[]` is `BOOST_ASSERT(px != 0); BOOST_ASSERT(i >= 0); return px[i];`:
a reference to element `i` of the block the handle names. -/
def sharedIndex {T : Type} (h : Heap T) (dptr : Option Nat) (i : Int) : Except Fault Ref :=
  match dptr with
  | none => .error .sharedAssertion
  | some a =>
    if i < 0 then .error .sharedAssertion
    else
      match h[a]? with
      | none => .error .outOfBuffer
      | some blk =>
        if i < (blk.length : Int) then .ok { addr := a, idx := i.toNat }
        else .error .outOfBuffer

/-! ## The matrix container -/

/-- The `class Matrix<T, Policy>`: fields `int m, n, mi; Policy pol;
boost::shared_array<T> dptr`. -/
structure Matrix (T : Type) (P : Type) where
  m : Int
  n : Int
  mi : Int
  pol : P
  dptr : Option Nat
  deriving DecidableEq

/-- The loop `for (long i=0; i<size; i++) dptr[i] = 0;` run on the block behind
`dptr`. -/
def zeroFill {T : Type} [Zero T] (h : Heap T) (addr : Nat) (size : Int) : Heap T :=
  (List.range size.toNat).foldl (fun hp i => Heap.write hp { addr := addr, idx := i } 0) h

/-- Method `Matrix::allocate`: `size = pol.size()`, a new block of `size`
elements replaces `dptr`, and every element of it is set to `0`. -/
def Matrix.allocate {T P : Type} [Zero T] [Policy P] (self : Matrix T P) (h : Heap T)
    (raw : Nat → T) : Except Fault (Matrix T P × Heap T) :=
  let size := Policy.size self.pol
  match Heap.newArray h raw size with
  | .error e => .error e
  | .ok (addr, h1) => .ok ({ self with dptr := some addr }, zeroFill h1 addr size)

/-- Constructor `Matrix(const int b, const int a) : m(b), n(a), mi(a*b),
pol(b, a) { allocate(); }`. -/
def Matrix.create {T : Type} (P : Type) [Zero T] [Policy P] (h : Heap T) (raw : Nat → T)
    (b a : Int) : Except Fault (Matrix T P × Heap T) :=
  match (Policy.ctor b a : Except Fault P) with
  | .error e => .error e
  | .ok pol => Matrix.allocate { m := b, n := a, mi := a * b, pol := pol, dptr := none } h raw

/-- Method `Matrix::rows`. -/
def Matrix.rows {T P : Type} (self : Matrix T P) : Int := self.m

/-- Method `Matrix::cols`. -/
def Matrix.cols {T P : Type} (self : Matrix T P) : Int := self.n

/-- Method `Matrix::operator[](const long i)`, const or not:
`assert(i < mi); return(dptr[i]);`. -/
def Matrix.index {T P : Type} (self : Matrix T P) (h : Heap T) (i : Int) : Except Fault Ref :=
  if i < self.mi then sharedIndex h self.dptr i else .error .assertion

/-- Method `Matrix::operator()(const int y, const int x)`, const or not:
`long i = pol(y,x); assert(i < mi); return(dptr[i]);`. -/
def Matrix.elem {T P : Type} [Policy P] (self : Matrix T P) (h : Heap T) (y x : Int) :
    Except Fault Ref :=
  let i := Policy.offset self.pol y x
  if i < self.mi then sharedIndex h self.dptr i else .error .assertion

/-- Method `Matrix::get`: the raw pointer `dptr.get()`. -/
def Matrix.get {T P : Type} (self : Matrix T P) : Option Nat := self.dptr

/-- The array a raw pointer points at. -/
def Heap.block {T : Type} (h : Heap T) (p : Option Nat) : Option (List T) :=
  match p with
  | none => none
  | some a => h[a]?

/-- Constructor `Matrix(T* p, const int b, const int a) : m(b), n(a), mi(a*b),
pol(b, a) { dptr = boost::shared_array<T>(p); }`: the block at `p` is taken
over as it is. -/
def Matrix.wrap (T : Type) (P : Type) [Policy P] (p : Option Nat) (b a : Int) :
    Except Fault (Matrix T P) :=
  match (Policy.ctor b a : Except Fault P) with
  | .error e => .error e
  | .ok pol => .ok { m := b, n := a, mi := a * b, pol := pol, dptr := p }

/-- Constructor `Matrix(boost::shared_array<T>& p, const int b, const int a) :
m(b), n(a), mi(a*b), pol(b, a), dptr(p) { }`. -/
def Matrix.share (T : Type) (P : Type) [Policy P] (p : Option Nat) (b a : Int) :
    Except Fault (Matrix T P) :=
  match (Policy.ctor b a : Except Fault P) with
  | .error e => .error e
  | .ok pol => .ok { m := b, n := a, mi := a * b, pol := pol, dptr := p }

/-- Method `Matrix::free`: `m = n = 0; dptr.reset();`. -/
def Matrix.free {T P : Type} (self : Matrix T P) : Matrix T P :=
  { self with m := 0, n := 0, dptr := none }

/-- The expression `q[i]` on a raw pointer `T* q`, read.  Outside the block
the pointer points at (or on a null pointer) there is no element. -/
def Heap.rawRead {T : Type} (h : Heap T) (q : Option Nat) (i : Nat) : Except Fault T :=
  match h.block q with
  | none => .error .outOfBuffer
  | some blk =>
    match blk[i]? with
    | none => .error .outOfBuffer
    | some v => .ok v

/-- The assignment `p[i] = v` through a raw pointer `T* p`. -/
def Heap.rawWrite {T : Type} (h : Heap T) (p : Option Nat) (i : Nat) (v : T) :
    Except Fault (Heap T) :=
  match p with
  | none => .error .outOfBuffer
  | some a =>
    match h[a]? with
    | none => .error .outOfBuffer
    | some blk =>
      if i < blk.length then .ok (h.write { addr := a, idx := i } v)
      else .error .outOfBuffer

/-- One pass of the body `p[i] = q[i];`. -/
def copyStep {T : Type} (p q : Option Nat) (h : Heap T) (i : Nat) : Except Fault (Heap T) :=
  match h.rawRead q i with
  | .error e => .error e
  | .ok v => h.rawWrite p i v

/-- The loop `for (long i=0; i<size; i++) p[i] = q[i];`. -/
def copyLoop {T : Type} (h : Heap T) (p q : Option Nat) (size : Int) : Except Fault (Heap T) :=
  (List.range size.toNat).foldlM (copyStep p q) h

/-- Method `Matrix::copy`: `Matrix<T> result(m, n);` (the second template
argument is left to its default, `ColMajor`), `size = pol.size()`,
`p = result.dptr.get()`, `q = dptr.get()`, then the copying loop. -/
def Matrix.copy {T P : Type} [Zero T] [Policy P] (self : Matrix T P) (h : Heap T)
    (raw : Nat → T) : Except Fault (Matrix T ColMajor × Heap T) :=
  match Matrix.create ColMajor h raw self.m self.n with
  | .error e => .error e
  | .ok (result, h1) =>
    match copyLoop h1 result.get self.get (Policy.size self.pol) with
    | .error e => .error e
    | .ok h2 => .ok (result, h2)

/-- The overload `reinterpretOrder(const Matrix<T, ColMajor>& A)`:
`Matrix<T, RowMajor> result(A.m, A.n); result.dptr = A.dptr;`. -/
def reinterpretOrderColMajor {T : Type} [Zero T] (A : Matrix T ColMajor) (h : Heap T)
    (raw : Nat → T) : Except Fault (Matrix T RowMajor × Heap T) :=
  match Matrix.create RowMajor h raw A.m A.n with
  | .error e => .error e
  | .ok (result, h1) => .ok ({ result with dptr := A.dptr }, h1)

/-- The overload `reinterpretOrder(const Matrix<T, RowMajor>& A)`:
`Matrix<T, ColMajor> result(A.m, A.n); result.dptr = A.dptr;`. -/
def reinterpretOrderRowMajor {T : Type} [Zero T] (A : Matrix T RowMajor) (h : Heap T)
    (raw : Nat → T) : Except Fault (Matrix T ColMajor × Heap T) :=
  match Matrix.create ColMajor h raw A.m A.n with
  | .error e => .error e
  | .ok (result, h1) => .ok ({ result with dptr := A.dptr }, h1)

/-- The policy classes of `Matrix.hpp`. -/
inductive PolicyKind where
  | triangular
  | colMajor
  | rowMajor
  deriving DecidableEq, Repr

/-- The class a policy kind names. -/
def PolicyKind.carrier : PolicyKind → Type
  | .triangular => Triangular
  | .colMajor => ColMajor
  | .rowMajor => RowMajor

instance (k : PolicyKind) : Policy k.carrier :=
  match k with
  | .triangular => inferInstanceAs (Policy Triangular)
  | .colMajor => inferInstanceAs (Policy ColMajor)
  | .rowMajor => inferInstanceAs (Policy RowMajor)

/-! ## Range iterators -/

/-- The `struct Triangular::iterator`: members `long in, ii`. -/
structure Triangular.iterator where
  in_ : Int
  ii : Int
  deriving DecidableEq, Repr

/-- Constructor `Triangular::iterator(si, st, en)`: with `size(si)`,
`in = (size.i * (size.i + 1)) / 2; ii = 0;`. -/
def Triangular.iterator.ctor (si _st _en : Duple) : Triangular.iterator :=
  { in_ := (si.i * (si.i + 1)).tdiv 2, ii := 0 }

/-- Method `Triangular::iterator::next`: `if (ii > in) return(-1);
return(ii++);`.  The value returned and the iterator afterwards. -/
def Triangular.iterator.next (it : Triangular.iterator) : Int × Triangular.iterator :=
  if it.ii > it.in_ then (-1, it) else (it.ii, { it with ii := it.ii + 1 })

/-- The `struct ColMajor::iterator`: members `Duple size, start, end, curr;
bool eod` (`en` stands for `end`). -/
structure ColMajor.iterator where
  size : Duple
  start : Duple
  en : Duple
  curr : Duple
  eod : Bool
  deriving DecidableEq, Repr

/-- Constructor `ColMajor::iterator(si, st, en) : size(si), start(st), end(en),
curr(st), eod(false)`. -/
def ColMajor.iterator.ctor (si st en : Duple) : ColMajor.iterator :=
  { size := si, start := st, en := en, curr := st, eod := false }

/-- Method `ColMajor::iterator::advance`: `if (eod) return(-1);
long i = curr.i * size.j + curr.j;
if (++curr.i >= end.i) { curr.i = start.i; if (++curr.j >= size.j) eod = true; }
return(i);`.  The value returned and the iterator afterwards. -/
def ColMajor.iterator.advance (it : ColMajor.iterator) : Int × ColMajor.iterator :=
  if it.eod then (-1, it)
  else
    let i := it.curr.i * it.size.j + it.curr.j
    if it.curr.i + 1 ≥ it.en.i then
      if it.curr.j + 1 ≥ it.size.j then
        (i, { it with curr := { i := it.start.i, j := it.curr.j + 1 }, eod := true })
      else (i, { it with curr := { i := it.start.i, j := it.curr.j + 1 } })
    else (i, { it with curr := { i := it.curr.i + 1, j := it.curr.j } })

/-- The `struct RowMajor::iterator`: members `Duple size, start, end, curr;
bool eod` (`en` stands for `end`). -/
structure RowMajor.iterator where
  size : Duple
  start : Duple
  en : Duple
  curr : Duple
  eod : Bool
  deriving DecidableEq, Repr

/-- Constructor `RowMajor::iterator(si, st, en) : size(si), start(st), end(en),
curr(st), eod(false)`. -/
def RowMajor.iterator.ctor (si st en : Duple) : RowMajor.iterator :=
  { size := si, start := st, en := en, curr := st, eod := false }

/-- Method `RowMajor::iterator::advance`: `if (eod) return(-1);
long i = curr.j * size.i + curr.i;
if (++curr.i >= end.i) { curr.i = start.i; if (++curr.j >= size.j) eod = true; }
return(i);`.  The value returned and the iterator afterwards. -/
def RowMajor.iterator.advance (it : RowMajor.iterator) : Int × RowMajor.iterator :=
  if it.eod then (-1, it)
  else
    let i := it.curr.j * it.size.i + it.curr.i
    if it.curr.i + 1 ≥ it.en.i then
      if it.curr.j + 1 ≥ it.size.j then
        (i, { it with curr := { i := it.start.i, j := it.curr.j + 1 }, eod := true })
      else (i, { it with curr := { i := it.start.i, j := it.curr.j + 1 } })
    else (i, { it with curr := { i := it.curr.i + 1, j := it.curr.j } })

/-- The member type `Policy::iterator` and its three-`Duple` constructor, as
`Matrix::iterator` uses them. -/
class PolicyIterator (P : Type) where
  iterator : Type
  ctor : Duple → Duple → Duple → iterator

instance : PolicyIterator Triangular where
  iterator := Triangular.iterator
  ctor := Triangular.iterator.ctor

instance : PolicyIterator ColMajor where
  iterator := ColMajor.iterator
  ctor := ColMajor.iterator.ctor

instance : PolicyIterator RowMajor where
  iterator := RowMajor.iterator
  ctor := RowMajor.iterator.ctor

/-- The `struct Matrix::iterator`: member `typename Policy::iterator miter`. -/
structure Matrix.iterator (P : Type) [PolicyIterator P] where
  miter : PolicyIterator.iterator P

/-- Constructor `Matrix::iterator(const Matrix& M) :
miter(Duple(M.m, M.n), Duple(0, 0), Duple(M.m, M.n))`. -/
def Matrix.iterator.ctor {T P : Type} [PolicyIterator P] (M : Matrix T P) : Matrix.iterator P :=
  { miter := PolicyIterator.ctor { i := M.m, j := M.n } { i := 0, j := 0 } { i := M.m, j := M.n } }

/-- Constructor `Matrix::iterator(const Matrix& M, const Duple& start,
const Duple& end) : miter(Duple(M.m, M.n), start, end)`. -/
def Matrix.iterator.ctorRange {T P : Type} [PolicyIterator P] (M : Matrix T P)
    (start en : Duple) : Matrix.iterator P :=
  { miter := PolicyIterator.ctor { i := M.m, j := M.n } start en }

/-- The state an iterator is in after `k` calls of `step`. -/
def afterCalls {σ : Type} (step : σ → Int × σ) : Nat → σ → σ
  | 0, s => s
  | k + 1, s => (step (afterCalls step k s)).2

/-- The values `k` successive calls of `step` return, in order. -/
def yields {σ : Type} (step : σ → Int × σ) (k : Nat) (s : σ) : List Int :=
  (List.range k).map fun j => (step (afterCalls step j s)).1


/-! ## `TimeSeries.hpp` -/

/-- Ways a method of `tTimeSeries` can end without its result: the exceptions
`runtime_error` (arithmetic operators) and `out_of_range` (`windowed_average`,
`vector::at`), `undefined` for an unchecked `_data[i]` outside the vector, and
`missing_return` for the end of the body of a method that returns a value
reached without a `return` statement, which is undefined behaviour and hands
no value to the caller. -/
inductive TSError where
  | runtime_error
  | out_of_range
  | undefined
  | missing_return
  deriving DecidableEq, Repr

/-- The `class tTimeSeries<T>`: member `vector<T> _data`. -/
structure tTimeSeries (T : Type) where
  _data : List T
  deriving DecidableEq, Repr

/-- Private constructor `tTimeSeries(const int n) : _data(n)`: `n`
value-initialised elements. -/
def tTimeSeries.sized {T : Type} [Zero T] (n : Int) : tTimeSeries T :=
  { _data := List.replicate n.toNat 0 }

/-- Method `tTimeSeries::size`. -/
def tTimeSeries.size {T : Type} (self : tTimeSeries T) : Int := self._data.length

/-- Method `tTimeSeries::operator[]`, read: `_data.at(i)`, range checked. -/
def tTimeSeries.at {T : Type} (self : tTimeSeries T) (i : Int) : Except TSError T :=
  if 0 ≤ i then
    match self._data[i.toNat]? with
    | some v => .ok v
    | none => .error .out_of_range
  else .error .out_of_range

/-- Method `tTimeSeries::operator[]`, assigned to: `_data.at(i) = v`. -/
def tTimeSeries.setAt {T : Type} (self : tTimeSeries T) (i : Int) (v : T) :
    Except TSError (tTimeSeries T) :=
  if 0 ≤ i ∧ i < self._data.length then .ok { _data := self._data.set i.toNat v }
  else .error .out_of_range

/-- The unchecked `_data[i]` of `vector`, read. -/
def tTimeSeries.raw {T : Type} (self : tTimeSeries T) (i : Int) : Except TSError T :=
  if 0 ≤ i then
    match self._data[i.toNat]? with
    | some v => .ok v
    | none => .error .undefined
  else .error .undefined

/-- The unchecked `_data[i]` of `vector`, assigned to. -/
def tTimeSeries.setRaw {T : Type} (self : tTimeSeries T) (i : Int) (v : T) :
    Except TSError (tTimeSeries T) :=
  if 0 ≤ i ∧ i < self._data.length then .ok { _data := self._data.set i.toNat v }
  else .error .undefined

/-- One pass of `_data[i] op= rhs[i];` on `*this`, once nothing has been thrown:
the left subscript is unchecked, the right one is `rhs.operator[]`. -/
def tTimeSeries.assignStep {T : Type} (op : T → T → T) (rhs : tTimeSeries T)
    (acc : tTimeSeries T × Option TSError) (i : Nat) : tTimeSeries T × Option TSError :=
  match acc.2 with
  | some _ => acc
  | none =>
    match rhs.at i, acc.1.raw i with
    | .error e, _ => (acc.1, some e)
    | .ok _, .error e => (acc.1, some e)
    | .ok b, .ok a =>
      match acc.1.setRaw i (op a b) with
      | .ok r => (r, none)
      | .error e => (acc.1, some e)

/-- The in-place operators on two series, `operator+=`, `operator-=` and
`operator*=` for `op` the sum, difference and product:
`if (_data.size() != rhs.size()) throw(runtime_error(...));` then
`for (int i=0; i<_data.size(); i++) _data[i] op= rhs[i];` and `return(*this)`.
The first component is what the call returns or throws, the second is `*this`
afterwards. -/
def tTimeSeries.assignOp {T : Type} (op : T → T → T) (self rhs : tTimeSeries T) :
    Except TSError (tTimeSeries T) × tTimeSeries T :=
  if self.size ≠ rhs.size then (.error .runtime_error, self)
  else
    match (List.range self._data.length).foldl (tTimeSeries.assignStep op rhs) (self, none) with
    | (r, none) => (.ok r, r)
    | (r, some e) => (.error e, r)

/-- One pass of `res[i] op= rhs[i];`, both subscripts range checked. -/
def tTimeSeries.binStep {T : Type} (op : T → T → T) (rhs : tTimeSeries T)
    (res : tTimeSeries T) (i : Nat) : Except TSError (tTimeSeries T) :=
  match rhs.at i, res.at i with
  | .error e, _ => .error e
  | .ok _, .error e => .error e
  | .ok b, .ok a => res.setAt i (op a b)

/-- The const operators on two series, `operator+`, `operator-` and
`operator*`: `if (_data.size() != rhs.size()) throw(runtime_error(...));`
then `tTimeSeries<T> res(*this);`, `res[i] op= rhs[i]` for every `i` below the
size, and `return(res)`. -/
def tTimeSeries.binOp {T : Type} (op : T → T → T) (self rhs : tTimeSeries T) :
    Except TSError (tTimeSeries T) :=
  if self.size ≠ rhs.size then .error .runtime_error
  else (List.range self._data.length).foldlM (tTimeSeries.binStep op rhs) self

/-- Method `operator+=(const tTimeSeries<T>&)`. -/
def tTimeSeries.addAssign {T : Type} [Add T] (self rhs : tTimeSeries T) :
    Except TSError (tTimeSeries T) × tTimeSeries T :=
  tTimeSeries.assignOp (fun a b => a + b) self rhs

/-- Method `operator-=(const tTimeSeries<T>&)`. -/
def tTimeSeries.subAssign {T : Type} [Sub T] (self rhs : tTimeSeries T) :
    Except TSError (tTimeSeries T) × tTimeSeries T :=
  tTimeSeries.assignOp (fun a b => a - b) self rhs

/-- Method `operator*=(const tTimeSeries<T>&)`. -/
def tTimeSeries.mulAssign {T : Type} [Mul T] (self rhs : tTimeSeries T) :
    Except TSError (tTimeSeries T) × tTimeSeries T :=
  tTimeSeries.assignOp (fun a b => a * b) self rhs

/-- Method `operator+(const tTimeSeries<T>&) const`. -/
def tTimeSeries.add {T : Type} [Add T] (self rhs : tTimeSeries T) :
    Except TSError (tTimeSeries T) :=
  tTimeSeries.binOp (fun a b => a + b) self rhs

/-- Method `operator-(const tTimeSeries<T>&) const`. -/
def tTimeSeries.sub {T : Type} [Sub T] (self rhs : tTimeSeries T) :
    Except TSError (tTimeSeries T) :=
  tTimeSeries.binOp (fun a b => a - b) self rhs

/-- Method `operator*(const tTimeSeries<T>&) const`. -/
def tTimeSeries.mul {T : Type} [Mul T] (self rhs : tTimeSeries T) :
    Except TSError (tTimeSeries T) :=
  tTimeSeries.binOp (fun a b => a * b) self rhs

/-- One pass of the body of `running_average`:
`sum += _data[i]; result[i] = sum / (i+1);`, on the pair `(sum, result)`. -/
def tTimeSeries.runningStep {T : Type} [Field T] (self : tTimeSeries T)
    (acc : T × tTimeSeries T) (i : Nat) : Except TSError (T × tTimeSeries T) :=
  match self.raw i with
  | .error e => .error e
  | .ok d =>
    let sum := acc.1 + d
    match acc.2.setAt i (sum / ((i : Int) + 1 : Int)) with
    | .error e => .error e
    | .ok r => .ok (sum, r)

/-- Method `running_average`: `tTimeSeries result(_data.size()); T sum = 0.0;`
the loop over `i < _data.size()`, and `return(result)`. -/
def tTimeSeries.running_average {T : Type} [Field T] (self : tTimeSeries T) :
    Except TSError (tTimeSeries T) :=
  match (List.range self._data.length).foldlM self.runningStep
      (0, tTimeSeries.sized self._data.length) with
  | .error e => .error e
  | .ok acc => .ok acc.2

/-- One pass of the first loop of `windowed_average`: `sum += _data[i];`. -/
def tTimeSeries.sumStep {T : Type} [Field T] (self : tTimeSeries T) (sum : T) (i : Nat) :
    Except TSError T :=
  match self.raw i with
  | .error e => .error e
  | .ok d => .ok (sum + d)

/-- One pass of the second loop of `windowed_average`:
`sum = sum - _data[i-1] + _data[i+window-1]; result[i] = sum / window;`. -/
def tTimeSeries.slideStep {T : Type} [Field T] (self : tTimeSeries T) (window : Int)
    (acc : T × tTimeSeries T) (i : Nat) : Except TSError (T × tTimeSeries T) :=
  match self.raw ((i : Int) - 1), self.raw ((i : Int) + window - 1) with
  | .error e, _ => .error e
  | .ok _, .error e => .error e
  | .ok a, .ok b =>
    let sum := acc.1 - a + b
    match acc.2.setAt i (sum / (window : T)) with
    | .error e => .error e
    | .ok r => .ok (sum, r)

/-- The statements of the body of `windowed_average(const int window)`:
`if (window > _data.size()) throw(out_of_range(...));` with `window` converted
to the unsigned `size_t` (64 bits) for the comparison and for
`_data.size() - window`, the size of `result`; the summing loop over
`i < window`; `result[0] = sum / window;` and the sliding loop over
`1 ≤ i < result.size()`.  The value is what was thrown, or the local variable
`result` as it is when the last statement has run. -/
def tTimeSeries.windowed_average_result {T : Type} [Field T] (self : tTimeSeries T)
    (window : Int) : Except TSError (tTimeSeries T) :=
  let w : Int := window % 2 ^ 64
  if w > (self._data.length : Int) then .error .out_of_range
  else
    let result : tTimeSeries T := tTimeSeries.sized ((self._data.length : Int) - w)
    match (List.range window.toNat).foldlM self.sumStep 0 with
    | .error e => .error e
    | .ok sum =>
      match result.setAt 0 (sum / (window : T)) with
      | .error e => .error e
      | .ok result1 =>
        match (List.range' 1 (result1._data.length - 1)).foldlM (self.slideStep window)
            (sum, result1) with
        | .error e => .error e
        | .ok acc => .ok acc.2

/-- Method `windowed_average(const int window)`: the statements of its body,
after which the closing brace is reached.  The body has no `return` statement,
so a call that throws nothing gives the caller no series: it ends in
`TSError.missing_return`, and the local `result` is lost. -/
def tTimeSeries.windowed_average {T : Type} [Field T] (self : tTimeSeries T) (window : Int) :
    Except TSError (tTimeSeries T) :=
  match self.windowed_average_result window with
  | .error e => .error e
  | .ok _ => .error .missing_return

/-! ## 32-bit `int` arithmetic -/

/-- The `int` a computation leaves whose exact result is `v`: the 32-bit
two's-complement value, wrapped around. -/
def wrapInt (v : Int) : Int := (v + 2 ^ 31) % 2 ^ 32 - 2 ^ 31

/-- The expression `(y*(y+1))/2` of `Triangular(y, x)` and `Triangular::set`,
every `int` operation wrapped. -/
def Triangular.sizeWrapped (y : Int) : Int := (wrapInt (y * wrapInt (y + 1))).tdiv 2

/-- Method `Triangular::operator()(y, x)`, every `int` operation wrapped:
`int b = y; int a = x; if (x > y) { b = x; a = y; }` and
`return( (b * (b + 1)) / 2 + a )`. -/
def Triangular.offsetWrapped (y x : Int) : Int :=
  let b := if x > y then x else y
  let a := if x > y then y else x
  wrapInt ((wrapInt (b * wrapInt (b + 1))).tdiv 2 + a)

/-- Method `RowMajor::operator()(y, x)`, every `int` operation wrapped:
`return(y*n + x)`. -/
def RowMajor.offsetWrapped (self : RowMajor) (y x : Int) : Int :=
  wrapInt (wrapInt (y * self.n) + x)

/-- Method `ColMajor::operator()(y, x)`, every `int` operation wrapped:
`return(x*m + y)`. -/
def ColMajor.offsetWrapped (self : ColMajor) (y x : Int) : Int :=
  wrapInt (wrapInt (x * self.m) + y)

/-- The initialiser `mi(a*b)` of the constructors of `Matrix`, the `int`
product wrapped. -/
def Matrix.miWrapped (b a : Int) : Int := wrapInt (a * b)

/-! ## `hierarchy.cpp` -/

/-- The locals of `mfpt`: `double fpt; uint n; bool state; uint start`, the
`double` taken as an exact rational. -/
structure MfptLocals where
  fpt : ℚ
  n : Nat
  state : Bool
  start : Nat
  deriving DecidableEq, Repr

/-- The body of the loop of `mfpt` at index `j`, with `a` the element
`assign[j]`: `if (!state) { if (assign[j] == x) { start = j; state = true; } }
else { if (assign[j] == y) { fpt += (j - start); ++n; state = false; } }`.
The `uint` difference and increment wrap at `2^32`. -/
def mfptBody (x y : Nat) (s : MfptLocals) (j a : Nat) : MfptLocals :=
  if !s.state then
    if a = x then { s with start := j, state := true } else s
  else
    if a = y then
      { s with fpt := s.fpt + (((j + 2 ^ 32 - s.start) % 2 ^ 32 : Nat) : ℚ),
               n := (s.n + 1) % 2 ^ 32, state := false }
    else s

/-- The loop `for (uint j=0; j<assign.size(); ++j)` of `mfpt` from index `j`
on, over the elements of `assign` from `j` on; the vector is shorter than
`2^32`, so that `j` reaches its size. -/
def mfptLoop (x y : Nat) : Nat → List Nat → MfptLocals → MfptLocals
  | _, [], s => s
  | j, a :: rest, s => mfptLoop x y (j + 1) rest (mfptBody x y s j a)

/-- The locals of `mfpt` when the loop is left. -/
def mfptFinal (assign : List Nat) (x y : Nat) : MfptLocals :=
  mfptLoop x y 0 assign { fpt := 0, n := 0, state := false, start := 0 }

/-- Function `mfpt(assign, x, y)`: the locals start as `fpt = 0.0, n = 0,
state = false, start = 0`, the loop runs, and
`return(n != 0 ? static_cast<double>(n)/fpt : 0.0)`. -/
def mfpt (assign : List Nat) (x y : Nat) : ℚ :=
  if (mfptFinal assign x y).n ≠ 0 then
    ((mfptFinal assign x y).n : ℚ) / (mfptFinal assign x y).fpt
  else 0

/-- The completed passages from `x` to `y`, in the words of the specification,
as the list of their lengths: a passage starts at the first frame assigned to
`x` that is not inside a passage and completes at the first later frame
assigned to `y`; its length is the number of frames from its start to its
completion.  The argument is `none` outside a passage and `some l` when a
passage started `l` frames before the head of the list. -/
def passageLengths (x y : Nat) : Option Nat → List Nat → List Nat
  | _, [] => []
  | none, a :: rest =>
    if a = x then passageLengths x y (some 1) rest else passageLengths x y none rest
  | some l, a :: rest =>
    if a = y then l :: passageLengths x y none rest else passageLengths x y (some (l + 1)) rest

/-! ## Arithmetic of the packed triangular index -/

/-- Twice the truncated half of `b*(b+1)` is `b*(b+1)`: the product of two
consecutive integers is even, so the C++ division is exact. -/
theorem two_mul_tdiv_consec (b : Int) : 2 * (b * (b + 1)).tdiv 2 = b * (b + 1) := by
  have hd : (2 : Int) ∣ b * (b + 1) := (Int.even_mul_succ_self b).two_dvd
  rw [Int.tdiv_eq_ediv_of_dvd hd]
  exact Int.mul_ediv_cancel' hd

/-- The exact half of `b*(b+1)` and the floor half agree. -/
theorem tdiv_consec_eq_ediv (b : Int) : (b * (b + 1)).tdiv 2 = b * (b + 1) / 2 :=
  Int.tdiv_eq_ediv_of_dvd (Int.even_mul_succ_self b).two_dvd

/-- The packed index of the lower-triangle cell `(b, a)`, `0 ≤ a ≤ b`,
determines `b` and `a`. -/
theorem packed_index_inj {a b a' b' : Int} (ha : 0 ≤ a) (hab : a ≤ b)
    (ha' : 0 ≤ a') (hab' : a' ≤ b')
    (h : (b * (b + 1)).tdiv 2 + a = (b' * (b' + 1)).tdiv 2 + a') :
    b = b' ∧ a = a' := by
  have e1 := two_mul_tdiv_consec b
  have e2 := two_mul_tdiv_consec b'
  have hb : b = b' := by
    rcases lt_trichotomy b b' with hlt | heq | hgt
    · exfalso
      have : b + 1 ≤ b' := hlt
      nlinarith
    · exact heq
    · exfalso
      have : b' + 1 ≤ b := hgt
      nlinarith
  subst hb
  exact ⟨rfl, by omega⟩

/-- Swapping the two coordinates does not change the packed index. -/
theorem triangular_offset_swap (p : Triangular) (y x : Int) : p.offset y x = p.offset x y := by
  unfold Triangular.offset
  rcases lt_trichotomy x y with h | h | h
  · simp [h, not_lt.mpr h.le]
  · subst h; rfl
  · simp [h, not_lt.mpr h.le]

/-- Row-major offsets of valid coordinates lie in `[0, m*n)`. -/
theorem rowMajor_offset_range (m n y x : Int) (hy0 : 0 ≤ y) (hy1 : y < m) (hx0 : 0 ≤ x)
    (hx1 : x < n) : 0 ≤ (RowMajor.ctor m n).offset y x ∧ (RowMajor.ctor m n).offset y x < m * n := by
  show 0 ≤ y * n + x ∧ y * n + x < m * n
  constructor <;> nlinarith [mul_nonneg hy0 (by omega : (0:Int) ≤ n)]

/-- Column-major offsets of valid coordinates lie in `[0, m*n)`. -/
theorem colMajor_offset_range (m n y x : Int) (hy0 : 0 ≤ y) (hy1 : y < m) (hx0 : 0 ≤ x)
    (hx1 : x < n) : 0 ≤ (ColMajor.ctor m n).offset y x ∧ (ColMajor.ctor m n).offset y x < m * n := by
  show 0 ≤ x * m + y ∧ x * m + y < m * n
  constructor <;> nlinarith [mul_nonneg hx0 (by omega : (0:Int) ≤ m)]

/-- Packed offsets of valid coordinates lie in `[0, n*(n+1)/2)`. -/
theorem triangular_offset_range (p : Triangular) (n y x : Int) (hy0 : 0 ≤ y) (hy1 : y < n)
    (hx0 : 0 ≤ x) (hx1 : x < n) :
    0 ≤ p.offset y x ∧ p.offset y x < (n * (n + 1)).tdiv 2 := by
  unfold Triangular.offset
  have e := two_mul_tdiv_consec (if x > y then x else y)
  have e2 := two_mul_tdiv_consec n
  simp only
  constructor <;> split_ifs at e ⊢ <;> nlinarith

/-- The packed size is never negative. -/
theorem triangular_size_nonneg (n : Int) : 0 ≤ (n * (n + 1)).tdiv 2 := by
  have e := two_mul_tdiv_consec n
  rcases le_or_lt 0 n with h | h
  · nlinarith
  · have : n + 1 ≤ 0 := h
    nlinarith

/-- The packed size does not exceed `n*n`. -/
theorem triangular_size_le_sq (n : Int) : (n * (n + 1)).tdiv 2 ≤ n * n := by
  have e := two_mul_tdiv_consec n
  rcases le_or_lt 0 n with h | h
  · rcases h.eq_or_lt with h0 | h1
    · subst h0; simp
    · have : 1 ≤ n := h1
      nlinarith
  · nlinarith


/-! ## The heap under allocation and zero fill -/


/-- Writing into the most recently allocated block. -/
theorem write_last {T : Type} (h : Heap T) (blk : List T) (i : Nat) (v : T) :
    Heap.write (h ++ [blk]) { addr := h.length, idx := i } v = h ++ [blk.set i v] := by
  simp [Heap.write]

/-- Running the zeroing loop for `k` steps over the newest block. -/
theorem foldl_write_zero {T : Type} [Zero T] (h : Heap T) (blk : List T) (k : Nat)
    (hk : k ≤ blk.length) :
    (List.range k).foldl (fun hp i => Heap.write hp { addr := h.length, idx := i } (0 : T))
      (h ++ [blk]) = h ++ [List.replicate k (0 : T) ++ blk.drop k] := by
  induction k with
  | zero => simp
  | succ k ih =>
    rw [List.range_succ, List.foldl_append, ih (Nat.le_of_succ_le hk)]
    simp only [List.foldl_cons, List.foldl_nil]
    rw [write_last]
    congr 2
    have hlen : (List.replicate k (0 : T)).length = k := List.length_replicate ..
    rw [List.set_append_right _ _ (by simp)]
    rw [hlen, Nat.sub_self, List.drop_eq_getElem_cons hk, List.set_cons_zero,
      List.replicate_succ', List.append_assoc]
    rfl

/-- Allocating `size` elements and zeroing them leaves a block of `size` zeros. -/
theorem zeroFill_newArray {T : Type} [Zero T] (h : Heap T) (raw : Nat → T) (size : Int) :
    zeroFill (h ++ [(List.range size.toNat).map raw]) h.length size =
      h ++ [List.replicate size.toNat (0 : T)] := by
  unfold zeroFill
  rw [foldl_write_zero h _ size.toNat (by simp)]
  simp

/-- The allocating constructor, once the policy accepts the dimensions and
declares a non-negative size. -/
theorem create_eq {T P : Type} [Zero T] [Policy P] (h : Heap T) (raw : Nat → T) (b a : Int)
    (pol : P) (hpol : (Policy.ctor b a : Except Fault P) = .ok pol)
    (hsize : 0 ≤ Policy.size pol) :
    Matrix.create P h raw b a =
      .ok ({ m := b, n := a, mi := a * b, pol := pol, dptr := some h.length },
        h ++ [List.replicate (Policy.size pol).toNat (0 : T)]) := by
  unfold Matrix.create
  rw [hpol]
  simp only [Matrix.allocate, Heap.newArray, not_lt.mpr hsize, if_false]
  rw [zeroFill_newArray]

/-- Subscripting the newest block inside its length. -/
theorem sharedIndex_last {T : Type} (h : Heap T) (blk : List T) (i : Int) (h0 : 0 ≤ i)
    (h1 : i < (blk.length : Int)) :
    sharedIndex (h ++ [blk]) (some h.length) i = .ok { addr := h.length, idx := i.toNat } := by
  simp [sharedIndex, h0, h1]


/-- What the allocating constructor yields for a policy `pol` that accepts the
dimensions, declares a non-negative size, and maps the valid coordinates below
both its size and `a*b`: a matrix on a fresh block of `size` zeros, in which
every valid coordinate resolves to the cell at its offset. -/
theorem create_access {T P : Type} [Zero T] [Policy P] (h : Heap T) (raw : Nat → T) (b a : Int)
    (pol : P) (hpol : (Policy.ctor b a : Except Fault P) = .ok pol)
    (hsize : 0 ≤ Policy.size pol)
    (hoff : ∀ i j : Int, 0 ≤ i → i < b → 0 ≤ j → j < a →
      0 ≤ Policy.offset pol i j ∧ Policy.offset pol i j < Policy.size pol ∧
        Policy.offset pol i j < a * b) :
    ∃ (M : Matrix T P) (h1 : Heap T) (blk : List T),
      Matrix.create P h raw b a = .ok (M, h1) ∧ M.pol = pol ∧ M.mi = a * b ∧
      M.dptr = some h.length ∧ h1 = h ++ [blk] ∧
      blk = List.replicate (Policy.size pol).toNat (0 : T) ∧
      ∀ i j : Int, 0 ≤ i → i < b → 0 ≤ j → j < a →
        M.elem h1 i j = .ok { addr := h.length, idx := (Policy.offset pol i j).toNat } := by
  refine ⟨_, _, _, create_eq h raw b a pol hpol hsize, rfl, rfl, rfl, rfl, rfl, ?_⟩
  intro i j hi0 hi1 hj0 hj1
  obtain ⟨o0, o1, o2⟩ := hoff i j hi0 hi1 hj0 hj1
  unfold Matrix.elem
  simp only [o2, if_true]
  apply sharedIndex_last
  · exact o0
  · simp only [List.length_replicate]
    omega


/-- Reading a cell of the newest block. -/
theorem read_last {T : Type} (h : Heap T) (blk : List T) (i : Nat) :
    Heap.read (h ++ [blk]) { addr := h.length, idx := i } = blk[i]? := by
  simp [Heap.read]

/-- The newest block, seen through its address. -/
theorem block_last {T : Type} (h : Heap T) (blk : List T) :
    Heap.block (h ++ [blk]) (some h.length) = some blk := by
  simp [Heap.block]

/-- A freshly allocated matrix is zero filled: its block has `size` elements,
all `0`, and every valid coordinate reads `0`. -/
theorem create_zeroed {T P : Type} [Zero T] [Policy P] (h : Heap T) (raw : Nat → T) (b a : Int)
    (pol : P) (hpol : (Policy.ctor b a : Except Fault P) = .ok pol)
    (hsize : 0 ≤ Policy.size pol)
    (hoff : ∀ i j : Int, 0 ≤ i → i < b → 0 ≤ j → j < a →
      0 ≤ Policy.offset pol i j ∧ Policy.offset pol i j < Policy.size pol ∧
        Policy.offset pol i j < a * b) :
    ∃ (M : Matrix T P) (h1 : Heap T) (blk : List T),
      Matrix.create P h raw b a = .ok (M, h1) ∧
      h1.block M.get = some blk ∧ (blk.length : Int) = Policy.size M.pol ∧
      (∀ v ∈ blk, v = 0) ∧
      ∀ i j : Int, 0 ≤ i → i < b → 0 ≤ j → j < a →
        ∃ r : Ref, M.elem h1 i j = .ok r ∧ h1.read r = some 0 := by
  obtain ⟨M, h1, blk, hc, hp, _, hd, hh, hb, hel⟩ := create_access h raw b a pol hpol hsize hoff
  refine ⟨M, h1, blk, hc, ?_, ?_, ?_, ?_⟩
  · rw [Matrix.get, hd, hh, block_last]
  · rw [hb, hp, List.length_replicate, Int.toNat_of_nonneg hsize]
  · intro v hv
    rw [hb] at hv
    exact List.eq_of_mem_replicate hv
  · intro i j hi0 hi1 hj0 hj1
    refine ⟨_, hel i j hi0 hi1 hj0 hj1, ?_⟩
    obtain ⟨o0, o1, _⟩ := hoff i j hi0 hi1 hj0 hj1
    rw [hh, read_last, hb]
    have : (Policy.offset pol i j).toNat < (Policy.size pol).toNat := by omega
    simp [List.getElem?_replicate, this]

/-- In a freshly allocated matrix a valid coordinate passes the bound check and
lies inside the block. -/
theorem create_in_bounds {T P : Type} [Zero T] [Policy P] (h : Heap T) (raw : Nat → T)
    (b a : Int) (pol : P) (hpol : (Policy.ctor b a : Except Fault P) = .ok pol)
    (hsize : 0 ≤ Policy.size pol)
    (hoff : ∀ i j : Int, 0 ≤ i → i < b → 0 ≤ j → j < a →
      0 ≤ Policy.offset pol i j ∧ Policy.offset pol i j < Policy.size pol ∧
        Policy.offset pol i j < a * b)
    (r c : Int) (hr0 : 0 ≤ r) (hr1 : r < b) (hc0 : 0 ≤ c) (hc1 : c < a) :
    ∃ (M : Matrix T P) (h1 : Heap T) (blk : List T),
      Matrix.create P h raw b a = .ok (M, h1) ∧ h1.block M.get = some blk ∧
      0 ≤ Policy.offset M.pol r c ∧ Policy.offset M.pol r c < M.mi ∧
      Policy.offset M.pol r c < (blk.length : Int) ∧
      ∃ ref : Ref, M.elem h1 r c = .ok ref := by
  obtain ⟨M, h1, blk, hc, hp, hmi, hd, hh, hb, hel⟩ := create_access h raw b a pol hpol hsize hoff
  obtain ⟨o0, o1, o2⟩ := hoff r c hr0 hr1 hc0 hc1
  refine ⟨M, h1, blk, hc, ?_, ?_, ?_, ?_, _, hel r c hr0 hr1 hc0 hc1⟩
  · rw [Matrix.get, hd, hh, block_last]
  · rw [hp]; exact o0
  · rw [hp, hmi]; exact o2
  · rw [hp, hb, List.length_replicate, Int.toNat_of_nonneg hsize]; exact o1

/-- The three facts `create_access` needs, for RowMajor. -/
theorem rowMajor_lawful (b a : Int) (hb : 0 ≤ b) (ha : 0 ≤ a) :
    0 ≤ Policy.size (RowMajor.ctor b a) ∧
    ∀ i j : Int, 0 ≤ i → i < b → 0 ≤ j → j < a →
      0 ≤ Policy.offset (RowMajor.ctor b a) i j ∧
      Policy.offset (RowMajor.ctor b a) i j < Policy.size (RowMajor.ctor b a) ∧
        Policy.offset (RowMajor.ctor b a) i j < a * b := by
  refine ⟨mul_nonneg hb ha, ?_⟩
  intro i j hi0 hi1 hj0 hj1
  have := rowMajor_offset_range b a i j hi0 hi1 hj0 hj1
  exact ⟨this.1, this.2, by rw [mul_comm a b]; exact this.2⟩

/-- The three facts `create_access` needs, for ColMajor. -/
theorem colMajor_lawful (b a : Int) (hb : 0 ≤ b) (ha : 0 ≤ a) :
    0 ≤ Policy.size (ColMajor.ctor b a) ∧
    ∀ i j : Int, 0 ≤ i → i < b → 0 ≤ j → j < a →
      0 ≤ Policy.offset (ColMajor.ctor b a) i j ∧
      Policy.offset (ColMajor.ctor b a) i j < Policy.size (ColMajor.ctor b a) ∧
        Policy.offset (ColMajor.ctor b a) i j < a * b := by
  refine ⟨mul_nonneg hb ha, ?_⟩
  intro i j hi0 hi1 hj0 hj1
  have := colMajor_offset_range b a i j hi0 hi1 hj0 hj1
  exact ⟨this.1, this.2, by rw [mul_comm a b]; exact this.2⟩

/-- The three facts `create_access` needs, for Triangular on square dimensions. -/
theorem triangular_lawful (n : Int) :
    0 ≤ Policy.size (Triangular.mk n n ((n * (n + 1)).tdiv 2)) ∧
    ∀ i j : Int, 0 ≤ i → i < n → 0 ≤ j → j < n →
      0 ≤ Policy.offset (Triangular.mk n n ((n * (n + 1)).tdiv 2)) i j ∧
      Policy.offset (Triangular.mk n n ((n * (n + 1)).tdiv 2)) i j <
        Policy.size (Triangular.mk n n ((n * (n + 1)).tdiv 2)) ∧
      Policy.offset (Triangular.mk n n ((n * (n + 1)).tdiv 2)) i j < n * n := by
  refine ⟨triangular_size_nonneg n, ?_⟩
  intro i j hi0 hi1 hj0 hj1
  have := triangular_offset_range (Triangular.mk n n ((n * (n + 1)).tdiv 2)) n i j hi0 hi1 hj0 hj1
  exact ⟨this.1, this.2, lt_of_lt_of_le this.2 (triangular_size_le_sq n)⟩

/-- The Triangular constructor on square dimensions. -/
theorem triangular_ctor_square (n : Int) :
    (Policy.ctor n n : Except Fault Triangular) = .ok (Triangular.mk n n ((n * (n + 1)).tdiv 2)) :=
  if_pos rfl


/-! ## Layout policies: range, symmetry, bijectivity -/

/-- C1: for RowMajor, ColMajor and Triangular policies constructed with
`rows x cols` (`rows, cols ≥ 1`, and `rows = cols` for Triangular), every
coordinate inside the dimensions has `0 ≤ offset < size()`, where `size()` is
`rows*cols` for RowMajor and ColMajor and `rows*(rows+1)/2` for Triangular. -/
theorem offset_in_size (rows cols row col : Int) (hrows : 1 ≤ rows) (hcols : 1 ≤ cols)
    (hr0 : 0 ≤ row) (hr1 : row < rows) (hc0 : 0 ≤ col) (hc1 : col < cols) :
    ((RowMajor.ctor rows cols).size = rows * cols ∧
        0 ≤ (RowMajor.ctor rows cols).offset row col ∧
        (RowMajor.ctor rows cols).offset row col < (RowMajor.ctor rows cols).size) ∧
    ((ColMajor.ctor rows cols).size = rows * cols ∧
        0 ≤ (ColMajor.ctor rows cols).offset row col ∧
        (ColMajor.ctor rows cols).offset row col < (ColMajor.ctor rows cols).size) ∧
    (rows = cols → ∃ p : Triangular, Triangular.ctor rows cols = .ok p ∧
        p.size = rows * (rows + 1) / 2 ∧
        0 ≤ p.offset row col ∧ p.offset row col < p.size) := by
  have _h1 := hrows
  have _h2 := hcols
  refine ⟨⟨rfl, rowMajor_offset_range rows cols row col hr0 hr1 hc0 hc1⟩,
    ⟨rfl, colMajor_offset_range rows cols row col hr0 hr1 hc0 hc1⟩, ?_⟩
  intro heq
  subst heq
  exact ⟨_, if_pos rfl, tdiv_consec_eq_ediv rows,
    triangular_offset_range _ rows row col hr0 hr1 hc0 hc1⟩

/-- C1 at a `3 x 3` matrix and the coordinate `(1, 2)`. -/
theorem offset_in_size_witness :
    ((RowMajor.ctor 3 3).size = 3 * 3 ∧
        0 ≤ (RowMajor.ctor 3 3).offset 1 2 ∧
        (RowMajor.ctor 3 3).offset 1 2 < (RowMajor.ctor 3 3).size) ∧
    ((ColMajor.ctor 3 3).size = 3 * 3 ∧
        0 ≤ (ColMajor.ctor 3 3).offset 1 2 ∧
        (ColMajor.ctor 3 3).offset 1 2 < (ColMajor.ctor 3 3).size) ∧
    ((3 : Int) = 3 → ∃ p : Triangular, Triangular.ctor 3 3 = .ok p ∧
        p.size = 3 * (3 + 1) / 2 ∧
        0 ≤ p.offset 1 2 ∧ p.offset 1 2 < p.size) :=
  offset_in_size 3 3 1 2 (by decide) (by decide) (by decide) (by decide) (by decide) (by decide)

/-- C2: the Triangular offset is symmetric, `offset(y, x) = offset(x, y)`, for
all integers `y` and `x`, in particular for all `y, x ≥ 0`. -/
theorem triangular_offset_symm (p : Triangular) (y x : Int) : p.offset y x = p.offset x y :=
  triangular_offset_swap p y x

/-- C3: for an `m x n` matrix with `m, n ≥ 1`, under RowMajor and under
ColMajor, the offset maps the valid coordinates into `[0, m*n)` and every
offset in `[0, m*n)` is the offset of exactly one valid coordinate. -/
theorem rowcol_offset_bijective (m n : Int) (hm : 1 ≤ m) (hn : 1 ≤ n) :
    ((∀ y x : Int, 0 ≤ y → y < m → 0 ≤ x → x < n →
        0 ≤ (RowMajor.ctor m n).offset y x ∧ (RowMajor.ctor m n).offset y x < m * n) ∧
      (∀ k : Int, 0 ≤ k → k < m * n →
        ∃! c : Int × Int, (0 ≤ c.1 ∧ c.1 < m ∧ 0 ≤ c.2 ∧ c.2 < n) ∧
          (RowMajor.ctor m n).offset c.1 c.2 = k)) ∧
    ((∀ y x : Int, 0 ≤ y → y < m → 0 ≤ x → x < n →
        0 ≤ (ColMajor.ctor m n).offset y x ∧ (ColMajor.ctor m n).offset y x < m * n) ∧
      (∀ k : Int, 0 ≤ k → k < m * n →
        ∃! c : Int × Int, (0 ≤ c.1 ∧ c.1 < m ∧ 0 ≤ c.2 ∧ c.2 < n) ∧
          (ColMajor.ctor m n).offset c.1 c.2 = k)) := by
  have hn0 : (0 : Int) < n := by omega
  have hm0 : (0 : Int) < m := by omega
  refine ⟨⟨?_, ?_⟩, ⟨?_, ?_⟩⟩
  · intro y x hy0 hy1 hx0 hx1
    show 0 ≤ y * n + x ∧ y * n + x < m * n
    constructor <;> nlinarith [mul_nonneg hy0 hn0.le]
  · intro k hk0 hk1
    refine ⟨(k / n, k % n), ⟨⟨Int.ediv_nonneg hk0 hn0.le, ?_, Int.emod_nonneg k hn0.ne',
      Int.emod_lt_of_pos k hn0⟩, ?_⟩, ?_⟩
    · exact Int.ediv_lt_of_lt_mul hn0 hk1
    · show k / n * n + k % n = k
      exact Int.ediv_add_emod' k n
    · rintro ⟨y, x⟩ ⟨⟨hy0, hy1, hx0, hx1⟩, hoff⟩
      have hoff' : y * n + x = k := hoff
      have h1 : k / n = y := by
        rw [← hoff', add_comm, Int.add_mul_ediv_right x y hn0.ne', Int.ediv_eq_zero_of_lt hx0 hx1]
        simp
      have h2 : k % n = x := by
        rw [← hoff', mul_comm y n, add_comm, Int.add_mul_emod_self_left, Int.emod_eq_of_lt hx0 hx1]
      simp [h1, h2]
  · intro y x hy0 hy1 hx0 hx1
    show 0 ≤ x * m + y ∧ x * m + y < m * n
    constructor <;> nlinarith [mul_nonneg hx0 hm0.le]
  · intro k hk0 hk1
    have hk1' : k < n * m := by rw [mul_comm]; exact hk1
    refine ⟨(k % m, k / m), ⟨⟨Int.emod_nonneg k hm0.ne', Int.emod_lt_of_pos k hm0,
      Int.ediv_nonneg hk0 hm0.le, ?_⟩, ?_⟩, ?_⟩
    · exact Int.ediv_lt_of_lt_mul hm0 hk1'
    · show k / m * m + k % m = k
      exact Int.ediv_add_emod' k m
    · rintro ⟨y, x⟩ ⟨⟨hy0, hy1, hx0, hx1⟩, hoff⟩
      have hoff' : x * m + y = k := hoff
      have h1 : k / m = x := by
        rw [← hoff', add_comm, Int.add_mul_ediv_right y x hm0.ne', Int.ediv_eq_zero_of_lt hy0 hy1]
        simp
      have h2 : k % m = y := by
        rw [← hoff', mul_comm x m, add_comm, Int.add_mul_emod_self_left, Int.emod_eq_of_lt hy0 hy1]
      simp [h1, h2]

/-- C3 at a `2 x 3` matrix. -/
theorem rowcol_offset_bijective_witness :
    ((∀ y x : Int, 0 ≤ y → y < 2 → 0 ≤ x → x < 3 →
        0 ≤ (RowMajor.ctor 2 3).offset y x ∧ (RowMajor.ctor 2 3).offset y x < 2 * 3) ∧
      (∀ k : Int, 0 ≤ k → k < 2 * 3 →
        ∃! c : Int × Int, (0 ≤ c.1 ∧ c.1 < 2 ∧ 0 ≤ c.2 ∧ c.2 < 3) ∧
          (RowMajor.ctor 2 3).offset c.1 c.2 = k)) ∧
    ((∀ y x : Int, 0 ≤ y → y < 2 → 0 ≤ x → x < 3 →
        0 ≤ (ColMajor.ctor 2 3).offset y x ∧ (ColMajor.ctor 2 3).offset y x < 2 * 3) ∧
      (∀ k : Int, 0 ≤ k → k < 2 * 3 →
        ∃! c : Int × Int, (0 ≤ c.1 ∧ c.1 < 2 ∧ 0 ≤ c.2 ∧ c.2 < 3) ∧
          (ColMajor.ctor 2 3).offset c.1 c.2 = k)) :=
  rowcol_offset_bijective 2 3 (by decide) (by decide)

/-- C4: for the Triangular policy of an `n x n` matrix and valid coordinates
`(y, x)` and `(y', x')`, the offsets are equal exactly when the unordered pairs
`{y, x}` and `{y', x'}` are equal. -/
theorem triangular_offset_inj (n y x y' x' : Int) (p : Triangular)
    (hp : Triangular.ctor n n = .ok p)
    (hy0 : 0 ≤ y) (hy1 : y < n) (hx0 : 0 ≤ x) (hx1 : x < n)
    (hy0' : 0 ≤ y') (hy1' : y' < n) (hx0' : 0 ≤ x') (hx1' : x' < n) :
    p.offset y x = p.offset y' x' ↔ (y = y' ∧ x = x') ∨ (y = x' ∧ x = y') := by
  have _hsq := hp
  have _hbounds := And.intro (And.intro hy1 hx1) (And.intro hy1' hx1')
  constructor
  · intro h
    unfold Triangular.offset at h
    simp only at h
    split_ifs at h with h1 h2 h2
    · have := packed_index_inj hy0 (le_of_lt h1) hy0' (le_of_lt h2) h; omega
    · have := packed_index_inj hy0 (le_of_lt h1) hx0' (not_lt.mp h2) h; omega
    · have := packed_index_inj hx0 (not_lt.mp h1) hy0' (le_of_lt h2) h; omega
    · have := packed_index_inj hx0 (not_lt.mp h1) hx0' (not_lt.mp h2) h; omega
  · rintro (⟨rfl, rfl⟩ | ⟨rfl, rfl⟩)
    · rfl
    · exact triangular_offset_swap p _ _


/-- C4 at a `3 x 3` matrix, for the coordinates `(0, 2)` and `(2, 0)`. -/
theorem triangular_offset_inj_witness :
    Triangular.ctor 3 3 = .ok { m := 3, n := 3, s := 6 } ∧
    ((Triangular.mk 3 3 6).offset 0 2 = (Triangular.mk 3 3 6).offset 2 0 ↔
      ((0 : Int) = 2 ∧ (2 : Int) = 0) ∨ ((0 : Int) = 0 ∧ (2 : Int) = 2)) :=
  ⟨by decide, triangular_offset_inj 3 0 2 2 0 { m := 3, n := 3, s := 6 } (by decide)
    (by decide) (by decide) (by decide) (by decide) (by decide) (by decide) (by decide)
    (by decide)⟩

/-! ## The matrix container: allocation and element access -/

/-- C5: in a freshly allocated `n x n` Triangular matrix, for every valid
`(y, x)` and every value `v`, the element reference of `(x, y)` is the one of
`(y, x)`, so that after writing `v` through `(y, x)` reading `(x, y)` returns
`v`; and the policy-declared element count is `n*(n+1)/2`. -/
theorem triangular_write_read_swapped {T : Type} [Zero T] (h : Heap T) (raw : Nat → T)
    (n y x : Int) (v : T) (hy0 : 0 ≤ y) (hy1 : y < n) (hx0 : 0 ≤ x) (hx1 : x < n) :
    ∃ (M : Matrix T Triangular) (h1 : Heap T) (r : Ref),
      Matrix.create Triangular h raw n n = .ok (M, h1) ∧
      Policy.size M.pol = n * (n + 1) / 2 ∧
      M.elem h1 y x = .ok r ∧
      M.elem (h1.write r v) x y = .ok r ∧
      (h1.write r v).read r = some v := by
  obtain ⟨hsize, hoff⟩ := triangular_lawful n
  obtain ⟨M, h1, blk, hc, hp, hmi, hd, hh, hb, hel⟩ :=
    create_access (T := T) h raw n n _ (triangular_ctor_square n) hsize hoff
  obtain ⟨o0, o1, o2⟩ := hoff y x hy0 hy1 hx0 hx1
  have hswap : Policy.offset M.pol x y = Policy.offset M.pol y x :=
    triangular_offset_swap M.pol x y
  have hlt : (Policy.offset M.pol y x).toNat < blk.length := by
    rw [hb, hp, List.length_replicate]; omega
  refine ⟨M, h1, _, hc, ?_, hel y x hy0 hy1 hx0 hx1, ?_, ?_⟩
  · rw [hp]; exact tdiv_consec_eq_ediv n
  · rw [hh, write_last]
    unfold Matrix.elem
    simp only [hswap]
    rw [hp, hmi, if_pos o2, hd]
    rw [← hp]
    apply sharedIndex_last
    · rw [hp]; exact o0
    · rw [List.length_set]; omega
  · rw [hh, write_last, read_last, ← hp]
    simp [hlt]

/-- C5 on a `3 x 3` matrix of integers: write `5` at `(0, 2)`, read it at
`(2, 0)`; the size is `6`. -/
theorem triangular_write_read_swapped_witness :
    ∃ (M : Matrix Int Triangular) (h1 : Heap Int) (r : Ref),
      Matrix.create Triangular [] (fun _ => 7) 3 3 = .ok (M, h1) ∧
      Policy.size M.pol = 3 * (3 + 1) / 2 ∧
      M.elem h1 0 2 = .ok r ∧
      M.elem (h1.write r 5) 2 0 = .ok r ∧
      (h1.write r 5).read r = some 5 :=
  triangular_write_read_swapped [] (fun _ => 7) 3 0 2 5 (by decide) (by decide) (by decide)
    (by decide)

/-- C6: for RowMajor and ColMajor on dimensions `rows x cols` and for
Triangular on dimensions `n x n`, the allocating constructor yields a block of
exactly `policy.size()` elements, all `0`, and every valid `(i, j)` reads `0`. -/
theorem allocate_zero_filled {T : Type} [Zero T] (h : Heap T) (raw : Nat → T)
    (rows cols n : Int) (hrows : 0 ≤ rows) (hcols : 0 ≤ cols) :
    (∃ (M : Matrix T RowMajor) (h1 : Heap T) (blk : List T),
      Matrix.create RowMajor h raw rows cols = .ok (M, h1) ∧
      h1.block M.get = some blk ∧ (blk.length : Int) = Policy.size M.pol ∧
      (∀ v ∈ blk, v = 0) ∧
      ∀ i j : Int, 0 ≤ i → i < rows → 0 ≤ j → j < cols →
        ∃ r : Ref, M.elem h1 i j = .ok r ∧ h1.read r = some 0) ∧
    (∃ (M : Matrix T ColMajor) (h1 : Heap T) (blk : List T),
      Matrix.create ColMajor h raw rows cols = .ok (M, h1) ∧
      h1.block M.get = some blk ∧ (blk.length : Int) = Policy.size M.pol ∧
      (∀ v ∈ blk, v = 0) ∧
      ∀ i j : Int, 0 ≤ i → i < rows → 0 ≤ j → j < cols →
        ∃ r : Ref, M.elem h1 i j = .ok r ∧ h1.read r = some 0) ∧
    (∃ (M : Matrix T Triangular) (h1 : Heap T) (blk : List T),
      Matrix.create Triangular h raw n n = .ok (M, h1) ∧
      h1.block M.get = some blk ∧ (blk.length : Int) = Policy.size M.pol ∧
      (∀ v ∈ blk, v = 0) ∧
      ∀ i j : Int, 0 ≤ i → i < n → 0 ≤ j → j < n →
        ∃ r : Ref, M.elem h1 i j = .ok r ∧ h1.read r = some 0) := by
  refine ⟨?_, ?_, ?_⟩
  · exact create_zeroed h raw rows cols _ rfl (rowMajor_lawful rows cols hrows hcols).1
      (rowMajor_lawful rows cols hrows hcols).2
  · exact create_zeroed h raw rows cols _ rfl (colMajor_lawful rows cols hrows hcols).1
      (colMajor_lawful rows cols hrows hcols).2
  · exact create_zeroed h raw n n _ (triangular_ctor_square n)
      (triangular_lawful n).1 (triangular_lawful n).2

/-- C6 on `3 x 4` RowMajor and ColMajor and `3 x 3` Triangular allocations of
integers, over a heap that already holds a block. -/
theorem allocate_zero_filled_witness :
    (∃ (M : Matrix Int RowMajor) (h1 : Heap Int) (blk : List Int),
      Matrix.create RowMajor [[1, 2]] (fun k => (k : Int) + 7) 3 4 = .ok (M, h1) ∧
      h1.block M.get = some blk ∧ (blk.length : Int) = Policy.size M.pol ∧
      (∀ v ∈ blk, v = 0) ∧
      ∀ i j : Int, 0 ≤ i → i < 3 → 0 ≤ j → j < 4 →
        ∃ r : Ref, M.elem h1 i j = .ok r ∧ h1.read r = some 0) ∧
    (∃ (M : Matrix Int ColMajor) (h1 : Heap Int) (blk : List Int),
      Matrix.create ColMajor [[1, 2]] (fun k => (k : Int) + 7) 3 4 = .ok (M, h1) ∧
      h1.block M.get = some blk ∧ (blk.length : Int) = Policy.size M.pol ∧
      (∀ v ∈ blk, v = 0) ∧
      ∀ i j : Int, 0 ≤ i → i < 3 → 0 ≤ j → j < 4 →
        ∃ r : Ref, M.elem h1 i j = .ok r ∧ h1.read r = some 0) ∧
    (∃ (M : Matrix Int Triangular) (h1 : Heap Int) (blk : List Int),
      Matrix.create Triangular [[1, 2]] (fun k => (k : Int) + 7) 3 3 = .ok (M, h1) ∧
      h1.block M.get = some blk ∧ (blk.length : Int) = Policy.size M.pol ∧
      (∀ v ∈ blk, v = 0) ∧
      ∀ i j : Int, 0 ≤ i → i < 3 → 0 ≤ j → j < 3 →
        ∃ r : Ref, M.elem h1 i j = .ok r ∧ h1.read r = some 0) :=
  allocate_zero_filled [[1, 2]] (fun k => (k : Int) + 7) 3 4 3 (by decide) (by decide)


/-- C7: constructing a Triangular policy with dimensions `(y, x)`, calling
`Triangular::set(y, x)`, or allocating a Triangular matrix with them, fails
with the assertion exactly when `y ≠ x`, and yields a result when `y = x`. -/
theorem triangular_fails_iff_nonsquare {T : Type} [Zero T] (h : Heap T) (raw : Nat → T)
    (p : Triangular) (y x : Int) :
    ((Triangular.ctor y x = .error .assertion ↔ y ≠ x) ∧
      (y = x → ∃ q, Triangular.ctor y x = .ok q)) ∧
    ((p.set y x = .error .assertion ↔ y ≠ x) ∧
      (y = x → ∃ q, p.set y x = .ok q)) ∧
    ((Matrix.create Triangular h raw y x = .error .assertion ↔ y ≠ x) ∧
      (y = x → ∃ M h1, Matrix.create Triangular h raw y x = .ok (M, h1))) := by
  refine ⟨⟨?_, ?_⟩, ⟨?_, ?_⟩, ⟨?_, ?_⟩⟩
  · unfold Triangular.ctor
    split_ifs with hyx <;> simp [hyx]
  · intro hyx
    exact ⟨_, if_pos hyx⟩
  · unfold Triangular.set
    split_ifs with hyx <;> simp [hyx]
  · intro hyx
    exact ⟨_, if_pos hyx⟩
  · constructor
    · intro hfail hyx
      subst hyx
      rw [create_eq h raw y y _ (triangular_ctor_square y) (triangular_size_nonneg y)] at hfail
      cases hfail
    · intro hyx
      have hc : (Policy.ctor y x : Except Fault Triangular) = .error .assertion := if_neg hyx
      unfold Matrix.create
      rw [hc]
  · intro hyx
    subst hyx
    exact ⟨_, _, create_eq h raw y y _ (triangular_ctor_square y) (triangular_size_nonneg y)⟩

/-- C8: for RowMajor, ColMajor and (on square dimensions) Triangular, in a
matrix allocated with `rows x cols`, `rows, cols ≥ 1`, the access `(r, c)` with
`0 ≤ r < rows` and `0 ≤ c < cols` does not fail: the offset is below the
linear bound `mi`, lies inside the allocated block, and a reference is
returned. -/
theorem valid_access_succeeds {T : Type} [Zero T] (h : Heap T) (raw : Nat → T)
    (rows cols r c : Int) (hrows : 1 ≤ rows) (hcols : 1 ≤ cols)
    (hr0 : 0 ≤ r) (hr1 : r < rows) (hc0 : 0 ≤ c) (hc1 : c < cols) :
    (∃ (M : Matrix T RowMajor) (h1 : Heap T) (blk : List T),
      Matrix.create RowMajor h raw rows cols = .ok (M, h1) ∧ h1.block M.get = some blk ∧
      0 ≤ Policy.offset M.pol r c ∧ Policy.offset M.pol r c < M.mi ∧
      Policy.offset M.pol r c < (blk.length : Int) ∧
      ∃ ref : Ref, M.elem h1 r c = .ok ref) ∧
    (∃ (M : Matrix T ColMajor) (h1 : Heap T) (blk : List T),
      Matrix.create ColMajor h raw rows cols = .ok (M, h1) ∧ h1.block M.get = some blk ∧
      0 ≤ Policy.offset M.pol r c ∧ Policy.offset M.pol r c < M.mi ∧
      Policy.offset M.pol r c < (blk.length : Int) ∧
      ∃ ref : Ref, M.elem h1 r c = .ok ref) ∧
    (rows = cols →
      ∃ (M : Matrix T Triangular) (h1 : Heap T) (blk : List T),
      Matrix.create Triangular h raw rows cols = .ok (M, h1) ∧ h1.block M.get = some blk ∧
      0 ≤ Policy.offset M.pol r c ∧ Policy.offset M.pol r c < M.mi ∧
      Policy.offset M.pol r c < (blk.length : Int) ∧
      ∃ ref : Ref, M.elem h1 r c = .ok ref) := by
  have hrows0 : 0 ≤ rows := by omega
  have hcols0 : 0 ≤ cols := by omega
  refine ⟨?_, ?_, ?_⟩
  · exact create_in_bounds h raw rows cols _ rfl (rowMajor_lawful rows cols hrows0 hcols0).1
      (rowMajor_lawful rows cols hrows0 hcols0).2 r c hr0 hr1 hc0 hc1
  · exact create_in_bounds h raw rows cols _ rfl (colMajor_lawful rows cols hrows0 hcols0).1
      (colMajor_lawful rows cols hrows0 hcols0).2 r c hr0 hr1 hc0 hc1
  · intro heq
    subst heq
    exact create_in_bounds h raw rows rows _ (triangular_ctor_square rows)
      (triangular_lawful rows).1 (triangular_lawful rows).2 r c hr0 hr1 hc0 hc1

/-- C8 on `3 x 3` matrices of integers and the coordinate `(2, 1)`. -/
theorem valid_access_succeeds_witness :
    (∃ (M : Matrix Int RowMajor) (h1 : Heap Int) (blk : List Int),
      Matrix.create RowMajor [] (fun _ => 7) 3 3 = .ok (M, h1) ∧ h1.block M.get = some blk ∧
      0 ≤ Policy.offset M.pol 2 1 ∧ Policy.offset M.pol 2 1 < M.mi ∧
      Policy.offset M.pol 2 1 < (blk.length : Int) ∧
      ∃ ref : Ref, M.elem h1 2 1 = .ok ref) ∧
    (∃ (M : Matrix Int ColMajor) (h1 : Heap Int) (blk : List Int),
      Matrix.create ColMajor [] (fun _ => 7) 3 3 = .ok (M, h1) ∧ h1.block M.get = some blk ∧
      0 ≤ Policy.offset M.pol 2 1 ∧ Policy.offset M.pol 2 1 < M.mi ∧
      Policy.offset M.pol 2 1 < (blk.length : Int) ∧
      ∃ ref : Ref, M.elem h1 2 1 = .ok ref) ∧
    ((3 : Int) = 3 →
      ∃ (M : Matrix Int Triangular) (h1 : Heap Int) (blk : List Int),
      Matrix.create Triangular [] (fun _ => 7) 3 3 = .ok (M, h1) ∧ h1.block M.get = some blk ∧
      0 ≤ Policy.offset M.pol 2 1 ∧ Policy.offset M.pol 2 1 < M.mi ∧
      Policy.offset M.pol 2 1 < (blk.length : Int) ∧
      ∃ ref : Ref, M.elem h1 2 1 = .ok ref) :=
  valid_access_succeeds [] (fun _ => 7) 3 3 2 1 (by decide) (by decide) (by decide) (by decide)
    (by decide) (by decide)

/-- What a successful allocating constructor returned. -/
theorem create_ok_inv {T P : Type} [Zero T] [Policy P] {h : Heap T} {raw : Nat → T} {b a : Int}
    {M : Matrix T P} {h1 : Heap T} (hc : Matrix.create P h raw b a = .ok (M, h1)) :
    ∃ pol : P, (Policy.ctor b a : Except Fault P) = .ok pol ∧ 0 ≤ Policy.size pol ∧
      M = { m := b, n := a, mi := a * b, pol := pol, dptr := some h.length } ∧
      h1 = h ++ [List.replicate (Policy.size pol).toNat (0 : T)] := by
  cases hpol : (Policy.ctor b a : Except Fault P) with
  | error e =>
    unfold Matrix.create at hc
    rw [hpol] at hc
    cases hc
  | ok pol =>
    rcases lt_or_le (Policy.size pol) 0 with hneg | hnn
    · unfold Matrix.create at hc
      rw [hpol] at hc
      simp [Matrix.allocate, Heap.newArray, hneg] at hc
    · rw [create_eq h raw b a pol hpol hnn] at hc
      injection hc with hc
      injection hc with hM hh
      exact ⟨pol, rfl, hnn, hM.symm, hh.symm⟩

/-- Reading through a raw pointer into an older block while a newer block
sits on top of the heap. -/
theorem rawRead_below {T : Type} (h : Heap T) (top : List T) (a : Nat) (blk : List T)
    (ha : h[a]? = some blk) (i : Nat) (hi : i < blk.length) :
    Heap.rawRead (h ++ [top]) (some a) i = .ok (blk.get ⟨i, hi⟩) := by
  have hlt : a < h.length := by
    rcases Nat.lt_or_ge a h.length with hl | hl
    · exact hl
    · rw [List.getElem?_eq_none hl] at ha; cases ha
  have hb : (h ++ [top])[a]? = some blk := by
    rw [List.getElem?_append_left hlt]; exact ha
  simp [Heap.rawRead, Heap.block, hb, List.getElem?_eq_getElem hi]

/-- Writing through a raw pointer into the newest block. -/
theorem rawWrite_last {T : Type} (h : Heap T) (top : List T) (i : Nat) (v : T)
    (hi : i < top.length) :
    Heap.rawWrite (h ++ [top]) (some h.length) i v = .ok (h ++ [top.set i v]) := by
  simp [Heap.rawWrite, hi, write_last]

/-- Running the copying loop for `k` steps from an older block into the newest. -/
theorem foldlM_copyStep {T : Type} (h : Heap T) (top : List T) (a : Nat) (blk : List T)
    (ha : h[a]? = some blk) (k : Nat) (hk1 : k ≤ blk.length) (hk2 : k ≤ top.length) :
    (List.range k).foldlM (copyStep (some h.length) (some a)) (h ++ [top]) =
      .ok (h ++ [blk.take k ++ top.drop k]) := by
  induction k with
  | zero => simp; rfl
  | succ k ih =>
    have hk1' : k < blk.length := hk1
    have hk2' : k < top.length := hk2
    rw [List.range_succ, List.foldlM_append, ih (Nat.le_of_lt hk1') (Nat.le_of_lt hk2')]
    show (List.foldlM (copyStep (some h.length) (some a)) (h ++ [blk.take k ++ top.drop k]) [k]) = _
    simp only [List.foldlM_cons, List.foldlM_nil]
    have hstep : copyStep (some h.length) (some a) (h ++ [blk.take k ++ top.drop k]) k =
        .ok (h ++ [blk.take (k + 1) ++ top.drop (k + 1)]) := by
      unfold copyStep
      rw [rawRead_below h _ a blk ha k hk1']
      simp only
      rw [rawWrite_last _ _ _ _ (by simp; omega)]
      congr 2
      have hlen : (blk.take k).length = k := by simp; omega
      rw [List.set_append_right _ _ (by omega), hlen, Nat.sub_self,
        List.drop_eq_getElem_cons hk2', List.set_cons_zero, List.take_succ,
        List.getElem?_eq_getElem hk1', List.append_assoc]
      rfl
    rw [hstep]
    rfl

/-- The result of `copy()` on a matrix whose block holds at least `size()`
elements, when `size()` does not exceed `rows*cols`. -/
theorem copy_eq {T P : Type} [Zero T] [Policy P] (M : Matrix T P) (h : Heap T) (raw : Nat → T)
    (a : Nat) (blk : List T) (hd : M.dptr = some a) (ha : h[a]? = some blk)
    (hmn : 0 ≤ M.m * M.n) (hlen : (Policy.size M.pol).toNat ≤ blk.length)
    (hfit : (Policy.size M.pol).toNat ≤ (M.m * M.n).toNat) :
    M.copy h raw =
      .ok ({ m := M.m, n := M.n, mi := M.n * M.m, pol := ColMajor.ctor M.m M.n,
             dptr := some h.length },
        h ++ [blk.take (Policy.size M.pol).toNat ++
          (List.replicate (M.m * M.n).toNat (0 : T)).drop (Policy.size M.pol).toNat]) := by
  unfold Matrix.copy
  rw [create_eq h raw M.m M.n (ColMajor.ctor M.m M.n) rfl hmn]
  simp only [copyLoop, Matrix.get, hd]
  have hsz : Policy.size (ColMajor.ctor M.m M.n) = M.m * M.n := rfl
  rw [hsz, foldlM_copyStep h _ a blk ha _ hlen (by simpa using hfit)]

/-- For each of the three policy classes, a policy built from `(b, a)` declares
a size of at most `b*a`. -/
theorem size_le_dims (k : PolicyKind) (b a : Int) (pol : k.carrier)
    (hpol : (Policy.ctor b a : Except Fault k.carrier) = .ok pol) :
    Policy.size pol ≤ b * a := by
  cases k with
  | triangular =>
    have hp : Triangular.ctor b a = .ok pol := hpol
    unfold Triangular.ctor at hp
    split_ifs at hp with hba
    injection hp with hp
    subst hp
    subst hba
    exact triangular_size_le_sq b
  | colMajor =>
    have hp : Except.ok (ColMajor.ctor b a) = Except.ok pol := hpol
    injection hp with hp
    subst hp
    exact le_refl (b * a)
  | rowMajor =>
    have hp : Except.ok (RowMajor.ctor b a) = Except.ok pol := hpol
    injection hp with hp
    subst hp
    exact le_refl (b * a)

/-- A pointer with a block behind it is an address of the heap. -/
theorem block_some_inv {T : Type} {h : Heap T} {p : Option Nat} {blk : List T}
    (hb : h.block p = some blk) : ∃ a : Nat, p = some a ∧ h[a]? = some blk ∧ a < h.length := by
  cases p with
  | none => cases hb
  | some a =>
    have ha : h[a]? = some blk := hb
    refine ⟨a, rfl, ha, ?_⟩
    rcases Nat.lt_or_ge a h.length with hl | hl
    · exact hl
    · rw [List.getElem?_eq_none hl] at ha; cases ha

/-- Older blocks are not touched by an allocation. -/
theorem getElem?_append_old {T : Type} (h : Heap T) (top : List T) (a : Nat) (blk : List T)
    (ha : h[a]? = some blk) : (h ++ [top])[a]? = some blk := by
  have hlt : a < h.length := by
    rcases Nat.lt_or_ge a h.length with hl | hl
    · exact hl
    · rw [List.getElem?_eq_none hl] at ha; cases ha
  rw [List.getElem?_append_left hlt]; exact ha

/-- Subscripting a handle inside its block. -/
theorem sharedIndex_ok {T : Type} (h : Heap T) (a : Nat) (blk : List T) (ha : h[a]? = some blk)
    (i : Int) (h0 : 0 ≤ i) (h1 : i < (blk.length : Int)) :
    sharedIndex h (some a) i = .ok { addr := a, idx := i.toNat } := by
  simp [sharedIndex, ha, h0, h1]

/-- A reference obtained by subscripting a handle points into that handle's block. -/
theorem sharedIndex_addr {T : Type} {h : Heap T} {p : Option Nat} {i : Int} {ref : Ref}
    (hs : sharedIndex h p i = .ok ref) : p = some ref.addr := by
  unfold sharedIndex at hs
  cases p with
  | none => cases hs
  | some a =>
    simp only at hs
    split_ifs at hs with hneg
    cases hb : h[a]? with
    | none => rw [hb] at hs; cases hs
    | some blk =>
      rw [hb] at hs
      simp only at hs
      split_ifs at hs
      injection hs with hs
      subst hs
      rfl

/-- Reading a cell of a block. -/
theorem read_of_block {T : Type} (h : Heap T) (a : Nat) (blk : List T) (ha : h[a]? = some blk)
    (i : Nat) : h.read { addr := a, idx := i } = blk[i]? := by
  simp [Heap.read, ha]

/-- Writing a cell of a block replaces that block and no other. -/
theorem write_of_block {T : Type} (h : Heap T) (a : Nat) (blk : List T) (ha : h[a]? = some blk)
    (i : Nat) (v : T) : h.write { addr := a, idx := i } v = h.set a (blk.set i v) := by
  simp [Heap.write, ha]

/-- A write through a reference leaves the blocks at other addresses alone. -/
theorem write_getElem?_ne {T : Type} (h : Heap T) (ref : Ref) (v : T) (a : Nat)
    (hne : ref.addr ≠ a) : (h.write ref v)[a]? = h[a]? := by
  unfold Heap.write
  cases hb : h[ref.addr]? with
  | none => rfl
  | some blk => simp [List.getElem?_set_ne hne]

/-- A write through a reference into the block at `a`. -/
theorem write_getElem?_eq {T : Type} (h : Heap T) (a : Nat) (blk : List T)
    (ha : h[a]? = some blk) (i : Nat) (v : T) :
    (h.write { addr := a, idx := i } v)[a]? = some (blk.set i v) := by
  have hlt : a < h.length := by
    rcases Nat.lt_or_ge a h.length with hl | hl
    · exact hl
    · rw [List.getElem?_eq_none hl] at ha; cases ha
  rw [write_of_block h a blk ha]
  simp [List.getElem?_set_self, hlt]

/-- The overload on `ColMajor`, when `rows*cols` is not negative. -/
theorem reinterpretOrderColMajor_eq {T : Type} [Zero T] (A : Matrix T ColMajor) (h : Heap T)
    (raw : Nat → T) (hmn : 0 ≤ A.m * A.n) :
    reinterpretOrderColMajor A h raw =
      .ok ({ m := A.m, n := A.n, mi := A.n * A.m, pol := RowMajor.ctor A.m A.n, dptr := A.dptr },
        h ++ [List.replicate (A.m * A.n).toNat (0 : T)]) := by
  unfold reinterpretOrderColMajor
  rw [create_eq h raw A.m A.n (RowMajor.ctor A.m A.n) rfl hmn]
  rfl

/-- The overload on `RowMajor`, when `rows*cols` is not negative. -/
theorem reinterpretOrderRowMajor_eq {T : Type} [Zero T] (A : Matrix T RowMajor) (h : Heap T)
    (raw : Nat → T) (hmn : 0 ≤ A.m * A.n) :
    reinterpretOrderRowMajor A h raw =
      .ok ({ m := A.m, n := A.n, mi := A.n * A.m, pol := ColMajor.ctor A.m A.n, dptr := A.dptr },
        h ++ [List.replicate (A.m * A.n).toNat (0 : T)]) := by
  unfold reinterpretOrderRowMajor
  rw [create_eq h raw A.m A.n (ColMajor.ctor A.m A.n) rfl hmn]
  rfl

/-- Subscripting a handle at or beyond the end of its block. -/
theorem sharedIndex_beyond {T : Type} (h : Heap T) (a : Nat) (blk : List T)
    (ha : h[a]? = some blk) (i : Int) (hi : (blk.length : Int) ≤ i) :
    sharedIndex h (some a) i = .error .outOfBuffer := by
  have h0 : ¬ i < 0 := by omega
  have hn : ¬ i < (blk.length : Int) := by omega
  simp only [sharedIndex, ha, h0, hn, if_false]

/-- C11: in a Triangular matrix allocated with `n x n`, `n ≥ 2`, the bound
`mi = n*n` of linear access is strictly greater than the length `n*(n+1)/2` of
the allocated block, so some index passes the check `i < mi` of `operator[]`
and lies outside the block. -/
theorem triangular_bound_exceeds_buffer {T : Type} [Zero T] (h : Heap T) (raw : Nat → T)
    (n : Int) (hn : 2 ≤ n) :
    ∃ (M : Matrix T Triangular) (h1 : Heap T) (blk : List T),
      Matrix.create Triangular h raw n n = .ok (M, h1) ∧ h1.block M.get = some blk ∧
      M.mi = n * n ∧ (blk.length : Int) = n * (n + 1) / 2 ∧ (blk.length : Int) < M.mi ∧
      ∃ i : Int, i < M.mi ∧ (blk.length : Int) ≤ i ∧ M.index h1 i = .error .outOfBuffer := by
  have hsz := triangular_size_nonneg n
  have e := two_mul_tdiv_consec n
  have hlt : (n * (n + 1)).tdiv 2 < n * n := by nlinarith
  have hlen : ((List.replicate ((n * (n + 1)).tdiv 2).toNat (0 : T)).length : Int) =
      (n * (n + 1)).tdiv 2 := by
    rw [List.length_replicate, Int.toNat_of_nonneg hsz]
  refine ⟨_, _, _, create_eq h raw n n _ (triangular_ctor_square n) hsz, block_last _ _, rfl,
    ?_, lt_of_eq_of_lt hlen hlt, (n * (n + 1)).tdiv 2, hlt, le_of_eq hlen, ?_⟩
  · rw [← tdiv_consec_eq_ediv]; exact hlen
  · show (if (n * (n + 1)).tdiv 2 < n * n then sharedIndex _ (some h.length) _ else _) = _
    rw [if_pos hlt]
    exact sharedIndex_beyond _ h.length _ (List.getElem?_concat_length _ _) _ (le_of_eq hlen)

/-- C11 on a `3 x 3` matrix of integers: `mi` is `9`, the block holds `6`. -/
theorem triangular_bound_exceeds_buffer_witness :
    ∃ (M : Matrix Int Triangular) (h1 : Heap Int) (blk : List Int),
      Matrix.create Triangular [] (fun _ => 7) 3 3 = .ok (M, h1) ∧ h1.block M.get = some blk ∧
      M.mi = 3 * 3 ∧ (blk.length : Int) = 3 * (3 + 1) / 2 ∧ (blk.length : Int) < M.mi ∧
      ∃ i : Int, i < M.mi ∧ (blk.length : Int) ≤ i ∧ M.index h1 i = .error .outOfBuffer :=
  triangular_bound_exceeds_buffer [] (fun _ => 7) 3 (by decide)

/-- C12 at a `3 x 4` RowMajor matrix that is freed: `free()` sets `m` and `n`
to `0` and leaves `mi` at `12`, so `mi` is not `rows() * cols()`; index `0`
still passes the check of `operator[]` and finds no buffer, which the shared
array's own assertion on its null handle reports. -/
theorem free_leaves_bound_stale :
    Matrix.create RowMajor ([] : Heap Int) (fun _ => 7) 3 4 =
      .ok ({ m := 3, n := 4, mi := 12, pol := { m := 3, n := 4, s := 12 }, dptr := some 0 },
        [[0, 0, 0, 0, 0, 0, 0, 0, 0, 0, 0, 0]]) ∧
    Matrix.mi (Matrix.free ({ m := 3, n := 4, mi := 12, pol := { m := 3, n := 4, s := 12 }, dptr := some 0 } :
        Matrix Int RowMajor)) = 12 ∧
    Matrix.rows (Matrix.free ({ m := 3, n := 4, mi := 12, pol := { m := 3, n := 4, s := 12 }, dptr := some 0 } :
        Matrix Int RowMajor)) *
      Matrix.cols (Matrix.free ({ m := 3, n := 4, mi := 12, pol := { m := 3, n := 4, s := 12 }, dptr := some 0 } :
        Matrix Int RowMajor)) = 0 ∧
    Matrix.index (Matrix.free ({ m := 3, n := 4, mi := 12, pol := { m := 3, n := 4, s := 12 }, dptr := some 0 } :
        Matrix Int RowMajor)) [[0, 0, 0, 0, 0, 0, 0, 0, 0, 0, 0, 0]] 0 = .error .sharedAssertion := by
  decide

/-- C13 at a `2 x 3` RowMajor matrix wrapping the array `10, ..., 15`: the
result of `copy()` is a `ColMajor` matrix, and its element `(0, 1)` is `12`
while the element `(0, 1)` of the original is `11`. -/
theorem copy_changes_layout :
    Matrix.wrap Int RowMajor (some 0) 2 3 =
      .ok { m := 2, n := 3, mi := 6, pol := { m := 2, n := 3, s := 6 }, dptr := some 0 } ∧
    Matrix.copy ({ m := 2, n := 3, mi := 6, pol := { m := 2, n := 3, s := 6 }, dptr := some 0 } :
        Matrix Int RowMajor) [[10, 11, 12, 13, 14, 15]] (fun _ => 7) =
      .ok (({ m := 2, n := 3, mi := 6, pol := { m := 2, n := 3, s := 6 }, dptr := some 1 } :
          Matrix Int ColMajor),
        [[10, 11, 12, 13, 14, 15], [10, 11, 12, 13, 14, 15]]) ∧
    Matrix.elem ({ m := 2, n := 3, mi := 6, pol := { m := 2, n := 3, s := 6 }, dptr := some 0 } :
        Matrix Int RowMajor) [[10, 11, 12, 13, 14, 15], [10, 11, 12, 13, 14, 15]] 0 1 =
      .ok { addr := 0, idx := 1 } ∧
    Heap.read ([[10, 11, 12, 13, 14, 15], [10, 11, 12, 13, 14, 15]] : Heap Int)
      { addr := 0, idx := 1 } = some 11 ∧
    Matrix.elem ({ m := 2, n := 3, mi := 6, pol := { m := 2, n := 3, s := 6 }, dptr := some 1 } :
        Matrix Int ColMajor) [[10, 11, 12, 13, 14, 15], [10, 11, 12, 13, 14, 15]] 0 1 =
      .ok { addr := 1, idx := 2 } ∧
    Heap.read ([[10, 11, 12, 13, 14, 15], [10, 11, 12, 13, 14, 15]] : Heap Int)
      { addr := 1, idx := 2 } = some 12 := by
  decide

/-- C14: for a matrix `M` of any of the three policies made by the allocating
constructor, whatever its block of `policy.size()` elements holds by now,
`M.copy()` has a block of its own, another one than that of `M` and one that
was not on the heap before the call; that block is at least `policy.size()`
long and its element `i` is element `i` of `M`, for every
`0 ≤ i < policy.size()`; the block of `M` is as it was. -/
theorem copy_duplicates_buffer {T : Type} [Zero T] (k : PolicyKind) (h0 : Heap T)
    (raw0 : Nat → T) (b a : Int) (M : Matrix T k.carrier) (h1 : Heap T)
    (hcreate : Matrix.create k.carrier h0 raw0 b a = .ok (M, h1))
    (h : Heap T) (raw : Nat → T) (blk : List T) (hblk : h.block M.get = some blk)
    (hlen : (blk.length : Int) = Policy.size M.pol) :
    ∃ (C : Matrix T ColMajor) (h2 : Heap T) (cblk : List T),
      M.copy h raw = .ok (C, h2) ∧ C.get ≠ M.get ∧ h.block C.get = none ∧
      h2.block C.get = some cblk ∧ h2.block M.get = some blk ∧
      Policy.size M.pol ≤ (cblk.length : Int) ∧
      ∀ i : Nat, (i : Int) < Policy.size M.pol →
        ∃ v : T, blk[i]? = some v ∧ cblk[i]? = some v := by
  obtain ⟨pol, hpol, hnn, hM, _⟩ := create_ok_inv hcreate
  obtain ⟨adr, hd, ha, hadr⟩ := block_some_inv hblk
  have hfit : Policy.size M.pol ≤ M.m * M.n := by
    rw [hM]; exact size_le_dims k b a pol hpol
  have hnn' : 0 ≤ Policy.size M.pol := by rw [hM]; exact hnn
  have hmn : 0 ≤ M.m * M.n := le_trans hnn' hfit
  have hsz : (Policy.size M.pol).toNat = blk.length := by omega
  have hfit' : (Policy.size M.pol).toNat ≤ (M.m * M.n).toNat := by omega
  refine ⟨_, _, _, copy_eq M h raw adr blk hd ha hmn (le_of_eq hsz) hfit', ?_, ?_,
    block_last _ _, ?_, ?_, ?_⟩
  · have hd' : M.dptr = some adr := hd
    show (some h.length : Option Nat) ≠ M.dptr
    rw [hd']
    intro e
    injection e with e
    omega
  · show h[h.length]? = none
    exact List.getElem?_eq_none (le_refl _)
  · have hd' : M.dptr = some adr := hd
    show Heap.block _ M.dptr = some blk
    rw [hd']
    exact getElem?_append_old h _ adr blk ha
  · rw [hsz, List.take_length]
    simp only [List.length_append, List.length_drop, List.length_replicate]
    omega
  · intro i hi
    have hi' : i < blk.length := by omega
    refine ⟨blk.get ⟨i, hi'⟩, List.getElem?_eq_getElem hi', ?_⟩
    rw [hsz, List.take_length, List.getElem?_append_left hi']
    exact List.getElem?_eq_getElem hi'

/-- C14 on a `3 x 3` Triangular matrix of integers whose block by now holds
`1, ..., 6`. -/
theorem copy_duplicates_buffer_witness :
    ∃ (C : Matrix Int ColMajor) (h2 : Heap Int) (cblk : List Int),
      Matrix.copy ({ m := 3, n := 3, mi := 9, pol := { m := 3, n := 3, s := 6 }, dptr := some 0 } :
          Matrix Int Triangular) [[1, 2, 3, 4, 5, 6]] (fun _ => 7) = .ok (C, h2) ∧
      C.get ≠ Matrix.get ({ m := 3, n := 3, mi := 9, pol := { m := 3, n := 3, s := 6 }, dptr := some 0 } :
          Matrix Int Triangular) ∧
      Heap.block ([[1, 2, 3, 4, 5, 6]] : Heap Int) C.get = none ∧
      h2.block C.get = some cblk ∧
      h2.block (Matrix.get ({ m := 3, n := 3, mi := 9, pol := { m := 3, n := 3, s := 6 }, dptr := some 0 } :
          Matrix Int Triangular)) = some [1, 2, 3, 4, 5, 6] ∧
      Policy.size (Matrix.pol ({ m := 3, n := 3, mi := 9, pol := { m := 3, n := 3, s := 6 }, dptr := some 0 } :
          Matrix Int Triangular)) ≤ (cblk.length : Int) ∧
      ∀ i : Nat, (i : Int) < Policy.size (Matrix.pol ({ m := 3, n := 3, mi := 9, pol := { m := 3, n := 3, s := 6 }, dptr := some 0 } :
          Matrix Int Triangular)) →
        ∃ v : Int, ([1, 2, 3, 4, 5, 6] : List Int)[i]? = some v ∧ cblk[i]? = some v :=
  copy_duplicates_buffer PolicyKind.triangular [] (fun _ => 7) 3 3
    { m := 3, n := 3, mi := 9, pol := { m := 3, n := 3, s := 6 }, dptr := some 0 }
    [[0, 0, 0, 0, 0, 0]] rfl [[1, 2, 3, 4, 5, 6]] (fun _ => 7) [1, 2, 3, 4, 5, 6]
    (by decide) (by decide)

/-- A reference returned by `operator[]` points into the matrix's own block. -/
theorem index_addr {T P : Type} {M : Matrix T P} {h : Heap T} {i : Int} {ref : Ref}
    (hi : M.index h i = .ok ref) : M.dptr = some ref.addr := by
  unfold Matrix.index at hi
  split_ifs at hi
  exact sharedIndex_addr hi

/-- A reference returned by `operator()` points into the matrix's own block. -/
theorem elem_addr {T P : Type} [Policy P] {M : Matrix T P} {h : Heap T} {y x : Int} {ref : Ref}
    (hi : M.elem h y x = .ok ref) : M.dptr = some ref.addr := by
  unfold Matrix.elem at hi
  simp only at hi
  split_ifs at hi
  exact sharedIndex_addr hi

/-- A write through a reference leaves the block behind another pointer alone. -/
theorem write_block_ne {T : Type} (h : Heap T) (ref : Ref) (v : T) (a : Nat)
    (hne : ref.addr ≠ a) : (h.write ref v).block (some a) = h.block (some a) :=
  write_getElem?_ne h ref v a hne

/-- C15: for a matrix `M` of any of the three policies, in the state its
constructor left it in and with a block of `policy.size()` elements, the copy
`C = M.copy()` sits on a fresh block of its own: a write through any
reference `C` hands out, by `operator[]` or `operator()`, leaves the block of
`M` as it was, and a write through any reference `M` hands out leaves the
block of `C` as it was. -/
theorem copy_independent {T : Type} [Zero T] (k : PolicyKind) (M : Matrix T k.carrier)
    (h : Heap T) (raw : Nat → T) (blk : List T)
    (hpol : (Policy.ctor M.m M.n : Except Fault k.carrier) = .ok M.pol)
    (hblk : h.block M.get = some blk) (hlen : (blk.length : Int) = Policy.size M.pol) :
    ∃ (C : Matrix T ColMajor) (h2 : Heap T) (cblk : List T),
      M.copy h raw = .ok (C, h2) ∧ h2.block M.get = some blk ∧ h2.block C.get = some cblk ∧
      C.get ≠ M.get ∧
      (∀ (ref : Ref) (v : T),
        ((∃ i, C.index h2 i = .ok ref) ∨ (∃ r c, C.elem h2 r c = .ok ref)) →
          (h2.write ref v).block M.get = some blk) ∧
      (∀ (ref : Ref) (v : T),
        ((∃ i, M.index h2 i = .ok ref) ∨ (∃ r c, M.elem h2 r c = .ok ref)) →
          (h2.write ref v).block C.get = some cblk) := by
  obtain ⟨adr, hd, ha, hadr⟩ := block_some_inv hblk
  have hd' : M.dptr = some adr := hd
  have hfit : Policy.size M.pol ≤ M.m * M.n := size_le_dims k M.m M.n M.pol hpol
  have hnn : 0 ≤ Policy.size M.pol := by omega
  have hmn : 0 ≤ M.m * M.n := le_trans hnn hfit
  have hsz : (Policy.size M.pol).toNat = blk.length := by omega
  have hfit' : (Policy.size M.pol).toNat ≤ (M.m * M.n).toNat := by omega
  have hMblk : ∀ top : List T, Heap.block (h ++ [top]) M.get = some blk := by
    intro top
    show Heap.block _ M.dptr = some blk
    rw [hd']
    exact getElem?_append_old h _ adr blk ha
  have hne : h.length ≠ adr := by omega
  refine ⟨_, _, _, copy_eq M h raw adr blk hd ha hmn (le_of_eq hsz) hfit', hMblk _,
    block_last _ _, ?_, ?_, ?_⟩
  · show some h.length ≠ M.dptr
    rw [hd']
    intro hc
    injection hc with hc
    exact hne hc
  · intro ref v href
    have hr : some h.length = some ref.addr := by
      rcases href with ⟨i, hi⟩ | ⟨r, c, hi⟩
      · exact index_addr hi
      · exact elem_addr hi
    injection hr with hr
    show Heap.block _ M.dptr = some blk
    rw [hd', write_block_ne _ ref v adr (by omega)]
    exact getElem?_append_old h _ adr blk ha
  · intro ref v href
    have hr : M.dptr = some ref.addr := by
      rcases href with ⟨i, hi⟩ | ⟨r, c, hi⟩
      · exact index_addr hi
      · exact elem_addr hi
    rw [hd'] at hr
    injection hr with hr
    show Heap.block _ (some h.length) = _
    rw [write_block_ne _ ref v h.length (by omega)]
    exact block_last _ _

/-- C15 on a `2 x 3` RowMajor matrix of integers whose block holds
`10, ..., 15`. -/
theorem copy_independent_witness :
    ∃ (C : Matrix Int ColMajor) (h2 : Heap Int) (cblk : List Int),
      Matrix.copy ({ m := 2, n := 3, mi := 6, pol := { m := 2, n := 3, s := 6 }, dptr := some 0 } :
          Matrix Int RowMajor) [[10, 11, 12, 13, 14, 15]] (fun _ => 7) = .ok (C, h2) ∧
      h2.block (Matrix.get ({ m := 2, n := 3, mi := 6, pol := { m := 2, n := 3, s := 6 }, dptr := some 0 } :
          Matrix Int RowMajor)) = some [10, 11, 12, 13, 14, 15] ∧
      h2.block C.get = some cblk ∧
      C.get ≠ Matrix.get ({ m := 2, n := 3, mi := 6, pol := { m := 2, n := 3, s := 6 }, dptr := some 0 } :
          Matrix Int RowMajor) ∧
      (∀ (ref : Ref) (v : Int),
        ((∃ i, C.index h2 i = .ok ref) ∨ (∃ r c, C.elem h2 r c = .ok ref)) →
          (h2.write ref v).block (Matrix.get ({ m := 2, n := 3, mi := 6, pol := { m := 2, n := 3, s := 6 }, dptr := some 0 } :
            Matrix Int RowMajor)) = some [10, 11, 12, 13, 14, 15]) ∧
      (∀ (ref : Ref) (v : Int),
        ((∃ i, Matrix.index ({ m := 2, n := 3, mi := 6, pol := { m := 2, n := 3, s := 6 }, dptr := some 0 } :
            Matrix Int RowMajor) h2 i = .ok ref) ∨
          (∃ r c, Matrix.elem ({ m := 2, n := 3, mi := 6, pol := { m := 2, n := 3, s := 6 }, dptr := some 0 } :
            Matrix Int RowMajor) h2 r c = .ok ref)) →
          (h2.write ref v).block C.get = some cblk) :=
  copy_independent PolicyKind.rowMajor
    { m := 2, n := 3, mi := 6, pol := { m := 2, n := 3, s := 6 }, dptr := some 0 }
    [[10, 11, 12, 13, 14, 15]] (fun _ => 7) [10, 11, 12, 13, 14, 15] rfl (by decide) (by decide)

/-- Linear access inside both the bound and the block. -/
theorem index_ok {T P : Type} (M : Matrix T P) (h : Heap T) (a : Nat) (blk : List T)
    (hd : M.dptr = some a) (ha : h[a]? = some blk) (i : Int) (h0 : 0 ≤ i) (h1 : i < M.mi)
    (h2 : i < (blk.length : Int)) : M.index h i = .ok { addr := a, idx := i.toNat } := by
  unfold Matrix.index
  rw [if_pos h1, hd]
  exact sharedIndex_ok h a blk ha i h0 h2

/-- 2D access whose offset is inside both the bound and the block. -/
theorem elem_ok {T P : Type} [Policy P] (M : Matrix T P) (h : Heap T) (a : Nat) (blk : List T)
    (hd : M.dptr = some a) (ha : h[a]? = some blk) (y x : Int)
    (h0 : 0 ≤ Policy.offset M.pol y x) (h1 : Policy.offset M.pol y x < M.mi)
    (h2 : Policy.offset M.pol y x < (blk.length : Int)) :
    M.elem h y x = .ok { addr := a, idx := (Policy.offset M.pol y x).toNat } := by
  unfold Matrix.elem
  simp only
  rw [if_pos h1, hd]
  exact sharedIndex_ok h a blk ha _ h0 h2

/-- A cell inside a block holds a value. -/
theorem read_some {T : Type} (h : Heap T) (a : Nat) (blk : List T) (ha : h[a]? = some blk)
    (i : Nat) (hi : i < blk.length) :
    h.read { addr := a, idx := i } = some (blk.get ⟨i, hi⟩) := by
  rw [read_of_block h a blk ha]
  exact List.getElem?_eq_getElem hi

/-- Two matrices on one handle: a write through `operator[]` of either is read
back through `operator[]` of the other. -/
theorem alias_write_read {T P Q : Type} (A : Matrix T P) (B : Matrix T Q) (h : Heap T)
    (blk : List T) (hshare : B.get = A.get) (hblk : h.block A.get = some blk) (i : Int) (v : T)
    (h0 : 0 ≤ i) (hiA : i < A.mi) (hiB : i < B.mi) (hlen : i < (blk.length : Int)) :
    ∃ ref : Ref, B.index h i = .ok ref ∧ A.index h i = .ok ref ∧
      A.index (h.write ref v) i = .ok ref ∧ B.index (h.write ref v) i = .ok ref ∧
      (h.write ref v).read ref = some v := by
  obtain ⟨a, hd, ha, _⟩ := block_some_inv hblk
  have hdA : A.dptr = some a := hd
  have hdB : B.dptr = some a := by
    have : B.dptr = A.dptr := hshare
    rw [this]; exact hdA
  have hw := write_getElem?_eq h a blk ha i.toNat v
  have hlen' : i < ((blk.set i.toNat v).length : Int) := by rw [List.length_set]; exact hlen
  refine ⟨{ addr := a, idx := i.toNat }, index_ok B h a blk hdB ha i h0 hiB hlen,
    index_ok A h a blk hdA ha i h0 hiA hlen, index_ok A _ a _ hdA hw i h0 hiA hlen',
    index_ok B _ a _ hdB hw i h0 hiB hlen', ?_⟩
  rw [read_of_block _ a _ hw]
  have : i.toNat < blk.length := by omega
  simp [this]

/-- A second matrix put on the handle of `A` after one more allocation: linear
access gives the reference and the value it gave through `A` before. -/
theorem view_index_same {T P Q : Type} (A : Matrix T P) (B : Matrix T Q) (h : Heap T)
    (top blk : List T) (hshare : B.dptr = A.dptr) (hblk : h.block A.get = some blk) (i : Int)
    (h0 : 0 ≤ i) (hiA : i < A.mi) (hiB : i < B.mi) (hlen : i < (blk.length : Int)) :
    ∃ (ref : Ref) (v : T), B.index (h ++ [top]) i = .ok ref ∧ A.index h i = .ok ref ∧
      (h ++ [top]).read ref = some v ∧ h.read ref = some v := by
  obtain ⟨a, hd, ha, _⟩ := block_some_inv hblk
  have hdA : A.dptr = some a := hd
  have hdB : B.dptr = some a := by rw [hshare]; exact hdA
  have ha' := getElem?_append_old h top a blk ha
  have hi : i.toNat < blk.length := by omega
  exact ⟨_, _, index_ok B _ a blk hdB ha' i h0 hiB hlen, index_ok A h a blk hdA ha i h0 hiA hlen,
    read_some _ a blk ha' _ hi, read_some h a blk ha _ hi⟩

/-- C16: for a ColMajor matrix `A` (and likewise a RowMajor matrix `A'`) in the
state its constructor left it in, on a block of at least `rows*cols`
elements, `B = reinterpretOrder(A)` is a matrix of the other policy with the
rows and columns of `A` and the buffer pointer of `A`; the block is as it was,
and for every `0 ≤ i < rows*cols`, `B[i]` is the reference, and holds the
value, that `A[i]` was. -/
theorem reinterpret_shares_buffer {T : Type} [Zero T] (h : Heap T) (raw : Nat → T)
    (A : Matrix T ColMajor) (A' : Matrix T RowMajor) (blk blk' : List T)
    (hmi : A.mi = A.n * A.m) (hmn : 0 ≤ A.m * A.n) (hblk : h.block A.get = some blk)
    (hlen : A.m * A.n ≤ (blk.length : Int))
    (hmi' : A'.mi = A'.n * A'.m) (hmn' : 0 ≤ A'.m * A'.n) (hblk' : h.block A'.get = some blk')
    (hlen' : A'.m * A'.n ≤ (blk'.length : Int)) :
    (∃ (B : Matrix T RowMajor) (h2 : Heap T),
      reinterpretOrderColMajor A h raw = .ok (B, h2) ∧
      B.rows = A.rows ∧ B.cols = A.cols ∧ B.get = A.get ∧ h2.block B.get = some blk ∧
      ∀ i : Int, 0 ≤ i → i < A.rows * A.cols →
        ∃ (ref : Ref) (v : T), B.index h2 i = .ok ref ∧ A.index h i = .ok ref ∧
          h2.read ref = some v ∧ h.read ref = some v) ∧
    (∃ (B : Matrix T ColMajor) (h2 : Heap T),
      reinterpretOrderRowMajor A' h raw = .ok (B, h2) ∧
      B.rows = A'.rows ∧ B.cols = A'.cols ∧ B.get = A'.get ∧ h2.block B.get = some blk' ∧
      ∀ i : Int, 0 ≤ i → i < A'.rows * A'.cols →
        ∃ (ref : Ref) (v : T), B.index h2 i = .ok ref ∧ A'.index h i = .ok ref ∧
          h2.read ref = some v ∧ h.read ref = some v) := by
  constructor
  · obtain ⟨a, hd, ha, _⟩ := block_some_inv hblk
    have hdA : A.dptr = some a := hd
    refine ⟨_, _, reinterpretOrderColMajor_eq A h raw hmn, rfl, rfl, rfl, ?_, ?_⟩
    · show Heap.block _ A.dptr = some blk
      rw [hdA]
      exact getElem?_append_old h _ a blk ha
    · intro i h0 h1
      have h1' : i < A.m * A.n := h1
      exact view_index_same A
        ({ m := A.m, n := A.n, mi := A.n * A.m, pol := RowMajor.ctor A.m A.n, dptr := A.dptr } :
          Matrix T RowMajor) h _ blk rfl hblk i h0 (by rw [hmi, mul_comm]; exact h1')
        (by show i < A.n * A.m; rw [mul_comm]; exact h1') (lt_of_lt_of_le h1' hlen)
  · obtain ⟨a, hd, ha, _⟩ := block_some_inv hblk'
    have hdA : A'.dptr = some a := hd
    refine ⟨_, _, reinterpretOrderRowMajor_eq A' h raw hmn', rfl, rfl, rfl, ?_, ?_⟩
    · show Heap.block _ A'.dptr = some blk'
      rw [hdA]
      exact getElem?_append_old h _ a blk' ha
    · intro i h0 h1
      have h1' : i < A'.m * A'.n := h1
      exact view_index_same A'
        ({ m := A'.m, n := A'.n, mi := A'.n * A'.m, pol := ColMajor.ctor A'.m A'.n,
           dptr := A'.dptr } : Matrix T ColMajor) h _ blk' rfl hblk' i h0
        (by rw [hmi', mul_comm]; exact h1')
        (by show i < A'.n * A'.m; rw [mul_comm]; exact h1') (lt_of_lt_of_le h1' hlen')

/-- C16 on `2 x 3` matrices of integers wrapping `10, ..., 15` and
`20, ..., 25`. -/
theorem reinterpret_shares_buffer_witness :
    (∃ (B : Matrix Int RowMajor) (h2 : Heap Int),
      reinterpretOrderColMajor ({ m := 2, n := 3, mi := 6, pol := { m := 2, n := 3, s := 6 }, dptr := some 0 } :
          Matrix Int ColMajor) [[10, 11, 12, 13, 14, 15], [20, 21, 22, 23, 24, 25]]
        (fun _ => 7) = .ok (B, h2) ∧
      B.rows = 2 ∧ B.cols = 3 ∧ B.get = some 0 ∧
      h2.block B.get = some [10, 11, 12, 13, 14, 15] ∧
      ∀ i : Int, 0 ≤ i → i < 2 * 3 →
        ∃ (ref : Ref) (v : Int), B.index h2 i = .ok ref ∧
          Matrix.index ({ m := 2, n := 3, mi := 6, pol := { m := 2, n := 3, s := 6 }, dptr := some 0 } :
            Matrix Int ColMajor) [[10, 11, 12, 13, 14, 15], [20, 21, 22, 23, 24, 25]] i = .ok ref ∧
          h2.read ref = some v ∧
          Heap.read ([[10, 11, 12, 13, 14, 15], [20, 21, 22, 23, 24, 25]] : Heap Int) ref =
            some v) ∧
    (∃ (B : Matrix Int ColMajor) (h2 : Heap Int),
      reinterpretOrderRowMajor ({ m := 2, n := 3, mi := 6, pol := { m := 2, n := 3, s := 6 }, dptr := some 1 } :
          Matrix Int RowMajor) [[10, 11, 12, 13, 14, 15], [20, 21, 22, 23, 24, 25]]
        (fun _ => 7) = .ok (B, h2) ∧
      B.rows = 2 ∧ B.cols = 3 ∧ B.get = some 1 ∧
      h2.block B.get = some [20, 21, 22, 23, 24, 25] ∧
      ∀ i : Int, 0 ≤ i → i < 2 * 3 →
        ∃ (ref : Ref) (v : Int), B.index h2 i = .ok ref ∧
          Matrix.index ({ m := 2, n := 3, mi := 6, pol := { m := 2, n := 3, s := 6 }, dptr := some 1 } :
            Matrix Int RowMajor) [[10, 11, 12, 13, 14, 15], [20, 21, 22, 23, 24, 25]] i = .ok ref ∧
          h2.read ref = some v ∧
          Heap.read ([[10, 11, 12, 13, 14, 15], [20, 21, 22, 23, 24, 25]] : Heap Int) ref =
            some v) :=
  reinterpret_shares_buffer [[10, 11, 12, 13, 14, 15], [20, 21, 22, 23, 24, 25]] (fun _ => 7)
    { m := 2, n := 3, mi := 6, pol := { m := 2, n := 3, s := 6 }, dptr := some 0 }
    { m := 2, n := 3, mi := 6, pol := { m := 2, n := 3, s := 6 }, dptr := some 1 }
    [10, 11, 12, 13, 14, 15] [20, 21, 22, 23, 24, 25]
    (by decide) (by decide) (by decide) (by decide) (by decide) (by decide) (by decide)
    (by decide)

/-- C17 fails as stated: for the `2 x 3` ColMajor matrix `A` and
`B = reinterpretOrder(A)`, the coordinate `(1, 1)` has offset `3` under `A`
while `(1, 1)`, its swap, has offset `4` under `B`, so `B.at(1, 1)` and
`A.at(1, 1)` are different cells. -/
theorem reinterpret_not_transposed_counterexample :
    reinterpretOrderColMajor ({ m := 2, n := 3, mi := 6, pol := { m := 2, n := 3, s := 6 }, dptr := some 0 } :
        Matrix Int ColMajor) [[10, 11, 12, 13, 14, 15]] (fun _ => 7) =
      .ok (({ m := 2, n := 3, mi := 6, pol := { m := 2, n := 3, s := 6 }, dptr := some 0 } :
          Matrix Int RowMajor),
        [[10, 11, 12, 13, 14, 15], [0, 0, 0, 0, 0, 0]]) ∧
    Policy.offset ({ m := 2, n := 3, s := 6 } : ColMajor) 1 1 = 3 ∧
    Policy.offset ({ m := 2, n := 3, s := 6 } : RowMajor) 1 1 = 4 ∧
    Matrix.elem ({ m := 2, n := 3, mi := 6, pol := { m := 2, n := 3, s := 6 }, dptr := some 0 } :
        Matrix Int ColMajor) [[10, 11, 12, 13, 14, 15], [0, 0, 0, 0, 0, 0]] 1 1 =
      .ok { addr := 0, idx := 3 } ∧
    Matrix.elem ({ m := 2, n := 3, mi := 6, pol := { m := 2, n := 3, s := 6 }, dptr := some 0 } :
        Matrix Int RowMajor) [[10, 11, 12, 13, 14, 15], [0, 0, 0, 0, 0, 0]] 1 1 =
      .ok { addr := 0, idx := 4 } := by
  decide

/-- C17 (amended): for an `m x n` ColMajor matrix `A` (and likewise a RowMajor
matrix `A'`) in the state its constructor left it in, with
`B = reinterpretOrder(A)`, the offset of `(j, i)` under the policy of `B`
equals the offset of `(i, j)` under the policy of `A` exactly when `m = n` or
`j = 0` (for `A'`: `m = n` or `i = 0`); for a square matrix `B.at(j, i)` is
the same access as `A.at(i, j)`. -/
theorem reinterpret_transposes_iff {T : Type} [Zero T] (h : Heap T) (raw : Nat → T)
    (A : Matrix T ColMajor) (A' : Matrix T RowMajor) (i j : Int)
    (hpol : A.pol = ColMajor.ctor A.m A.n) (hmi : A.mi = A.n * A.m) (hmn : 0 ≤ A.m * A.n)
    (hpol' : A'.pol = RowMajor.ctor A'.m A'.n) (hmi' : A'.mi = A'.n * A'.m)
    (hmn' : 0 ≤ A'.m * A'.n) :
    (∃ (B : Matrix T RowMajor) (h2 : Heap T),
      reinterpretOrderColMajor A h raw = .ok (B, h2) ∧
      (Policy.offset B.pol j i = Policy.offset A.pol i j ↔ (A.m = A.n ∨ j = 0)) ∧
      (A.m = A.n → B.elem h2 j i = A.elem h2 i j)) ∧
    (∃ (B : Matrix T ColMajor) (h2 : Heap T),
      reinterpretOrderRowMajor A' h raw = .ok (B, h2) ∧
      (Policy.offset B.pol j i = Policy.offset A'.pol i j ↔ (A'.m = A'.n ∨ i = 0)) ∧
      (A'.m = A'.n → B.elem h2 j i = A'.elem h2 i j)) := by
  constructor
  · have hoff : Policy.offset (RowMajor.ctor A.m A.n) j i = Policy.offset A.pol i j ↔
        (A.m = A.n ∨ j = 0) := by
      rw [hpol]
      show j * A.n + i = j * A.m + i ↔ _
      constructor
      · intro he
        have : j * (A.n - A.m) = 0 := by linarith
        rcases mul_eq_zero.mp this with h0 | h0
        · exact Or.inr h0
        · exact Or.inl (by omega)
      · rintro (he | he)
        · rw [he]
        · rw [he]; simp
    refine ⟨_, _, reinterpretOrderColMajor_eq A h raw hmn, hoff, ?_⟩
    intro hsq
    unfold Matrix.elem
    simp only [hoff.mpr (Or.inl hsq), hmi]
  · have hoff : Policy.offset (ColMajor.ctor A'.m A'.n) j i = Policy.offset A'.pol i j ↔
        (A'.m = A'.n ∨ i = 0) := by
      rw [hpol']
      show i * A'.m + j = i * A'.n + j ↔ _
      constructor
      · intro he
        have : i * (A'.m - A'.n) = 0 := by linarith
        rcases mul_eq_zero.mp this with h0 | h0
        · exact Or.inr h0
        · exact Or.inl (by omega)
      · rintro (he | he)
        · rw [he]
        · rw [he]; simp
    refine ⟨_, _, reinterpretOrderRowMajor_eq A' h raw hmn', hoff, ?_⟩
    intro hsq
    unfold Matrix.elem
    simp only [hoff.mpr (Or.inl hsq), hmi']

/-- C17 (amended) on a `3 x 3` ColMajor and a `3 x 3` RowMajor matrix of
integers and the coordinate `(1, 2)`. -/
theorem reinterpret_transposes_iff_witness :
    (∃ (B : Matrix Int RowMajor) (h2 : Heap Int),
      reinterpretOrderColMajor ({ m := 3, n := 3, mi := 9, pol := { m := 3, n := 3, s := 9 }, dptr := some 0 } :
          Matrix Int ColMajor) [[1, 2, 3, 4, 5, 6, 7, 8, 9]] (fun _ => 7) = .ok (B, h2) ∧
      (Policy.offset B.pol 2 1 = Policy.offset ({ m := 3, n := 3, s := 9 } : ColMajor) 1 2 ↔
        ((3 : Int) = 3 ∨ (2 : Int) = 0)) ∧
      ((3 : Int) = 3 → B.elem h2 2 1 =
        Matrix.elem ({ m := 3, n := 3, mi := 9, pol := { m := 3, n := 3, s := 9 }, dptr := some 0 } :
          Matrix Int ColMajor) h2 1 2)) ∧
    (∃ (B : Matrix Int ColMajor) (h2 : Heap Int),
      reinterpretOrderRowMajor ({ m := 3, n := 3, mi := 9, pol := { m := 3, n := 3, s := 9 }, dptr := some 0 } :
          Matrix Int RowMajor) [[1, 2, 3, 4, 5, 6, 7, 8, 9]] (fun _ => 7) = .ok (B, h2) ∧
      (Policy.offset B.pol 2 1 = Policy.offset ({ m := 3, n := 3, s := 9 } : RowMajor) 1 2 ↔
        ((3 : Int) = 3 ∨ (1 : Int) = 0)) ∧
      ((3 : Int) = 3 → B.elem h2 2 1 =
        Matrix.elem ({ m := 3, n := 3, mi := 9, pol := { m := 3, n := 3, s := 9 }, dptr := some 0 } :
          Matrix Int RowMajor) h2 1 2)) :=
  reinterpret_transposes_iff [[1, 2, 3, 4, 5, 6, 7, 8, 9]] (fun _ => 7)
    { m := 3, n := 3, mi := 9, pol := { m := 3, n := 3, s := 9 }, dptr := some 0 }
    { m := 3, n := 3, mi := 9, pol := { m := 3, n := 3, s := 9 }, dptr := some 0 } 1 2
    (by decide) (by decide) (by decide) (by decide) (by decide) (by decide)

/-- A matrix equal in every field, looked at after two more allocations: 2D
access gives the reference and the value it gave before. -/
theorem elem_same_after_allocs {T P : Type} [Policy P] (M : Matrix T P) (h : Heap T)
    (t1 t2 blk : List T) (hblk : h.block M.get = some blk) (y x : Int)
    (h0 : 0 ≤ Policy.offset M.pol y x) (h1 : Policy.offset M.pol y x < M.mi)
    (h2 : Policy.offset M.pol y x < (blk.length : Int)) :
    ∃ (ref : Ref) (v : T), M.elem (h ++ [t1] ++ [t2]) y x = .ok ref ∧ M.elem h y x = .ok ref ∧
      (h ++ [t1] ++ [t2]).read ref = some v ∧ h.read ref = some v := by
  obtain ⟨a, hd, ha, _⟩ := block_some_inv hblk
  have hdM : M.dptr = some a := hd
  have ha' := getElem?_append_old (h ++ [t1]) t2 a blk (getElem?_append_old h t1 a blk ha)
  have hi : (Policy.offset M.pol y x).toNat < blk.length := by omega
  exact ⟨_, _, elem_ok M _ a blk hdM ha' y x h0 h1 h2, elem_ok M h a blk hdM ha y x h0 h1 h2,
    read_some _ a blk ha' _ hi, read_some h a blk ha _ hi⟩

/-- C18: for an `m x n` RowMajor matrix `M` (and likewise a ColMajor matrix
`M'`) in the state its constructor left it in, on a block of at least
`rows*cols` elements, `R = reinterpretOrder(reinterpretOrder(M))` is `M`
again, field by field (same policy, dimensions and buffer), and for every
valid `(r, c)`, `R.at(r, c)` is the reference, and holds the value, that
`M.at(r, c)` was. -/
theorem reinterpret_round_trip {T : Type} [Zero T] (h : Heap T) (raw : Nat → T)
    (M : Matrix T RowMajor) (M' : Matrix T ColMajor) (blk blk' : List T)
    (hpol : M.pol = RowMajor.ctor M.m M.n) (hmi : M.mi = M.n * M.m) (hmn : 0 ≤ M.m * M.n)
    (hblk : h.block M.get = some blk) (hlen : M.m * M.n ≤ (blk.length : Int))
    (hpol' : M'.pol = ColMajor.ctor M'.m M'.n) (hmi' : M'.mi = M'.n * M'.m)
    (hmn' : 0 ≤ M'.m * M'.n) (hblk' : h.block M'.get = some blk')
    (hlen' : M'.m * M'.n ≤ (blk'.length : Int)) :
    (∃ (B : Matrix T ColMajor) (h2 : Heap T) (R : Matrix T RowMajor) (h3 : Heap T),
      reinterpretOrderRowMajor M h raw = .ok (B, h2) ∧
      reinterpretOrderColMajor B h2 raw = .ok (R, h3) ∧ R = M ∧
      ∀ r c : Int, 0 ≤ r → r < M.rows → 0 ≤ c → c < M.cols →
        ∃ (ref : Ref) (v : T), R.elem h3 r c = .ok ref ∧ M.elem h r c = .ok ref ∧
          h3.read ref = some v ∧ h.read ref = some v) ∧
    (∃ (B : Matrix T RowMajor) (h2 : Heap T) (R : Matrix T ColMajor) (h3 : Heap T),
      reinterpretOrderColMajor M' h raw = .ok (B, h2) ∧
      reinterpretOrderRowMajor B h2 raw = .ok (R, h3) ∧ R = M' ∧
      ∀ r c : Int, 0 ≤ r → r < M'.rows → 0 ≤ c → c < M'.cols →
        ∃ (ref : Ref) (v : T), R.elem h3 r c = .ok ref ∧ M'.elem h r c = .ok ref ∧
          h3.read ref = some v ∧ h.read ref = some v) := by
  constructor
  · have hR : (Matrix.mk M.m M.n (M.n * M.m) (RowMajor.ctor M.m M.n) M.dptr :
        Matrix T RowMajor) = M := by
      rw [← hpol, ← hmi]
    refine ⟨_, _, _, _, reinterpretOrderRowMajor_eq M h raw hmn,
      reinterpretOrderColMajor_eq _ _ raw hmn, hR, ?_⟩
    intro r c hr0 hr1 hc0 hc1
    rw [hR]
    have hrange := rowMajor_offset_range M.m M.n r c hr0 hr1 hc0 hc1
    rw [← hpol] at hrange
    exact elem_same_after_allocs M h _ _ blk hblk r c hrange.1
      (by rw [hmi, mul_comm]; exact hrange.2) (lt_of_lt_of_le hrange.2 hlen)
  · have hR : (Matrix.mk M'.m M'.n (M'.n * M'.m) (ColMajor.ctor M'.m M'.n) M'.dptr :
        Matrix T ColMajor) = M' := by
      rw [← hpol', ← hmi']
    refine ⟨_, _, _, _, reinterpretOrderColMajor_eq M' h raw hmn',
      reinterpretOrderRowMajor_eq _ _ raw hmn', hR, ?_⟩
    intro r c hr0 hr1 hc0 hc1
    rw [hR]
    have hrange := colMajor_offset_range M'.m M'.n r c hr0 hr1 hc0 hc1
    rw [← hpol'] at hrange
    exact elem_same_after_allocs M' h _ _ blk' hblk' r c hrange.1
      (by rw [hmi', mul_comm]; exact hrange.2) (lt_of_lt_of_le hrange.2 hlen')

/-- C18 on `2 x 3` matrices of integers wrapping `10, ..., 15` and
`20, ..., 25`. -/
theorem reinterpret_round_trip_witness :
    (∃ (B : Matrix Int ColMajor) (h2 : Heap Int) (R : Matrix Int RowMajor) (h3 : Heap Int),
      reinterpretOrderRowMajor ({ m := 2, n := 3, mi := 6, pol := { m := 2, n := 3, s := 6 }, dptr := some 0 } :
          Matrix Int RowMajor) [[10, 11, 12, 13, 14, 15], [20, 21, 22, 23, 24, 25]]
        (fun _ => 7) = .ok (B, h2) ∧
      reinterpretOrderColMajor B h2 (fun _ => 7) = .ok (R, h3) ∧
      R = { m := 2, n := 3, mi := 6, pol := { m := 2, n := 3, s := 6 }, dptr := some 0 } ∧
      ∀ r c : Int, 0 ≤ r → r < 2 → 0 ≤ c → c < 3 →
        ∃ (ref : Ref) (v : Int), R.elem h3 r c = .ok ref ∧
          Matrix.elem ({ m := 2, n := 3, mi := 6, pol := { m := 2, n := 3, s := 6 }, dptr := some 0 } :
            Matrix Int RowMajor) [[10, 11, 12, 13, 14, 15], [20, 21, 22, 23, 24, 25]] r c =
              .ok ref ∧
          h3.read ref = some v ∧
          Heap.read ([[10, 11, 12, 13, 14, 15], [20, 21, 22, 23, 24, 25]] : Heap Int) ref =
            some v) ∧
    (∃ (B : Matrix Int RowMajor) (h2 : Heap Int) (R : Matrix Int ColMajor) (h3 : Heap Int),
      reinterpretOrderColMajor ({ m := 2, n := 3, mi := 6, pol := { m := 2, n := 3, s := 6 }, dptr := some 1 } :
          Matrix Int ColMajor) [[10, 11, 12, 13, 14, 15], [20, 21, 22, 23, 24, 25]]
        (fun _ => 7) = .ok (B, h2) ∧
      reinterpretOrderRowMajor B h2 (fun _ => 7) = .ok (R, h3) ∧
      R = { m := 2, n := 3, mi := 6, pol := { m := 2, n := 3, s := 6 }, dptr := some 1 } ∧
      ∀ r c : Int, 0 ≤ r → r < 2 → 0 ≤ c → c < 3 →
        ∃ (ref : Ref) (v : Int), R.elem h3 r c = .ok ref ∧
          Matrix.elem ({ m := 2, n := 3, mi := 6, pol := { m := 2, n := 3, s := 6 }, dptr := some 1 } :
            Matrix Int ColMajor) [[10, 11, 12, 13, 14, 15], [20, 21, 22, 23, 24, 25]] r c =
              .ok ref ∧
          h3.read ref = some v ∧
          Heap.read ([[10, 11, 12, 13, 14, 15], [20, 21, 22, 23, 24, 25]] : Heap Int) ref =
            some v) :=
  reinterpret_round_trip [[10, 11, 12, 13, 14, 15], [20, 21, 22, 23, 24, 25]] (fun _ => 7)
    { m := 2, n := 3, mi := 6, pol := { m := 2, n := 3, s := 6 }, dptr := some 0 }
    { m := 2, n := 3, mi := 6, pol := { m := 2, n := 3, s := 6 }, dptr := some 1 }
    [10, 11, 12, 13, 14, 15] [20, 21, 22, 23, 24, 25]
    (by decide) (by decide) (by decide) (by decide) (by decide)
    (by decide) (by decide) (by decide) (by decide) (by decide)

/-- C19: a matrix `B` obtained from `A` by `reinterpretOrder` (either
overload), or a matrix `S` of any policy built by the sharing constructor on
the buffer handle of `A`, holds the handle of `A` itself and no copy: for
every linear index `i` in range and every value `v`, `B[i]` and `A[i]` are one
reference, so `v` written through either is read through the other. -/
theorem views_alias {T Q : Type} [Zero T] [Policy Q] (h : Heap T) (raw : Nat → T)
    (A : Matrix T ColMajor) (A' : Matrix T RowMajor) (S : Matrix T Q) (b a : Int)
    (blk blk' : List T) (i : Int) (v : T)
    (hmi : A.mi = A.n * A.m) (hmn : 0 ≤ A.m * A.n) (hblk : h.block A.get = some blk)
    (hmi' : A'.mi = A'.n * A'.m) (hmn' : 0 ≤ A'.m * A'.n)
    (hblk' : h.block A'.get = some blk')
    (hS : Matrix.share T Q A.get b a = .ok S)
    (h0 : 0 ≤ i) (hiA : i < A.m * A.n) (hlen : i < (blk.length : Int))
    (hiA' : i < A'.m * A'.n) (hlen' : i < (blk'.length : Int)) (hiS : i < b * a) :
    (∃ (B : Matrix T RowMajor) (h2 : Heap T),
      reinterpretOrderColMajor A h raw = .ok (B, h2) ∧ B.get = A.get ∧
      ∃ ref : Ref, B.index h2 i = .ok ref ∧ A.index h2 i = .ok ref ∧
        A.index (h2.write ref v) i = .ok ref ∧ B.index (h2.write ref v) i = .ok ref ∧
        (h2.write ref v).read ref = some v) ∧
    (∃ (B : Matrix T ColMajor) (h2 : Heap T),
      reinterpretOrderRowMajor A' h raw = .ok (B, h2) ∧ B.get = A'.get ∧
      ∃ ref : Ref, B.index h2 i = .ok ref ∧ A'.index h2 i = .ok ref ∧
        A'.index (h2.write ref v) i = .ok ref ∧ B.index (h2.write ref v) i = .ok ref ∧
        (h2.write ref v).read ref = some v) ∧
    (S.get = A.get ∧
      ∃ ref : Ref, S.index h i = .ok ref ∧ A.index h i = .ok ref ∧
        A.index (h.write ref v) i = .ok ref ∧ S.index (h.write ref v) i = .ok ref ∧
        (h.write ref v).read ref = some v) := by
  have hAmi : i < A.mi := by rw [hmi, mul_comm]; exact hiA
  have hAmi' : i < A'.mi := by rw [hmi', mul_comm]; exact hiA'
  refine ⟨?_, ?_, ?_⟩
  · obtain ⟨adr, hd, ha, _⟩ := block_some_inv hblk
    have hd' : A.dptr = some adr := hd
    have hblk2 : ∀ top : List T, Heap.block (h ++ [top]) A.get = some blk := by
      intro top
      show Heap.block _ A.dptr = some blk
      rw [hd']
      exact getElem?_append_old h top adr blk ha
    refine ⟨_, _, reinterpretOrderColMajor_eq A h raw hmn, rfl, ?_⟩
    exact alias_write_read A (Matrix.mk A.m A.n (A.n * A.m) (RowMajor.ctor A.m A.n) A.dptr)
      _ blk rfl (hblk2 _) i v h0 hAmi (by show i < A.n * A.m; rw [mul_comm]; exact hiA) hlen
  · obtain ⟨adr, hd, ha, _⟩ := block_some_inv hblk'
    have hd' : A'.dptr = some adr := hd
    have hblk2 : ∀ top : List T, Heap.block (h ++ [top]) A'.get = some blk' := by
      intro top
      show Heap.block _ A'.dptr = some blk'
      rw [hd']
      exact getElem?_append_old h top adr blk' ha
    refine ⟨_, _, reinterpretOrderRowMajor_eq A' h raw hmn', rfl, ?_⟩
    exact alias_write_read A' (Matrix.mk A'.m A'.n (A'.n * A'.m) (ColMajor.ctor A'.m A'.n) A'.dptr)
      _ blk' rfl (hblk2 _) i v h0 hAmi' (by show i < A'.n * A'.m; rw [mul_comm]; exact hiA')
      hlen'
  · have hSf : S.dptr = A.get ∧ S.mi = a * b := by
      unfold Matrix.share at hS
      cases hq : (Policy.ctor b a : Except Fault Q) with
      | error e => rw [hq] at hS; cases hS
      | ok pol =>
        rw [hq] at hS
        injection hS with hS
        subst hS
        exact ⟨rfl, rfl⟩
    refine ⟨hSf.1, ?_⟩
    exact alias_write_read A S h blk hSf.1 hblk i v h0 hAmi
      (by rw [hSf.2, mul_comm]; exact hiS) hlen

/-- C19 on `2 x 3` matrices of integers wrapping `10, ..., 15` and
`20, ..., 25`, a `3 x 2` RowMajor matrix sharing the first handle, the index
`4` and the value `99`. -/
theorem views_alias_witness :
    (∃ (B : Matrix Int RowMajor) (h2 : Heap Int),
      reinterpretOrderColMajor ({ m := 2, n := 3, mi := 6, pol := { m := 2, n := 3, s := 6 }, dptr := some 0 } :
          Matrix Int ColMajor) [[10, 11, 12, 13, 14, 15], [20, 21, 22, 23, 24, 25]]
        (fun _ => 7) = .ok (B, h2) ∧
      B.get = some 0 ∧
      ∃ ref : Ref, B.index h2 4 = .ok ref ∧
        Matrix.index ({ m := 2, n := 3, mi := 6, pol := { m := 2, n := 3, s := 6 }, dptr := some 0 } :
          Matrix Int ColMajor) h2 4 = .ok ref ∧
        Matrix.index ({ m := 2, n := 3, mi := 6, pol := { m := 2, n := 3, s := 6 }, dptr := some 0 } :
          Matrix Int ColMajor) (h2.write ref 99) 4 = .ok ref ∧
        B.index (h2.write ref 99) 4 = .ok ref ∧
        (h2.write ref 99).read ref = some 99) ∧
    (∃ (B : Matrix Int ColMajor) (h2 : Heap Int),
      reinterpretOrderRowMajor ({ m := 2, n := 3, mi := 6, pol := { m := 2, n := 3, s := 6 }, dptr := some 1 } :
          Matrix Int RowMajor) [[10, 11, 12, 13, 14, 15], [20, 21, 22, 23, 24, 25]]
        (fun _ => 7) = .ok (B, h2) ∧
      B.get = some 1 ∧
      ∃ ref : Ref, B.index h2 4 = .ok ref ∧
        Matrix.index ({ m := 2, n := 3, mi := 6, pol := { m := 2, n := 3, s := 6 }, dptr := some 1 } :
          Matrix Int RowMajor) h2 4 = .ok ref ∧
        Matrix.index ({ m := 2, n := 3, mi := 6, pol := { m := 2, n := 3, s := 6 }, dptr := some 1 } :
          Matrix Int RowMajor) (h2.write ref 99) 4 = .ok ref ∧
        B.index (h2.write ref 99) 4 = .ok ref ∧
        (h2.write ref 99).read ref = some 99) ∧
    (Matrix.get ({ m := 3, n := 2, mi := 6, pol := { m := 3, n := 2, s := 6 }, dptr := some 0 } :
        Matrix Int RowMajor) = some 0 ∧
      ∃ ref : Ref,
        Matrix.index ({ m := 3, n := 2, mi := 6, pol := { m := 3, n := 2, s := 6 }, dptr := some 0 } :
          Matrix Int RowMajor) [[10, 11, 12, 13, 14, 15], [20, 21, 22, 23, 24, 25]] 4 =
            .ok ref ∧
        Matrix.index ({ m := 2, n := 3, mi := 6, pol := { m := 2, n := 3, s := 6 }, dptr := some 0 } :
          Matrix Int ColMajor) [[10, 11, 12, 13, 14, 15], [20, 21, 22, 23, 24, 25]] 4 =
            .ok ref ∧
        Matrix.index ({ m := 2, n := 3, mi := 6, pol := { m := 2, n := 3, s := 6 }, dptr := some 0 } :
          Matrix Int ColMajor)
          (Heap.write ([[10, 11, 12, 13, 14, 15], [20, 21, 22, 23, 24, 25]] : Heap Int) ref 99)
          4 = .ok ref ∧
        Matrix.index ({ m := 3, n := 2, mi := 6, pol := { m := 3, n := 2, s := 6 }, dptr := some 0 } :
          Matrix Int RowMajor)
          (Heap.write ([[10, 11, 12, 13, 14, 15], [20, 21, 22, 23, 24, 25]] : Heap Int) ref 99)
          4 = .ok ref ∧
        (Heap.write ([[10, 11, 12, 13, 14, 15], [20, 21, 22, 23, 24, 25]] : Heap Int) ref
          99).read ref = some 99) :=
  views_alias [[10, 11, 12, 13, 14, 15], [20, 21, 22, 23, 24, 25]] (fun _ => 7)
    { m := 2, n := 3, mi := 6, pol := { m := 2, n := 3, s := 6 }, dptr := some 0 }
    { m := 2, n := 3, mi := 6, pol := { m := 2, n := 3, s := 6 }, dptr := some 1 }
    ({ m := 3, n := 2, mi := 6, pol := { m := 3, n := 2, s := 6 }, dptr := some 0 } :
      Matrix Int RowMajor) 3 2
    [10, 11, 12, 13, 14, 15] [20, 21, 22, 23, 24, 25] 4 99
    (by decide) (by decide) (by decide) (by decide) (by decide) (by decide) (by decide)
    (by decide) (by decide) (by decide) (by decide) (by decide) (by decide)

/-- C20: after `M.free()`, `rows()` and `cols()` are `0` and `M` holds the null
handle: there is no block behind it in any heap. -/
theorem free_resets {T P : Type} (M : Matrix T P) :
    M.free.rows = 0 ∧ M.free.cols = 0 ∧ M.free.get = none ∧
      ∀ h : Heap T, h.block M.free.get = none :=
  ⟨rfl, rfl, rfl, fun _ => rfl⟩

/-! ## Iterators: calls and the values they return -/

/-- Calls add up: the state after `j + k` calls is the state `k` calls after
the state after `j`. -/
theorem afterCalls_add {σ : Type} (step : σ → Int × σ) (j k : Nat) (s : σ) :
    afterCalls step (j + k) s = afterCalls step k (afterCalls step j s) := by
  induction k with
  | zero => rfl
  | succ k ih =>
    show (step (afterCalls step (j + k) s)).2 = (step (afterCalls step k (afterCalls step j s))).2
    rw [ih]

/-- The number of values asked for is the number of values given. -/
theorem yields_length {σ : Type} (step : σ → Int × σ) (k : Nat) (s : σ) :
    (yields step k s).length = k := by
  simp [yields]

/-- The value of call `j + 1`. -/
theorem yields_getElem? {σ : Type} (step : σ → Int × σ) (k : Nat) (s : σ) (j : Nat)
    (hj : j < k) : (yields step k s)[j]? = some (step (afterCalls step j s)).1 := by
  simp [yields, List.getElem?_map, List.getElem?_range hj]

/-- Asking for more calls extends the list of values. -/
theorem yields_add {σ : Type} (step : σ → Int × σ) (j k : Nat) (s : σ) :
    yields step (j + k) s = yields step j s ++ yields step k (afterCalls step j s) := by
  apply List.ext_getElem?
  intro i
  rcases Nat.lt_or_ge i j with h | h
  · rw [yields_getElem? _ _ _ _ (by omega), List.getElem?_append_left (by simp [yields_length, h]),
      yields_getElem? _ _ _ _ h]
  · rw [List.getElem?_append_right (by simp [yields_length, h]), yields_length]
    rcases Nat.lt_or_ge i (j + k) with h2 | h2
    · have e : j + (i - j) = i := by omega
      rw [yields_getElem? _ _ _ _ h2, yields_getElem? _ _ _ _ (by omega), ← afterCalls_add, e]
    · rw [List.getElem?_eq_none (by simp [yields_length, h2]),
        List.getElem?_eq_none (by simp [yields_length]; omega)]

/-- A state that a call leaves as it is, returning `v`, stays for good. -/
theorem afterCalls_fixed {σ : Type} (step : σ → Int × σ) (s : σ) (v : Int)
    (hs : step s = (v, s)) (k : Nat) : afterCalls step k s = s := by
  induction k with
  | zero => rfl
  | succ k ih =>
    show (step (afterCalls step k s)).2 = s
    rw [ih, hs]

/-- From a state that a call leaves as it is, every call returns the same value. -/
theorem yields_fixed {σ : Type} (step : σ → Int × σ) (s : σ) (v : Int)
    (hs : step s = (v, s)) (k : Nat) : yields step k s = List.replicate k v := by
  apply List.ext_getElem?
  intro i
  rcases Nat.lt_or_ge i k with h | h
  · rw [yields_getElem? _ _ _ _ h, afterCalls_fixed step s v hs, hs]
    simp [List.getElem?_replicate, h]
  · rw [List.getElem?_eq_none (by simp [yields_length, h]),
      List.getElem?_eq_none (by simp [h])]

/-! ## Iterators: the scan of the RowMajor and ColMajor iterators -/

/-- One call of `RowMajor::iterator::advance` at the coordinate `(si + b, sj + a)` of
the scan, where `w` coordinates make one inner run and `hgt` runs are made. -/
theorem rowMajor_advance_scan (m n si sj ei ej : Int) (w hgt a b : Nat)
    (hw : (w : Int) = max 1 (ei - si)) (hh : (hgt : Int) = max 1 (n - sj))
    (ha : a < hgt) (hb : b < w) :
    RowMajor.iterator.advance ⟨⟨m, n⟩, ⟨si, sj⟩, ⟨ei, ej⟩, ⟨si + b, sj + a⟩, false⟩ =
      ((sj + a) * m + (si + b),
        if b + 1 < w then ⟨⟨m, n⟩, ⟨si, sj⟩, ⟨ei, ej⟩, ⟨si + (b + 1 : Nat), sj + a⟩, false⟩
        else if a + 1 < hgt then
          ⟨⟨m, n⟩, ⟨si, sj⟩, ⟨ei, ej⟩, ⟨si + (0 : Nat), sj + (a + 1 : Nat)⟩, false⟩
        else ⟨⟨m, n⟩, ⟨si, sj⟩, ⟨ei, ej⟩, ⟨si, sj + hgt⟩, true⟩) := by
  have hw' : (1 : Int) ≤ w ∧ (ei - si ≤ w) ∧ ((w : Int) = 1 ∨ (w : Int) = ei - si) := by
    rcases le_total 1 (ei - si) with h | h
    · rw [max_eq_right h] at hw; omega
    · rw [max_eq_left h] at hw; omega
  have hh' : (1 : Int) ≤ hgt ∧ (n - sj ≤ hgt) ∧ ((hgt : Int) = 1 ∨ (hgt : Int) = n - sj) := by
    rcases le_total 1 (n - sj) with h | h
    · rw [max_eq_right h] at hh; omega
    · rw [max_eq_left h] at hh; omega
  unfold RowMajor.iterator.advance
  simp only [Bool.false_eq_true, if_false]
  by_cases h1 : b + 1 < w
  · have c1 : ¬ (si + (b : Int) + 1 ≥ ei) := by omega
    simp only [c1, h1, if_true, if_false]
    congr 3
    push_cast
    ring
  · have c1 : si + (b : Int) + 1 ≥ ei := by omega
    by_cases h2 : a + 1 < hgt
    · have c2 : ¬ (sj + (a : Int) + 1 ≥ n) := by omega
      simp only [c1, c2, h1, h2, if_true, if_false]
      congr 3
      · simp
      · push_cast
        ring
    · have c2 : sj + (a : Int) + 1 ≥ n := by omega
      have e2 : sj + (a : Int) + 1 = sj + hgt := by omega
      have c2' : sj + (hgt : Int) ≥ n := by omega
      simp only [c1, h1, h2, if_true, if_false, e2, c2']

/-- The state of the scan after `a` full inner runs and `b` more calls. -/
theorem rowMajor_afterCalls_scan (m n si sj ei ej : Int) (w hgt : Nat)
    (hw : (w : Int) = max 1 (ei - si)) (hh : (hgt : Int) = max 1 (n - sj)) :
    ∀ a : Nat, a < hgt → ∀ b : Nat, b < w →
      afterCalls RowMajor.iterator.advance (a * w + b)
          (RowMajor.iterator.ctor ⟨m, n⟩ ⟨si, sj⟩ ⟨ei, ej⟩) =
        ⟨⟨m, n⟩, ⟨si, sj⟩, ⟨ei, ej⟩, ⟨si + b, sj + a⟩, false⟩ := by
  have hw1 : 1 ≤ w := by
    rcases le_total 1 (ei - si) with h | h
    · rw [max_eq_right h] at hw; omega
    · rw [max_eq_left h] at hw; omega
  intro a
  induction a with
  | zero =>
    intro ha b
    induction b with
    | zero =>
      intro _
      have e : 0 * w + 0 = 0 := by omega
      rw [e]
      simp [afterCalls, RowMajor.iterator.ctor]
    | succ b ihb =>
      intro hb
      have hprev := ihb (by omega)
      have e : 0 * w + (b + 1) = (0 * w + b) + 1 := by omega
      rw [e]
      show (RowMajor.iterator.advance (afterCalls _ (0 * w + b) _)).2 = _
      rw [hprev, rowMajor_advance_scan m n si sj ei ej w hgt 0 b hw hh ha (by omega)]
      simp only [hb, if_true]
  | succ a iha =>
    intro ha b
    induction b with
    | zero =>
      intro _
      have hprev := iha (by omega) (w - 1) (by omega)
      have e : (a + 1) * w + 0 = (a * w + (w - 1)) + 1 := by
        rw [Nat.succ_mul]; omega
      rw [e]
      show (RowMajor.iterator.advance (afterCalls _ (a * w + (w - 1)) _)).2 = _
      rw [hprev, rowMajor_advance_scan m n si sj ei ej w hgt a (w - 1) hw hh (by omega) (by omega)]
      have c1 : ¬ (w - 1 + 1 < w) := by omega
      simp only [c1, ha, if_true, if_false]
    | succ b ihb =>
      intro hb
      have hprev := ihb (by omega)
      have e : (a + 1) * w + (b + 1) = ((a + 1) * w + b) + 1 := by omega
      rw [e]
      show (RowMajor.iterator.advance (afterCalls _ ((a + 1) * w + b) _)).2 = _
      rw [hprev, rowMajor_advance_scan m n si sj ei ej w hgt (a + 1) b hw hh ha (by omega)]
      simp only [hb, if_true]

/-- The value of the call made at the coordinate `(si + b, sj + a)` of the scan. -/
theorem rowMajor_value_scan (m n si sj ei ej : Int) (w hgt : Nat)
    (hw : (w : Int) = max 1 (ei - si)) (hh : (hgt : Int) = max 1 (n - sj))
    (a b : Nat) (ha : a < hgt) (hb : b < w) :
    (RowMajor.iterator.advance (afterCalls RowMajor.iterator.advance (a * w + b)
        (RowMajor.iterator.ctor ⟨m, n⟩ ⟨si, sj⟩ ⟨ei, ej⟩))).1 = (sj + a) * m + (si + b) := by
  rw [rowMajor_afterCalls_scan m n si sj ei ej w hgt hw hh a ha b hb,
    rowMajor_advance_scan m n si sj ei ej w hgt a b hw hh ha hb]

/-- After `hgt * w` calls the scan is over: the end-of-data flag is set. -/
theorem rowMajor_afterCalls_done (m n si sj ei ej : Int) (w hgt : Nat)
    (hw : (w : Int) = max 1 (ei - si)) (hh : (hgt : Int) = max 1 (n - sj)) :
    afterCalls RowMajor.iterator.advance (hgt * w)
        (RowMajor.iterator.ctor ⟨m, n⟩ ⟨si, sj⟩ ⟨ei, ej⟩) =
      ⟨⟨m, n⟩, ⟨si, sj⟩, ⟨ei, ej⟩, ⟨si, sj + hgt⟩, true⟩ := by
  have hw1 : 1 ≤ w := by
    rcases le_total 1 (ei - si) with h | h
    · rw [max_eq_right h] at hw; omega
    · rw [max_eq_left h] at hw; omega
  have hh1 : 1 ≤ hgt := by
    rcases le_total 1 (n - sj) with h | h
    · rw [max_eq_right h] at hh; omega
    · rw [max_eq_left h] at hh; omega
  have e : hgt * w = ((hgt - 1) * w + (w - 1)) + 1 := by
    have : hgt = (hgt - 1) + 1 := by omega
    conv_lhs => rw [this, Nat.succ_mul]
    omega
  rw [e]
  show (RowMajor.iterator.advance (afterCalls _ ((hgt - 1) * w + (w - 1)) _)).2 = _
  rw [rowMajor_afterCalls_scan m n si sj ei ej w hgt hw hh (hgt - 1) (by omega) (w - 1) (by omega),
    rowMajor_advance_scan m n si sj ei ej w hgt (hgt - 1) (w - 1) hw hh (by omega) (by omega)]
  have c1 : ¬ (w - 1 + 1 < w) := by omega
  have c2 : ¬ (hgt - 1 + 1 < hgt) := by omega
  simp only [c1, c2, if_false]

/-- Once the end-of-data flag is set, `advance` returns `-1` and changes nothing. -/
theorem rowMajor_advance_eod (size start en curr : Duple) :
    RowMajor.iterator.advance ⟨size, start, en, curr, true⟩ = (-1, ⟨size, start, en, curr, true⟩) :=
  rfl

/-- The values of all the calls: `hgt * w` values of the scan, then `-1` for
good. -/
theorem rowMajor_yields_scan (m n si sj ei ej : Int) (w hgt : Nat)
    (hw : (w : Int) = max 1 (ei - si)) (hh : (hgt : Int) = max 1 (n - sj)) (extra : Nat) :
    yields RowMajor.iterator.advance (hgt * w + extra) (RowMajor.iterator.ctor ⟨m, n⟩ ⟨si, sj⟩ ⟨ei, ej⟩) =
      yields RowMajor.iterator.advance (hgt * w) (RowMajor.iterator.ctor ⟨m, n⟩ ⟨si, sj⟩ ⟨ei, ej⟩) ++
        List.replicate extra (-1) := by
  rw [yields_add, rowMajor_afterCalls_done m n si sj ei ej w hgt hw hh,
    yields_fixed _ _ (-1) (rowMajor_advance_eod _ _ _ _)]

/-- One call of `ColMajor::iterator::advance` at the coordinate `(si + b, sj + a)` of
the scan, where `w` coordinates make one inner run and `hgt` runs are made. -/
theorem colMajor_advance_scan (m n si sj ei ej : Int) (w hgt a b : Nat)
    (hw : (w : Int) = max 1 (ei - si)) (hh : (hgt : Int) = max 1 (n - sj))
    (ha : a < hgt) (hb : b < w) :
    ColMajor.iterator.advance ⟨⟨m, n⟩, ⟨si, sj⟩, ⟨ei, ej⟩, ⟨si + b, sj + a⟩, false⟩ =
      ((si + b) * n + (sj + a),
        if b + 1 < w then ⟨⟨m, n⟩, ⟨si, sj⟩, ⟨ei, ej⟩, ⟨si + (b + 1 : Nat), sj + a⟩, false⟩
        else if a + 1 < hgt then
          ⟨⟨m, n⟩, ⟨si, sj⟩, ⟨ei, ej⟩, ⟨si + (0 : Nat), sj + (a + 1 : Nat)⟩, false⟩
        else ⟨⟨m, n⟩, ⟨si, sj⟩, ⟨ei, ej⟩, ⟨si, sj + hgt⟩, true⟩) := by
  have hw' : (1 : Int) ≤ w ∧ (ei - si ≤ w) ∧ ((w : Int) = 1 ∨ (w : Int) = ei - si) := by
    rcases le_total 1 (ei - si) with h | h
    · rw [max_eq_right h] at hw; omega
    · rw [max_eq_left h] at hw; omega
  have hh' : (1 : Int) ≤ hgt ∧ (n - sj ≤ hgt) ∧ ((hgt : Int) = 1 ∨ (hgt : Int) = n - sj) := by
    rcases le_total 1 (n - sj) with h | h
    · rw [max_eq_right h] at hh; omega
    · rw [max_eq_left h] at hh; omega
  unfold ColMajor.iterator.advance
  simp only [Bool.false_eq_true, if_false]
  by_cases h1 : b + 1 < w
  · have c1 : ¬ (si + (b : Int) + 1 ≥ ei) := by omega
    simp only [c1, h1, if_true, if_false]
    congr 3
    push_cast
    ring
  · have c1 : si + (b : Int) + 1 ≥ ei := by omega
    by_cases h2 : a + 1 < hgt
    · have c2 : ¬ (sj + (a : Int) + 1 ≥ n) := by omega
      simp only [c1, c2, h1, h2, if_true, if_false]
      congr 3
      · simp
      · push_cast
        ring
    · have c2 : sj + (a : Int) + 1 ≥ n := by omega
      have e2 : sj + (a : Int) + 1 = sj + hgt := by omega
      have c2' : sj + (hgt : Int) ≥ n := by omega
      simp only [c1, h1, h2, if_true, if_false, e2, c2']

/-- The state of the scan after `a` full inner runs and `b` more calls. -/
theorem colMajor_afterCalls_scan (m n si sj ei ej : Int) (w hgt : Nat)
    (hw : (w : Int) = max 1 (ei - si)) (hh : (hgt : Int) = max 1 (n - sj)) :
    ∀ a : Nat, a < hgt → ∀ b : Nat, b < w →
      afterCalls ColMajor.iterator.advance (a * w + b)
          (ColMajor.iterator.ctor ⟨m, n⟩ ⟨si, sj⟩ ⟨ei, ej⟩) =
        ⟨⟨m, n⟩, ⟨si, sj⟩, ⟨ei, ej⟩, ⟨si + b, sj + a⟩, false⟩ := by
  have hw1 : 1 ≤ w := by
    rcases le_total 1 (ei - si) with h | h
    · rw [max_eq_right h] at hw; omega
    · rw [max_eq_left h] at hw; omega
  intro a
  induction a with
  | zero =>
    intro ha b
    induction b with
    | zero =>
      intro _
      have e : 0 * w + 0 = 0 := by omega
      rw [e]
      simp [afterCalls, ColMajor.iterator.ctor]
    | succ b ihb =>
      intro hb
      have hprev := ihb (by omega)
      have e : 0 * w + (b + 1) = (0 * w + b) + 1 := by omega
      rw [e]
      show (ColMajor.iterator.advance (afterCalls _ (0 * w + b) _)).2 = _
      rw [hprev, colMajor_advance_scan m n si sj ei ej w hgt 0 b hw hh ha (by omega)]
      simp only [hb, if_true]
  | succ a iha =>
    intro ha b
    induction b with
    | zero =>
      intro _
      have hprev := iha (by omega) (w - 1) (by omega)
      have e : (a + 1) * w + 0 = (a * w + (w - 1)) + 1 := by
        rw [Nat.succ_mul]; omega
      rw [e]
      show (ColMajor.iterator.advance (afterCalls _ (a * w + (w - 1)) _)).2 = _
      rw [hprev, colMajor_advance_scan m n si sj ei ej w hgt a (w - 1) hw hh (by omega) (by omega)]
      have c1 : ¬ (w - 1 + 1 < w) := by omega
      simp only [c1, ha, if_true, if_false]
    | succ b ihb =>
      intro hb
      have hprev := ihb (by omega)
      have e : (a + 1) * w + (b + 1) = ((a + 1) * w + b) + 1 := by omega
      rw [e]
      show (ColMajor.iterator.advance (afterCalls _ ((a + 1) * w + b) _)).2 = _
      rw [hprev, colMajor_advance_scan m n si sj ei ej w hgt (a + 1) b hw hh ha (by omega)]
      simp only [hb, if_true]

/-- The value of the call made at the coordinate `(si + b, sj + a)` of the scan. -/
theorem colMajor_value_scan (m n si sj ei ej : Int) (w hgt : Nat)
    (hw : (w : Int) = max 1 (ei - si)) (hh : (hgt : Int) = max 1 (n - sj))
    (a b : Nat) (ha : a < hgt) (hb : b < w) :
    (ColMajor.iterator.advance (afterCalls ColMajor.iterator.advance (a * w + b)
        (ColMajor.iterator.ctor ⟨m, n⟩ ⟨si, sj⟩ ⟨ei, ej⟩))).1 = (si + b) * n + (sj + a) := by
  rw [colMajor_afterCalls_scan m n si sj ei ej w hgt hw hh a ha b hb,
    colMajor_advance_scan m n si sj ei ej w hgt a b hw hh ha hb]

/-- After `hgt * w` calls the scan is over: the end-of-data flag is set. -/
theorem colMajor_afterCalls_done (m n si sj ei ej : Int) (w hgt : Nat)
    (hw : (w : Int) = max 1 (ei - si)) (hh : (hgt : Int) = max 1 (n - sj)) :
    afterCalls ColMajor.iterator.advance (hgt * w)
        (ColMajor.iterator.ctor ⟨m, n⟩ ⟨si, sj⟩ ⟨ei, ej⟩) =
      ⟨⟨m, n⟩, ⟨si, sj⟩, ⟨ei, ej⟩, ⟨si, sj + hgt⟩, true⟩ := by
  have hw1 : 1 ≤ w := by
    rcases le_total 1 (ei - si) with h | h
    · rw [max_eq_right h] at hw; omega
    · rw [max_eq_left h] at hw; omega
  have hh1 : 1 ≤ hgt := by
    rcases le_total 1 (n - sj) with h | h
    · rw [max_eq_right h] at hh; omega
    · rw [max_eq_left h] at hh; omega
  have e : hgt * w = ((hgt - 1) * w + (w - 1)) + 1 := by
    have : hgt = (hgt - 1) + 1 := by omega
    conv_lhs => rw [this, Nat.succ_mul]
    omega
  rw [e]
  show (ColMajor.iterator.advance (afterCalls _ ((hgt - 1) * w + (w - 1)) _)).2 = _
  rw [colMajor_afterCalls_scan m n si sj ei ej w hgt hw hh (hgt - 1) (by omega) (w - 1) (by omega),
    colMajor_advance_scan m n si sj ei ej w hgt (hgt - 1) (w - 1) hw hh (by omega) (by omega)]
  have c1 : ¬ (w - 1 + 1 < w) := by omega
  have c2 : ¬ (hgt - 1 + 1 < hgt) := by omega
  simp only [c1, c2, if_false]

/-- Once the end-of-data flag is set, `advance` returns `-1` and changes nothing. -/
theorem colMajor_advance_eod (size start en curr : Duple) :
    ColMajor.iterator.advance ⟨size, start, en, curr, true⟩ = (-1, ⟨size, start, en, curr, true⟩) :=
  rfl

/-- The values of all the calls: `hgt * w` values of the scan, then `-1` for
good. -/
theorem colMajor_yields_scan (m n si sj ei ej : Int) (w hgt : Nat)
    (hw : (w : Int) = max 1 (ei - si)) (hh : (hgt : Int) = max 1 (n - sj)) (extra : Nat) :
    yields ColMajor.iterator.advance (hgt * w + extra) (ColMajor.iterator.ctor ⟨m, n⟩ ⟨si, sj⟩ ⟨ei, ej⟩) =
      yields ColMajor.iterator.advance (hgt * w) (ColMajor.iterator.ctor ⟨m, n⟩ ⟨si, sj⟩ ⟨ei, ej⟩) ++
        List.replicate extra (-1) := by
  rw [yields_add, colMajor_afterCalls_done m n si sj ei ej w hgt hw hh,
    yields_fixed _ _ (-1) (colMajor_advance_eod _ _ _ _)]

/-! ## Iterators: the full range of a RowMajor matrix -/

/-- Splitting a call index into full inner runs and a rest. -/
theorem scan_index_split (w hgt k : Nat) (hw : 1 ≤ w) (hk : k < hgt * w) :
    k / w < hgt ∧ k % w < w ∧ k / w * w + k % w = k := by
  refine ⟨Nat.div_lt_of_lt_mul (by rw [Nat.mul_comm]; exact hk), Nat.mod_lt _ (by omega), ?_⟩
  rw [Nat.mul_comm]
  exact Nat.div_add_mod k w

/-- C21: for an `m x n` RowMajor matrix with `m, n ≥ 1`, the iterator over the
full range, as `Matrix::iterator(M)` builds it, returns on successive
`advance` calls `0, 1, ..., m*n - 1` in this order, and `-1` on every call
after that. -/
theorem rowMajor_full_iteration {T : Type} (M : Matrix T RowMajor) (hm : 1 ≤ M.m)
    (hn : 1 ≤ M.n) (extra : Nat) :
    yields RowMajor.iterator.advance ((M.m * M.n).toNat + extra) (Matrix.iterator.ctor M).miter =
      (List.range (M.m * M.n).toNat).map (fun k : Nat => (k : Int)) ++ List.replicate extra (-1) := by
  have hw : ((M.m.toNat : Nat) : Int) = max 1 (M.m - 0) := by
    rw [max_eq_right (by omega)]; omega
  have hh : ((M.n.toNat : Nat) : Int) = max 1 (M.n - 0) := by
    rw [max_eq_right (by omega)]; omega
  have hN : (M.m * M.n).toNat = M.n.toNat * M.m.toNat := by
    have h1 : (M.m.toNat : Int) = M.m := Int.toNat_of_nonneg (by omega)
    have h2 : (M.n.toNat : Int) = M.n := Int.toNat_of_nonneg (by omega)
    have : M.m * M.n = ((M.n.toNat * M.m.toNat : Nat) : Int) := by
      push_cast; rw [h1, h2, mul_comm]
    rw [this, Int.toNat_ofNat]
  show yields RowMajor.iterator.advance _ (RowMajor.iterator.ctor ⟨M.m, M.n⟩ ⟨0, 0⟩ ⟨M.m, M.n⟩) = _
  rw [hN, rowMajor_yields_scan M.m M.n 0 0 M.m M.n M.m.toNat M.n.toNat hw hh extra]
  congr 1
  apply List.ext_getElem?
  intro k
  rcases Nat.lt_or_ge k (M.n.toNat * M.m.toNat) with hk | hk
  · obtain ⟨ha, hb, hab⟩ := scan_index_split M.m.toNat M.n.toNat k (by omega) hk
    rw [yields_getElem? _ _ _ _ hk, List.getElem?_map, List.getElem?_range hk]
    have hv := rowMajor_value_scan M.m M.n 0 0 M.m M.n M.m.toNat M.n.toNat hw hh
      (k / M.m.toNat) (k % M.m.toNat) ha hb
    rw [hab] at hv
    rw [hv]
    simp only [Option.map_some', Option.some.injEq]
    have h1 : (M.m.toNat : Int) = M.m := Int.toNat_of_nonneg (by omega)
    have hab' : ((k / M.m.toNat : Nat) : Int) * (M.m.toNat : Int) + ((k % M.m.toNat : Nat) : Int)
        = (k : Int) := by exact_mod_cast hab
    rw [h1] at hab'
    linarith
  · rw [List.getElem?_eq_none (by simp [yields_length, hk]),
      List.getElem?_eq_none (by simp [hk])]

/-- C21 on a `2 x 3` matrix: seven calls return `0, 1, 2, 3, 4, 5, -1`. -/
theorem rowMajor_full_iteration_witness :
    yields RowMajor.iterator.advance 7
      (Matrix.iterator.ctor ({ m := 2, n := 3, mi := 6, pol := { m := 2, n := 3, s := 6 }, dptr := some 0 } :
        Matrix Int RowMajor)).miter = [0, 1, 2, 3, 4, 5, -1] :=
  rowMajor_full_iteration
    ({ m := 2, n := 3, mi := 6, pol := { m := 2, n := 3, s := 6 }, dptr := some 0 } :
      Matrix Int RowMajor) (by decide) (by decide) 1

/-! ## Iterators: the values of a RowMajor scan -/

/-- C30: for the RowMajor iterator built with size `(m, n)`, start `(si, sj)`
and end `(ei, ej)`, `0 ≤ si < ei` and `0 ≤ sj < n`, the calls of `advance`
return `j*m + i` with the outer coordinate `j` running from `sj` to `n - 1` and,
within each `j`, the inner coordinate `i` running from `si` to `ei - 1`: call
number `a*(ei - si) + b + 1` returns `(sj + a)*m + (si + b)`; after
`(n - sj)*(ei - si)` calls every call returns `-1`; and another `end.j` gives
the same values. -/
theorem rowMajor_iterator_scan (m n si sj ei ej : Int) (hsi : 0 ≤ si) (hei : si < ei)
    (hsj : 0 ≤ sj) (hn : sj < n) (extra : Nat) :
    (∀ a b : Nat, a < (n - sj).toNat → b < (ei - si).toNat →
      (yields RowMajor.iterator.advance ((n - sj).toNat * (ei - si).toNat + extra)
        (RowMajor.iterator.ctor ⟨m, n⟩ ⟨si, sj⟩ ⟨ei, ej⟩))[a * (ei - si).toNat + b]? =
          some ((sj + a) * m + (si + b))) ∧
    (∀ k : Nat, (n - sj).toNat * (ei - si).toNat ≤ k →
      k < (n - sj).toNat * (ei - si).toNat + extra →
      (yields RowMajor.iterator.advance ((n - sj).toNat * (ei - si).toNat + extra)
        (RowMajor.iterator.ctor ⟨m, n⟩ ⟨si, sj⟩ ⟨ei, ej⟩))[k]? = some (-1)) ∧
    (∀ ej' : Int,
      yields RowMajor.iterator.advance ((n - sj).toNat * (ei - si).toNat + extra)
        (RowMajor.iterator.ctor ⟨m, n⟩ ⟨si, sj⟩ ⟨ei, ej'⟩) =
      yields RowMajor.iterator.advance ((n - sj).toNat * (ei - si).toNat + extra)
        (RowMajor.iterator.ctor ⟨m, n⟩ ⟨si, sj⟩ ⟨ei, ej⟩)) := by
  have _h := hsi
  have _h' := hsj
  have hw : ∀ e : Int, (((ei - si).toNat : Nat) : Int) = max 1 (ei - si) := by
    intro _; rw [max_eq_right (by omega)]; omega
  have hh : (((n - sj).toNat : Nat) : Int) = max 1 (n - sj) := by
    rw [max_eq_right (by omega)]; omega
  have hfirst : ∀ (e : Int) (k : Nat), k < (n - sj).toNat * (ei - si).toNat →
      (yields RowMajor.iterator.advance ((n - sj).toNat * (ei - si).toNat + extra)
        (RowMajor.iterator.ctor ⟨m, n⟩ ⟨si, sj⟩ ⟨ei, e⟩))[k]? =
          some ((sj + (k / (ei - si).toNat : Nat)) * m + (si + (k % (ei - si).toNat : Nat))) := by
    intro e k hk
    obtain ⟨ha, hb, hab⟩ := scan_index_split (ei - si).toNat (n - sj).toNat k (by omega) hk
    rw [yields_getElem? _ _ _ _ (by omega)]
    have hv := rowMajor_value_scan m n si sj ei e (ei - si).toNat (n - sj).toNat (hw e) hh
      (k / (ei - si).toNat) (k % (ei - si).toNat) ha hb
    rw [hab] at hv
    rw [hv]
  have hlast : ∀ (e : Int) (k : Nat), (n - sj).toNat * (ei - si).toNat ≤ k →
      k < (n - sj).toNat * (ei - si).toNat + extra →
      (yields RowMajor.iterator.advance ((n - sj).toNat * (ei - si).toNat + extra)
        (RowMajor.iterator.ctor ⟨m, n⟩ ⟨si, sj⟩ ⟨ei, e⟩))[k]? = some (-1) := by
    intro e k hk1 hk2
    rw [rowMajor_yields_scan m n si sj ei e (ei - si).toNat (n - sj).toNat (hw e) hh extra,
      List.getElem?_append_right (by simp [yields_length, hk1]), yields_length]
    simp [List.getElem?_replicate]
    omega
  refine ⟨?_, hlast ej, ?_⟩
  · intro a b ha hb
    have hk : a * (ei - si).toNat + b < (n - sj).toNat * (ei - si).toNat := by
      calc a * (ei - si).toNat + b < a * (ei - si).toNat + (ei - si).toNat := by omega
        _ = (a + 1) * (ei - si).toNat := by rw [Nat.succ_mul]
        _ ≤ (n - sj).toNat * (ei - si).toNat := Nat.mul_le_mul_right _ ha
    rw [hfirst ej _ hk]
    have hdiv : (a * (ei - si).toNat + b) / (ei - si).toNat = a := by
      rw [Nat.mul_comm, Nat.mul_add_div (by omega), Nat.div_eq_of_lt hb]; rfl
    have hmod : (a * (ei - si).toNat + b) % (ei - si).toNat = b := by
      rw [Nat.mul_comm, Nat.mul_add_mod, Nat.mod_eq_of_lt hb]
    rw [hdiv, hmod]
  · intro ej'
    apply List.ext_getElem?
    intro k
    rcases Nat.lt_or_ge k ((n - sj).toNat * (ei - si).toNat) with hk | hk
    · rw [hfirst ej' k hk, hfirst ej k hk]
    · rcases Nat.lt_or_ge k ((n - sj).toNat * (ei - si).toNat + extra) with hk2 | hk2
      · rw [hlast ej' k hk hk2, hlast ej k hk hk2]
      · rw [List.getElem?_eq_none (by simp [yields_length, hk2]),
          List.getElem?_eq_none (by simp [yields_length, hk2])]

/-- C30 with size `(2, 3)`, start `(0, 1)`, end `(2, 2)`: the calls return
`2, 3, 4, 5` and then `-1`. -/
theorem rowMajor_iterator_scan_witness :
    (∀ a b : Nat, a < ((3 : Int) - 1).toNat → b < ((2 : Int) - 0).toNat →
      (yields RowMajor.iterator.advance (((3 : Int) - 1).toNat * ((2 : Int) - 0).toNat + 2)
        (RowMajor.iterator.ctor ⟨2, 3⟩ ⟨0, 1⟩ ⟨2, 2⟩))[a * ((2 : Int) - 0).toNat + b]? =
          some ((1 + a) * 2 + (0 + b))) ∧
    (∀ k : Nat, ((3 : Int) - 1).toNat * ((2 : Int) - 0).toNat ≤ k →
      k < ((3 : Int) - 1).toNat * ((2 : Int) - 0).toNat + 2 →
      (yields RowMajor.iterator.advance (((3 : Int) - 1).toNat * ((2 : Int) - 0).toNat + 2)
        (RowMajor.iterator.ctor ⟨2, 3⟩ ⟨0, 1⟩ ⟨2, 2⟩))[k]? = some (-1)) ∧
    (∀ ej' : Int,
      yields RowMajor.iterator.advance (((3 : Int) - 1).toNat * ((2 : Int) - 0).toNat + 2)
        (RowMajor.iterator.ctor ⟨2, 3⟩ ⟨0, 1⟩ ⟨2, ej'⟩) =
      yields RowMajor.iterator.advance (((3 : Int) - 1).toNat * ((2 : Int) - 0).toNat + 2)
        (RowMajor.iterator.ctor ⟨2, 3⟩ ⟨0, 1⟩ ⟨2, 2⟩)) :=
  rowMajor_iterator_scan 2 3 0 1 2 2 (by decide) (by decide) (by decide) (by decide) 2

/-! ## Iterators: the full range of a ColMajor matrix -/

/-- The values of the full-range ColMajor iterator of an `m x n` matrix, by
inner runs: call number `a*m + b + 1` returns `b*n + a`. -/
theorem colMajor_full_value (m n : Int) (hm : 1 ≤ m) (hn : 1 ≤ n) (extra a b : Nat)
    (ha : a < n.toNat) (hb : b < m.toNat) :
    (yields ColMajor.iterator.advance (n.toNat * m.toNat + extra)
      (ColMajor.iterator.ctor ⟨m, n⟩ ⟨0, 0⟩ ⟨m, n⟩))[a * m.toNat + b]? =
        some (((b * n.toNat + a : Nat) : Int)) := by
  have hw : ((m.toNat : Nat) : Int) = max 1 (m - 0) := by
    rw [max_eq_right (by omega)]; omega
  have hh : ((n.toNat : Nat) : Int) = max 1 (n - 0) := by
    rw [max_eq_right (by omega)]; omega
  have hk : a * m.toNat + b < n.toNat * m.toNat := by
    calc a * m.toNat + b < a * m.toNat + m.toNat := by omega
      _ = (a + 1) * m.toNat := by rw [Nat.succ_mul]
      _ ≤ n.toNat * m.toNat := Nat.mul_le_mul_right _ ha
  rw [yields_getElem? _ _ _ _ (by omega),
    colMajor_value_scan m n 0 0 m n m.toNat n.toNat hw hh a b ha hb]
  have h2 : (n.toNat : Int) = n := Int.toNat_of_nonneg (by omega)
  congr 1
  push_cast
  rw [h2]
  ring

/-- The values of the full-range ColMajor iterator after the scan. -/
theorem colMajor_full_sentinel (m n : Int) (hm : 1 ≤ m) (hn : 1 ≤ n) (extra k : Nat)
    (hk1 : n.toNat * m.toNat ≤ k) (hk2 : k < n.toNat * m.toNat + extra) :
    (yields ColMajor.iterator.advance (n.toNat * m.toNat + extra)
      (ColMajor.iterator.ctor ⟨m, n⟩ ⟨0, 0⟩ ⟨m, n⟩))[k]? = some (-1) := by
  have hw : ((m.toNat : Nat) : Int) = max 1 (m - 0) := by
    rw [max_eq_right (by omega)]; omega
  have hh : ((n.toNat : Nat) : Int) = max 1 (n - 0) := by
    rw [max_eq_right (by omega)]; omega
  rw [colMajor_yields_scan m n 0 0 m n m.toNat n.toNat hw hh extra,
    List.getElem?_append_right (by simp [yields_length, hk1]), yields_length]
  simp [List.getElem?_replicate]
  omega

/-- The number of cells, as a natural number. -/
theorem toNat_dims (m n : Int) (hm : 1 ≤ m) (hn : 1 ≤ n) :
    (m * n).toNat = n.toNat * m.toNat := by
  have h1 : (m.toNat : Int) = m := Int.toNat_of_nonneg (by omega)
  have h2 : (n.toNat : Int) = n := Int.toNat_of_nonneg (by omega)
  have : m * n = ((n.toNat * m.toNat : Nat) : Int) := by
    push_cast; rw [h1, h2, mul_comm]
  rw [this, Int.toNat_ofNat]

/-- C22 fails as stated: for the `2 x 3` ColMajor matrix the full-range
iterator returns `0, 3, 1, 4, 2, 5` and then `-1`, not `0, 1, 2, 3, 4, 5`. -/
theorem colMajor_not_ascending_counterexample :
    yields ColMajor.iterator.advance 7
      (Matrix.iterator.ctor ({ m := 2, n := 3, mi := 6, pol := { m := 2, n := 3, s := 6 }, dptr := some 0 } :
        Matrix Int ColMajor)).miter = [0, 3, 1, 4, 2, 5, -1] ∧
    ([0, 3, 1, 4, 2, 5, -1] : List Int) ≠ [0, 1, 2, 3, 4, 5, -1] := by
  decide

/-- C22 (amended): for an `m x n` ColMajor matrix with `m, n ≥ 1`, the first
`m*n` calls of `advance` on the full-range iterator return every offset of
`[0, m*n)` exactly once, in the order `0, 1, ..., m*n - 1` exactly when
`m = 1` or `n = 1`, and every call after them returns `-1`. -/
theorem colMajor_full_iteration {T : Type} (M : Matrix T ColMajor) (hm : 1 ≤ M.m)
    (hn : 1 ≤ M.n) (extra : Nat) :
    (∀ t : Nat, t < (M.m * M.n).toNat →
      ∃! k : Nat, k < (M.m * M.n).toNat ∧
        (yields ColMajor.iterator.advance ((M.m * M.n).toNat + extra)
          (Matrix.iterator.ctor M).miter)[k]? = some (t : Int)) ∧
    (∀ k : Nat, (M.m * M.n).toNat ≤ k → k < (M.m * M.n).toNat + extra →
      (yields ColMajor.iterator.advance ((M.m * M.n).toNat + extra)
        (Matrix.iterator.ctor M).miter)[k]? = some (-1)) ∧
    (yields ColMajor.iterator.advance ((M.m * M.n).toNat + extra)
        (Matrix.iterator.ctor M).miter =
      (List.range (M.m * M.n).toNat).map (fun k : Nat => (k : Int)) ++
        List.replicate extra (-1) ↔ (M.m = 1 ∨ M.n = 1)) := by
  have hN := toNat_dims M.m M.n hm hn
  have hit : (Matrix.iterator.ctor M).miter =
      ColMajor.iterator.ctor ⟨M.m, M.n⟩ ⟨0, 0⟩ ⟨M.m, M.n⟩ := rfl
  rw [hit, hN]
  have hwpos : 1 ≤ M.m.toNat := by omega
  have hhpos : 1 ≤ M.n.toNat := by omega
  have hval := colMajor_full_value M.m M.n hm hn extra
  refine ⟨?_, colMajor_full_sentinel M.m M.n hm hn extra, ?_⟩
  · intro t ht
    have htn : t / M.n.toNat < M.m.toNat :=
      Nat.div_lt_of_lt_mul ht
    have htm : t % M.n.toNat < M.n.toNat := Nat.mod_lt _ (by omega)
    refine ⟨t % M.n.toNat * M.m.toNat + t / M.n.toNat, ⟨?_, ?_⟩, ?_⟩
    · calc t % M.n.toNat * M.m.toNat + t / M.n.toNat
          < t % M.n.toNat * M.m.toNat + M.m.toNat := by omega
        _ = (t % M.n.toNat + 1) * M.m.toNat := by rw [Nat.succ_mul]
        _ ≤ M.n.toNat * M.m.toNat := Nat.mul_le_mul_right _ htm
    · rw [hval _ _ htm htn]
      congr 2
      rw [Nat.mul_comm]
      exact Nat.div_add_mod t M.n.toNat
    · rintro k ⟨hk, hkv⟩
      obtain ⟨ha, hb, hab⟩ := scan_index_split M.m.toNat M.n.toNat k hwpos hk
      rw [← hab, hval _ _ ha hb] at hkv
      have hkv' : k % M.m.toNat * M.n.toNat + k / M.m.toNat = t := by
        have := Option.some.inj hkv
        exact_mod_cast this
      have h1 : t / M.n.toNat = k % M.m.toNat := by
        rw [← hkv', Nat.mul_comm, Nat.mul_add_div (by omega), Nat.div_eq_of_lt ha]; rfl
      have h2 : t % M.n.toNat = k / M.m.toNat := by
        rw [← hkv', Nat.mul_comm, Nat.mul_add_mod, Nat.mod_eq_of_lt ha]
      rw [h1, h2, hab]
  · constructor
    · intro hasc
      by_contra hcon
      push_neg at hcon
      have hm2 : 1 < M.m.toNat := by omega
      have hn2 : 1 < M.n.toNat := by omega
      have h1 := hval 0 1 (by omega) hm2
      have hidx : 0 * M.m.toNat + 1 = 1 := by omega
      rw [hidx, hasc] at h1
      have hlt : 1 < M.n.toNat * M.m.toNat := by
        calc 1 < M.m.toNat := hm2
          _ = 1 * M.m.toNat := (Nat.one_mul _).symm
          _ ≤ M.n.toNat * M.m.toNat := Nat.mul_le_mul_right _ hhpos
      rw [List.getElem?_append_left (by simp [hlt]), List.getElem?_map,
        List.getElem?_range hlt] at h1
      simp only [Option.map_some', Option.some.injEq] at h1
      have h3 : (1 : Nat) = 1 * M.n.toNat + 0 := by exact_mod_cast h1
      omega
    · intro hone
      apply List.ext_getElem?
      intro k
      rcases Nat.lt_or_ge k (M.n.toNat * M.m.toNat) with hk | hk
      · obtain ⟨ha, hb, hab⟩ := scan_index_split M.m.toNat M.n.toNat k hwpos hk
        rw [List.getElem?_append_left (by simp [hk]), List.getElem?_map,
          List.getElem?_range hk]
        conv_lhs => rw [← hab]
        rw [hval _ _ ha hb]
        simp only [Option.map_some', Option.some.injEq, Nat.cast_inj]
        rcases hone with h1 | h1
        · have hw1 : M.m.toNat = 1 := by omega
          rw [hw1, Nat.mod_one, Nat.div_one]
          omega
        · have hh1 : M.n.toNat = 1 := by omega
          have hkw : k < M.m.toNat := by rw [hh1] at hk; omega
          rw [hh1, Nat.div_eq_of_lt hkw, Nat.mod_eq_of_lt hkw]
          omega
      · rcases Nat.lt_or_ge k (M.n.toNat * M.m.toNat + extra) with hk2 | hk2
        · rw [colMajor_full_sentinel M.m M.n hm hn extra k hk hk2,
            List.getElem?_append_right (by simp [hk])]
          simp [List.getElem?_replicate]
          omega
        · rw [List.getElem?_eq_none (by simp [yields_length, hk2]),
            List.getElem?_eq_none (by simp; omega)]

/-- C22 (amended) on a `2 x 3` ColMajor matrix of integers. -/
theorem colMajor_full_iteration_witness :
    (∀ t : Nat, t < ((2 : Int) * 3).toNat →
      ∃! k : Nat, k < ((2 : Int) * 3).toNat ∧
        (yields ColMajor.iterator.advance (((2 : Int) * 3).toNat + 1)
          (Matrix.iterator.ctor ({ m := 2, n := 3, mi := 6, pol := { m := 2, n := 3, s := 6 }, dptr := some 0 } :
            Matrix Int ColMajor)).miter)[k]? = some (t : Int)) ∧
    (∀ k : Nat, ((2 : Int) * 3).toNat ≤ k → k < ((2 : Int) * 3).toNat + 1 →
      (yields ColMajor.iterator.advance (((2 : Int) * 3).toNat + 1)
        (Matrix.iterator.ctor ({ m := 2, n := 3, mi := 6, pol := { m := 2, n := 3, s := 6 }, dptr := some 0 } :
          Matrix Int ColMajor)).miter)[k]? = some (-1)) ∧
    (yields ColMajor.iterator.advance (((2 : Int) * 3).toNat + 1)
        (Matrix.iterator.ctor ({ m := 2, n := 3, mi := 6, pol := { m := 2, n := 3, s := 6 }, dptr := some 0 } :
          Matrix Int ColMajor)).miter =
      (List.range ((2 : Int) * 3).toNat).map (fun k : Nat => (k : Int)) ++
        List.replicate 1 (-1) ↔ ((2 : Int) = 1 ∨ (3 : Int) = 1)) :=
  colMajor_full_iteration
    ({ m := 2, n := 3, mi := 6, pol := { m := 2, n := 3, s := 6 }, dptr := some 0 } :
      Matrix Int ColMajor) (by decide) (by decide) 1

/-! ## Iterators: the coordinates a scan visits -/

/-- The state of the `RowMajor` scan after any number of calls past its end. -/
theorem rowMajor_afterCalls_past (m n si sj ei ej : Int) (w hgt : Nat)
    (hw : (w : Int) = max 1 (ei - si)) (hh : (hgt : Int) = max 1 (n - sj)) (k : Nat)
    (hk : hgt * w ≤ k) :
    afterCalls RowMajor.iterator.advance k (RowMajor.iterator.ctor ⟨m, n⟩ ⟨si, sj⟩ ⟨ei, ej⟩) =
      ⟨⟨m, n⟩, ⟨si, sj⟩, ⟨ei, ej⟩, ⟨si, sj + hgt⟩, true⟩ := by
  have e : k = hgt * w + (k - hgt * w) := by omega
  rw [e, afterCalls_add, rowMajor_afterCalls_done m n si sj ei ej w hgt hw hh,
    afterCalls_fixed _ _ (-1) (rowMajor_advance_eod _ _ _ _)]

/-- The coordinates the `RowMajor` iterator is at when it is called: every
`(r, c)` with `si ≤ r < ei` and `sj ≤ c < n` at exactly one of the first
`(n - sj)*(ei - si)` calls, none of which returns `-1`; every later call
returns `-1`. -/
theorem rowMajor_visits (m n si sj ei ej : Int) (hsi : 0 ≤ si) (hei : si < ei) (hsj : 0 ≤ sj)
    (hn : sj < n) (hm : 0 ≤ m) :
    (∀ r c : Int, si ≤ r → r < ei → sj ≤ c → c < n →
      ∃! k : Nat, k < (n - sj).toNat * (ei - si).toNat ∧
        (afterCalls RowMajor.iterator.advance k
          (RowMajor.iterator.ctor ⟨m, n⟩ ⟨si, sj⟩ ⟨ei, ej⟩)).curr = ⟨r, c⟩) ∧
    (∀ k : Nat, k < (n - sj).toNat * (ei - si).toNat →
      (si ≤ (afterCalls RowMajor.iterator.advance k
          (RowMajor.iterator.ctor ⟨m, n⟩ ⟨si, sj⟩ ⟨ei, ej⟩)).curr.i ∧
        (afterCalls RowMajor.iterator.advance k
          (RowMajor.iterator.ctor ⟨m, n⟩ ⟨si, sj⟩ ⟨ei, ej⟩)).curr.i < ei ∧
        sj ≤ (afterCalls RowMajor.iterator.advance k
          (RowMajor.iterator.ctor ⟨m, n⟩ ⟨si, sj⟩ ⟨ei, ej⟩)).curr.j ∧
        (afterCalls RowMajor.iterator.advance k
          (RowMajor.iterator.ctor ⟨m, n⟩ ⟨si, sj⟩ ⟨ei, ej⟩)).curr.j < n) ∧
      (RowMajor.iterator.advance (afterCalls RowMajor.iterator.advance k
        (RowMajor.iterator.ctor ⟨m, n⟩ ⟨si, sj⟩ ⟨ei, ej⟩))).1 ≠ -1) ∧
    (∀ k : Nat, (n - sj).toNat * (ei - si).toNat ≤ k →
      (RowMajor.iterator.advance (afterCalls RowMajor.iterator.advance k
        (RowMajor.iterator.ctor ⟨m, n⟩ ⟨si, sj⟩ ⟨ei, ej⟩))).1 = -1) := by
  have hw : (((ei - si).toNat : Nat) : Int) = max 1 (ei - si) := by
    rw [max_eq_right (by omega)]; omega
  have hh : (((n - sj).toNat : Nat) : Int) = max 1 (n - sj) := by
    rw [max_eq_right (by omega)]; omega
  have hn0 : 0 ≤ n := by omega
  have hstate : ∀ k : Nat, k < (n - sj).toNat * (ei - si).toNat →
      afterCalls RowMajor.iterator.advance k (RowMajor.iterator.ctor ⟨m, n⟩ ⟨si, sj⟩ ⟨ei, ej⟩) =
        ⟨⟨m, n⟩, ⟨si, sj⟩, ⟨ei, ej⟩,
          ⟨si + (k % (ei - si).toNat : Nat), sj + (k / (ei - si).toNat : Nat)⟩, false⟩ := by
    intro k hk
    obtain ⟨ha, hb, hab⟩ := scan_index_split (ei - si).toNat (n - sj).toNat k (by omega) hk
    have := rowMajor_afterCalls_scan m n si sj ei ej (ei - si).toNat (n - sj).toNat hw hh
      (k / (ei - si).toNat) ha (k % (ei - si).toNat) hb
    rw [hab] at this
    exact this
  refine ⟨?_, ?_, ?_⟩
  · intro r c hr0 hr1 hc0 hc1
    have hb : (r - si).toNat < (ei - si).toNat := by omega
    have ha : (c - sj).toNat < (n - sj).toNat := by omega
    have hk : (c - sj).toNat * (ei - si).toNat + (r - si).toNat <
        (n - sj).toNat * (ei - si).toNat := by
      calc (c - sj).toNat * (ei - si).toNat + (r - si).toNat
          < (c - sj).toNat * (ei - si).toNat + (ei - si).toNat := by omega
        _ = ((c - sj).toNat + 1) * (ei - si).toNat := by rw [Nat.succ_mul]
        _ ≤ (n - sj).toNat * (ei - si).toNat := Nat.mul_le_mul_right _ ha
    refine ⟨(c - sj).toNat * (ei - si).toNat + (r - si).toNat, ⟨hk, ?_⟩, ?_⟩
    · rw [rowMajor_afterCalls_scan m n si sj ei ej (ei - si).toNat (n - sj).toNat hw hh _ ha _ hb]
      show (⟨si + ((r - si).toNat : Nat), sj + ((c - sj).toNat : Nat)⟩ : Duple) = ⟨r, c⟩
      congr 1 <;> omega
    · rintro k ⟨hk', hcurr⟩
      obtain ⟨ha', hb', hab'⟩ := scan_index_split (ei - si).toNat (n - sj).toNat k (by omega) hk'
      rw [hstate k hk'] at hcurr
      have hcurr' : (⟨si + (k % (ei - si).toNat : Nat), sj + (k / (ei - si).toNat : Nat)⟩ : Duple)
          = ⟨r, c⟩ := hcurr
      injection hcurr' with hi hj
      clear hcurr hstate
      generalize k / (ei - si).toNat = A at ha' hab' hj
      generalize k % (ei - si).toNat = B at hb' hab' hi
      have e1 : B = (r - si).toNat := by omega
      have e2 : A = (c - sj).toNat := by omega
      rw [← hab', e1, e2]
  · intro k hk
    obtain ⟨ha, hb, hab⟩ := scan_index_split (ei - si).toNat (n - sj).toNat k (by omega) hk
    have hv := rowMajor_value_scan m n si sj ei ej (ei - si).toNat (n - sj).toNat hw hh
      (k / (ei - si).toNat) (k % (ei - si).toNat) ha hb
    rw [hab] at hv
    rw [hv, hstate k hk]
    clear hv hstate hab
    generalize k / (ei - si).toNat = A at ha ⊢
    generalize k % (ei - si).toNat = B at hb ⊢
    refine ⟨⟨?_, ?_, ?_, ?_⟩, ?_⟩
    · show si ≤ si + (B : Int)
      omega
    · show si + (B : Int) < ei
      omega
    · show sj ≤ sj + (A : Int)
      omega
    · show sj + (A : Int) < n
      omega
    · have p1 : (0 : Int) ≤ sj + (A : Int) := by omega
      have p2 : (0 : Int) ≤ si + (B : Int) := by omega
      have q1 := mul_nonneg p1 hm
      have q2 := mul_nonneg p2 hn0
      omega
  · intro k hk
    rw [rowMajor_afterCalls_past m n si sj ei ej (ei - si).toNat (n - sj).toNat hw hh k hk]
    rfl

/-- The state of the `ColMajor` scan after any number of calls past its end. -/
theorem colMajor_afterCalls_past (m n si sj ei ej : Int) (w hgt : Nat)
    (hw : (w : Int) = max 1 (ei - si)) (hh : (hgt : Int) = max 1 (n - sj)) (k : Nat)
    (hk : hgt * w ≤ k) :
    afterCalls ColMajor.iterator.advance k (ColMajor.iterator.ctor ⟨m, n⟩ ⟨si, sj⟩ ⟨ei, ej⟩) =
      ⟨⟨m, n⟩, ⟨si, sj⟩, ⟨ei, ej⟩, ⟨si, sj + hgt⟩, true⟩ := by
  have e : k = hgt * w + (k - hgt * w) := by omega
  rw [e, afterCalls_add, colMajor_afterCalls_done m n si sj ei ej w hgt hw hh,
    afterCalls_fixed _ _ (-1) (colMajor_advance_eod _ _ _ _)]

/-- The coordinates the `ColMajor` iterator is at when it is called: every
`(r, c)` with `si ≤ r < ei` and `sj ≤ c < n` at exactly one of the first
`(n - sj)*(ei - si)` calls, none of which returns `-1`; every later call
returns `-1`. -/
theorem colMajor_visits (m n si sj ei ej : Int) (hsi : 0 ≤ si) (hei : si < ei) (hsj : 0 ≤ sj)
    (hn : sj < n) (hm : 0 ≤ m) :
    (∀ r c : Int, si ≤ r → r < ei → sj ≤ c → c < n →
      ∃! k : Nat, k < (n - sj).toNat * (ei - si).toNat ∧
        (afterCalls ColMajor.iterator.advance k
          (ColMajor.iterator.ctor ⟨m, n⟩ ⟨si, sj⟩ ⟨ei, ej⟩)).curr = ⟨r, c⟩) ∧
    (∀ k : Nat, k < (n - sj).toNat * (ei - si).toNat →
      (si ≤ (afterCalls ColMajor.iterator.advance k
          (ColMajor.iterator.ctor ⟨m, n⟩ ⟨si, sj⟩ ⟨ei, ej⟩)).curr.i ∧
        (afterCalls ColMajor.iterator.advance k
          (ColMajor.iterator.ctor ⟨m, n⟩ ⟨si, sj⟩ ⟨ei, ej⟩)).curr.i < ei ∧
        sj ≤ (afterCalls ColMajor.iterator.advance k
          (ColMajor.iterator.ctor ⟨m, n⟩ ⟨si, sj⟩ ⟨ei, ej⟩)).curr.j ∧
        (afterCalls ColMajor.iterator.advance k
          (ColMajor.iterator.ctor ⟨m, n⟩ ⟨si, sj⟩ ⟨ei, ej⟩)).curr.j < n) ∧
      (ColMajor.iterator.advance (afterCalls ColMajor.iterator.advance k
        (ColMajor.iterator.ctor ⟨m, n⟩ ⟨si, sj⟩ ⟨ei, ej⟩))).1 ≠ -1) ∧
    (∀ k : Nat, (n - sj).toNat * (ei - si).toNat ≤ k →
      (ColMajor.iterator.advance (afterCalls ColMajor.iterator.advance k
        (ColMajor.iterator.ctor ⟨m, n⟩ ⟨si, sj⟩ ⟨ei, ej⟩))).1 = -1) := by
  have hw : (((ei - si).toNat : Nat) : Int) = max 1 (ei - si) := by
    rw [max_eq_right (by omega)]; omega
  have hh : (((n - sj).toNat : Nat) : Int) = max 1 (n - sj) := by
    rw [max_eq_right (by omega)]; omega
  have hn0 : 0 ≤ n := by omega
  have hstate : ∀ k : Nat, k < (n - sj).toNat * (ei - si).toNat →
      afterCalls ColMajor.iterator.advance k (ColMajor.iterator.ctor ⟨m, n⟩ ⟨si, sj⟩ ⟨ei, ej⟩) =
        ⟨⟨m, n⟩, ⟨si, sj⟩, ⟨ei, ej⟩,
          ⟨si + (k % (ei - si).toNat : Nat), sj + (k / (ei - si).toNat : Nat)⟩, false⟩ := by
    intro k hk
    obtain ⟨ha, hb, hab⟩ := scan_index_split (ei - si).toNat (n - sj).toNat k (by omega) hk
    have := colMajor_afterCalls_scan m n si sj ei ej (ei - si).toNat (n - sj).toNat hw hh
      (k / (ei - si).toNat) ha (k % (ei - si).toNat) hb
    rw [hab] at this
    exact this
  refine ⟨?_, ?_, ?_⟩
  · intro r c hr0 hr1 hc0 hc1
    have hb : (r - si).toNat < (ei - si).toNat := by omega
    have ha : (c - sj).toNat < (n - sj).toNat := by omega
    have hk : (c - sj).toNat * (ei - si).toNat + (r - si).toNat <
        (n - sj).toNat * (ei - si).toNat := by
      calc (c - sj).toNat * (ei - si).toNat + (r - si).toNat
          < (c - sj).toNat * (ei - si).toNat + (ei - si).toNat := by omega
        _ = ((c - sj).toNat + 1) * (ei - si).toNat := by rw [Nat.succ_mul]
        _ ≤ (n - sj).toNat * (ei - si).toNat := Nat.mul_le_mul_right _ ha
    refine ⟨(c - sj).toNat * (ei - si).toNat + (r - si).toNat, ⟨hk, ?_⟩, ?_⟩
    · rw [colMajor_afterCalls_scan m n si sj ei ej (ei - si).toNat (n - sj).toNat hw hh _ ha _ hb]
      show (⟨si + ((r - si).toNat : Nat), sj + ((c - sj).toNat : Nat)⟩ : Duple) = ⟨r, c⟩
      congr 1 <;> omega
    · rintro k ⟨hk', hcurr⟩
      obtain ⟨ha', hb', hab'⟩ := scan_index_split (ei - si).toNat (n - sj).toNat k (by omega) hk'
      rw [hstate k hk'] at hcurr
      have hcurr' : (⟨si + (k % (ei - si).toNat : Nat), sj + (k / (ei - si).toNat : Nat)⟩ : Duple)
          = ⟨r, c⟩ := hcurr
      injection hcurr' with hi hj
      clear hcurr hstate
      generalize k / (ei - si).toNat = A at ha' hab' hj
      generalize k % (ei - si).toNat = B at hb' hab' hi
      have e1 : B = (r - si).toNat := by omega
      have e2 : A = (c - sj).toNat := by omega
      rw [← hab', e1, e2]
  · intro k hk
    obtain ⟨ha, hb, hab⟩ := scan_index_split (ei - si).toNat (n - sj).toNat k (by omega) hk
    have hv := colMajor_value_scan m n si sj ei ej (ei - si).toNat (n - sj).toNat hw hh
      (k / (ei - si).toNat) (k % (ei - si).toNat) ha hb
    rw [hab] at hv
    rw [hv, hstate k hk]
    clear hv hstate hab
    generalize k / (ei - si).toNat = A at ha ⊢
    generalize k % (ei - si).toNat = B at hb ⊢
    refine ⟨⟨?_, ?_, ?_, ?_⟩, ?_⟩
    · show si ≤ si + (B : Int)
      omega
    · show si + (B : Int) < ei
      omega
    · show sj ≤ sj + (A : Int)
      omega
    · show sj + (A : Int) < n
      omega
    · have p1 : (0 : Int) ≤ sj + (A : Int) := by omega
      have p2 : (0 : Int) ≤ si + (B : Int) := by omega
      have q1 := mul_nonneg p1 hm
      have q2 := mul_nonneg p2 hn0
      omega
  · intro k hk
    rw [colMajor_afterCalls_past m n si sj ei ej (ei - si).toNat (n - sj).toNat hw hh k hk]
    rfl

/-! ## Iterators: sub-ranges, and the Triangular iterator -/

/-- C23 fails as stated: for the `2 x 3` RowMajor matrix and the
sub-rectangle from `(0, 0)` to `(2, 2)`, whose four coordinates have the
policy offsets `0, 1, 3, 4`, the iterator returns the six values
`0, 1, 2, 3, 4, 5` before `-1`. -/
theorem iterator_subrange_counterexample :
    yields RowMajor.iterator.advance 7
      (Matrix.iterator.ctorRange ({ m := 2, n := 3, mi := 6, pol := { m := 2, n := 3, s := 6 }, dptr := some 0 } :
        Matrix Int RowMajor) ⟨0, 0⟩ ⟨2, 2⟩).miter = [0, 1, 2, 3, 4, 5, -1] ∧
    [RowMajor.offset ⟨2, 3, 6⟩ 0 0, RowMajor.offset ⟨2, 3, 6⟩ 0 1, RowMajor.offset ⟨2, 3, 6⟩ 1 0,
      RowMajor.offset ⟨2, 3, 6⟩ 1 1] = [0, 1, 3, 4] := by
  decide

/-- C23 (amended): for the RowMajor and the ColMajor iterator built with size
`(m, n)`, as `Matrix::iterator` passes it, and a sub-rectangle with
`0 ≤ start.i < end.i ≤ m` and `0 ≤ start.j < end.j ≤ n`: each of the first
`(n - start.j) * (end.i - start.i)` calls of `advance` is made at a coordinate
`(r, c)` with `start.i ≤ r < end.i` and `start.j ≤ c < n` and returns a value
other than `-1`; every such coordinate, up to the last column `n - 1` whatever
`end.j` is, is the iterator's position at exactly one of these calls; every
later call returns `-1`. -/
theorem iterator_visits_to_last_column (m n si sj ei ej : Int) (hsi : 0 ≤ si) (hei : si < ei)
    (hem : ei ≤ m) (hsj : 0 ≤ sj) (hej : sj < ej) (hen : ej ≤ n) :
    ((∀ r c : Int, si ≤ r → r < ei → sj ≤ c → c < n →
        ∃! k : Nat, k < (n - sj).toNat * (ei - si).toNat ∧
          (afterCalls RowMajor.iterator.advance k
            (RowMajor.iterator.ctor ⟨m, n⟩ ⟨si, sj⟩ ⟨ei, ej⟩)).curr = ⟨r, c⟩) ∧
      (∀ k : Nat, k < (n - sj).toNat * (ei - si).toNat →
        ∃ r c : Int, si ≤ r ∧ r < ei ∧ sj ≤ c ∧ c < n ∧
          (afterCalls RowMajor.iterator.advance k
            (RowMajor.iterator.ctor ⟨m, n⟩ ⟨si, sj⟩ ⟨ei, ej⟩)).curr = ⟨r, c⟩ ∧
          (RowMajor.iterator.advance (afterCalls RowMajor.iterator.advance k
            (RowMajor.iterator.ctor ⟨m, n⟩ ⟨si, sj⟩ ⟨ei, ej⟩))).1 ≠ -1) ∧
      (∀ k : Nat, (n - sj).toNat * (ei - si).toNat ≤ k →
        (RowMajor.iterator.advance (afterCalls RowMajor.iterator.advance k
          (RowMajor.iterator.ctor ⟨m, n⟩ ⟨si, sj⟩ ⟨ei, ej⟩))).1 = -1)) ∧
    ((∀ r c : Int, si ≤ r → r < ei → sj ≤ c → c < n →
        ∃! k : Nat, k < (n - sj).toNat * (ei - si).toNat ∧
          (afterCalls ColMajor.iterator.advance k
            (ColMajor.iterator.ctor ⟨m, n⟩ ⟨si, sj⟩ ⟨ei, ej⟩)).curr = ⟨r, c⟩) ∧
      (∀ k : Nat, k < (n - sj).toNat * (ei - si).toNat →
        ∃ r c : Int, si ≤ r ∧ r < ei ∧ sj ≤ c ∧ c < n ∧
          (afterCalls ColMajor.iterator.advance k
            (ColMajor.iterator.ctor ⟨m, n⟩ ⟨si, sj⟩ ⟨ei, ej⟩)).curr = ⟨r, c⟩ ∧
          (ColMajor.iterator.advance (afterCalls ColMajor.iterator.advance k
            (ColMajor.iterator.ctor ⟨m, n⟩ ⟨si, sj⟩ ⟨ei, ej⟩))).1 ≠ -1) ∧
      (∀ k : Nat, (n - sj).toNat * (ei - si).toNat ≤ k →
        (ColMajor.iterator.advance (afterCalls ColMajor.iterator.advance k
          (ColMajor.iterator.ctor ⟨m, n⟩ ⟨si, sj⟩ ⟨ei, ej⟩))).1 = -1)) := by
  have hn : sj < n := by omega
  have hm : 0 ≤ m := by omega
  obtain ⟨r1, r2, r3⟩ := rowMajor_visits m n si sj ei ej hsi hei hsj hn hm
  obtain ⟨c1, c2, c3⟩ := colMajor_visits m n si sj ei ej hsi hei hsj hn hm
  refine ⟨⟨r1, ?_, r3⟩, ⟨c1, ?_, c3⟩⟩
  · intro k hk
    obtain ⟨⟨p1, p2, p3, p4⟩, p5⟩ := r2 k hk
    exact ⟨_, _, p1, p2, p3, p4, rfl, p5⟩
  · intro k hk
    obtain ⟨⟨p1, p2, p3, p4⟩, p5⟩ := c2 k hk
    exact ⟨_, _, p1, p2, p3, p4, rfl, p5⟩

/-- C23 (amended) with size `(2, 3)` and the sub-rectangle from `(0, 0)` to
`(2, 2)`: six calls, at the coordinates of all three columns. -/
theorem iterator_visits_to_last_column_witness :
    ((∀ r c : Int, 0 ≤ r → r < 2 → 0 ≤ c → c < 3 →
        ∃! k : Nat, k < ((3 : Int) - 0).toNat * ((2 : Int) - 0).toNat ∧
          (afterCalls RowMajor.iterator.advance k
            (RowMajor.iterator.ctor ⟨2, 3⟩ ⟨0, 0⟩ ⟨2, 2⟩)).curr = ⟨r, c⟩) ∧
      (∀ k : Nat, k < ((3 : Int) - 0).toNat * ((2 : Int) - 0).toNat →
        ∃ r c : Int, 0 ≤ r ∧ r < 2 ∧ 0 ≤ c ∧ c < 3 ∧
          (afterCalls RowMajor.iterator.advance k
            (RowMajor.iterator.ctor ⟨2, 3⟩ ⟨0, 0⟩ ⟨2, 2⟩)).curr = ⟨r, c⟩ ∧
          (RowMajor.iterator.advance (afterCalls RowMajor.iterator.advance k
            (RowMajor.iterator.ctor ⟨2, 3⟩ ⟨0, 0⟩ ⟨2, 2⟩))).1 ≠ -1) ∧
      (∀ k : Nat, ((3 : Int) - 0).toNat * ((2 : Int) - 0).toNat ≤ k →
        (RowMajor.iterator.advance (afterCalls RowMajor.iterator.advance k
          (RowMajor.iterator.ctor ⟨2, 3⟩ ⟨0, 0⟩ ⟨2, 2⟩))).1 = -1)) ∧
    ((∀ r c : Int, 0 ≤ r → r < 2 → 0 ≤ c → c < 3 →
        ∃! k : Nat, k < ((3 : Int) - 0).toNat * ((2 : Int) - 0).toNat ∧
          (afterCalls ColMajor.iterator.advance k
            (ColMajor.iterator.ctor ⟨2, 3⟩ ⟨0, 0⟩ ⟨2, 2⟩)).curr = ⟨r, c⟩) ∧
      (∀ k : Nat, k < ((3 : Int) - 0).toNat * ((2 : Int) - 0).toNat →
        ∃ r c : Int, 0 ≤ r ∧ r < 2 ∧ 0 ≤ c ∧ c < 3 ∧
          (afterCalls ColMajor.iterator.advance k
            (ColMajor.iterator.ctor ⟨2, 3⟩ ⟨0, 0⟩ ⟨2, 2⟩)).curr = ⟨r, c⟩ ∧
          (ColMajor.iterator.advance (afterCalls ColMajor.iterator.advance k
            (ColMajor.iterator.ctor ⟨2, 3⟩ ⟨0, 0⟩ ⟨2, 2⟩))).1 ≠ -1) ∧
      (∀ k : Nat, ((3 : Int) - 0).toNat * ((2 : Int) - 0).toNat ≤ k →
        (ColMajor.iterator.advance (afterCalls ColMajor.iterator.advance k
          (ColMajor.iterator.ctor ⟨2, 3⟩ ⟨0, 0⟩ ⟨2, 2⟩))).1 = -1)) :=
  iterator_visits_to_last_column 2 3 0 0 2 2 (by decide) (by decide) (by decide) (by decide)
    (by decide) (by decide)

/-- The Triangular iterator after `k` calls, none of them past `in + 1`. -/
theorem triangular_afterCalls (inn : Int) (k : Nat) (hk : (k : Int) ≤ inn + 1) :
    afterCalls Triangular.iterator.next k { in_ := inn, ii := 0 } = { in_ := inn, ii := (k : Int) } := by
  induction k with
  | zero => rfl
  | succ k ih =>
    show (Triangular.iterator.next (afterCalls Triangular.iterator.next k _)).2 = _
    rw [ih (by omega)]
    unfold Triangular.iterator.next
    rw [if_neg (by dsimp only; omega)]
    simp

/-- C24 fails: for every `n ≥ 0`, with `requiredSize` the `size()` of the
Triangular policy built for `n x n`, that is `n*(n+1)/2`, the Triangular
iterator built for size `n x n` returns on successive `next()` calls
`0, 1, ..., requiredSize`, the value `requiredSize` included, and `-1` only
after that: one value more than the packed indices `0, ..., requiredSize - 1`. -/
theorem triangular_iterator_one_too_many (n : Int) (hn : 0 ≤ n) (p : Triangular)
    (hp : Triangular.ctor n n = .ok p) (st en : Duple) (extra : Nat) :
    yields Triangular.iterator.next (p.size.toNat + 1 + extra)
        (Triangular.iterator.ctor ⟨n, n⟩ st en) =
      (List.range (p.size.toNat + 1)).map (fun k : Nat => (k : Int)) ++
        List.replicate extra (-1) := by
  have _h := hn
  have hsize : p.size = (n * (n + 1)).tdiv 2 := by
    unfold Triangular.ctor at hp
    rw [if_pos rfl] at hp
    cases hp
    rfl
  rw [hsize]
  have hreq : (((n * (n + 1)).tdiv 2).toNat : Int) = (n * (n + 1)).tdiv 2 :=
    Int.toNat_of_nonneg (triangular_size_nonneg n)
  have hctor : Triangular.iterator.ctor ⟨n, n⟩ st en =
      { in_ := (n * (n + 1)).tdiv 2, ii := 0 } := rfl
  rw [hctor]
  generalize (n * (n + 1)).tdiv 2 = req at hreq
  rw [yields_add, triangular_afterCalls req _ (by omega)]
  have hfix : Triangular.iterator.next { in_ := req, ii := ((req.toNat + 1 : Nat) : Int) } =
      (-1, { in_ := req, ii := ((req.toNat + 1 : Nat) : Int) }) := by
    unfold Triangular.iterator.next
    rw [if_pos (by dsimp only; omega)]
  rw [yields_fixed _ _ _ hfix]
  congr 1
  apply List.ext_getElem?
  intro j
  rcases Nat.lt_or_ge j (req.toNat + 1) with hj | hj
  · rw [yields_getElem? _ _ _ _ hj, triangular_afterCalls req j (by omega), List.getElem?_map,
      List.getElem?_range hj]
    unfold Triangular.iterator.next
    rw [if_neg (by dsimp only; omega)]
    rfl
  · rw [List.getElem?_eq_none (by simp [yields_length, hj]),
      List.getElem?_eq_none (by simp [hj])]

/-- C24 at size `2 x 2`, where `requiredSize` is `3`: six calls return
`0, 1, 2, 3, -1, -1`. -/
theorem triangular_iterator_one_too_many_witness :
    Triangular.size ⟨2, 2, 3⟩ = 3 ∧
    yields Triangular.iterator.next 6 (Triangular.iterator.ctor ⟨2, 2⟩ ⟨0, 0⟩ ⟨2, 2⟩) =
      [0, 1, 2, 3, -1, -1] :=
  ⟨rfl, triangular_iterator_one_too_many 2 (by decide) ⟨2, 2, 3⟩ rfl ⟨0, 0⟩ ⟨2, 2⟩ 2⟩

/-! ## Wrapping an array -/

/-- A successful wrap has the handle it was given and the linear bound `a * b`. -/
theorem wrap_ok_inv {T P : Type} [Policy P] (p : Option Nat) (b a : Int) (W : Matrix T P)
    (hW : Matrix.wrap T P p b a = .ok W) : W.dptr = p ∧ W.mi = a * b ∧ W.m = b ∧ W.n = a := by
  unfold Matrix.wrap at hW
  cases hc : (Policy.ctor b a : Except Fault P) with
  | error e => rw [hc] at hW; cases hW
  | ok pol =>
    rw [hc] at hW
    cases hW
    exact ⟨rfl, rfl, rfl, rfl⟩

/-- C25: let `p` be an array of length `m * n` and wrap it with dimensions
`m x n`.  Under every policy whose constructor accepts the dimensions,
`operator[]` at `k` with `0 ≤ k < m * n` refers to a cell holding `p[k]`.
Under RowMajor, `operator()` at a valid `(y, x)` refers to a cell holding
`p[y * n + x]`; under ColMajor, to a cell holding `p[x * m + y]`. -/
theorem wrap_access {T : Type} (h : Heap T) (a : Nat) (p : List T) (m n : Int)
    (hp : h.block (some a) = some p) (hlen : (p.length : Int) = m * n) :
    (∀ (P : Type) [Policy P] (W : Matrix T P), Matrix.wrap T P (some a) m n = .ok W →
      ∀ k : Int, 0 ≤ k → k < m * n →
        ∃ v : T, p[k.toNat]? = some v ∧
          ∃ ref : Ref, W.index h k = .ok ref ∧ h.read ref = some v) ∧
    (∃ W : Matrix T RowMajor, Matrix.wrap T RowMajor (some a) m n = .ok W ∧
      ∀ y x : Int, 0 ≤ y → y < m → 0 ≤ x → x < n →
        ∃ v : T, p[(y * n + x).toNat]? = some v ∧
          ∃ ref : Ref, W.elem h y x = .ok ref ∧ h.read ref = some v) ∧
    (∃ W : Matrix T ColMajor, Matrix.wrap T ColMajor (some a) m n = .ok W ∧
      ∀ y x : Int, 0 ≤ y → y < m → 0 ≤ x → x < n →
        ∃ v : T, p[(x * m + y).toNat]? = some v ∧
          ∃ ref : Ref, W.elem h y x = .ok ref ∧ h.read ref = some v) := by
  have ha : h[a]? = some p := hp
  refine ⟨?_, ⟨_, rfl, ?_⟩, ⟨_, rfl, ?_⟩⟩
  · intro P _ W hW k hk0 hk1
    obtain ⟨hd, hmi, -, -⟩ := wrap_ok_inv (some a) m n W hW
    have hkl : k.toNat < p.length := by omega
    refine ⟨p.get ⟨k.toNat, hkl⟩, List.getElem?_eq_getElem hkl, _,
      index_ok W h a p hd ha k hk0 (by rw [hmi]; linarith) (by omega), read_some h a p ha _ hkl⟩
  · intro y x hy0 hy1 hx0 hx1
    obtain ⟨r0, r1⟩ := rowMajor_offset_range m n y x hy0 hy1 hx0 hx1
    have e : (RowMajor.ctor m n).offset y x = y * n + x := rfl
    rw [e] at r0 r1
    have hkl : (y * n + x).toNat < p.length := by omega
    refine ⟨p.get ⟨(y * n + x).toNat, hkl⟩, List.getElem?_eq_getElem hkl, _,
      elem_ok (P := RowMajor) _ h a p rfl ha y x r0 ?_ ?_, read_some h a p ha _ hkl⟩
    · show y * n + x < n * m
      linarith
    · show y * n + x < (p.length : Int)
      omega
  · intro y x hy0 hy1 hx0 hx1
    obtain ⟨r0, r1⟩ := colMajor_offset_range m n y x hy0 hy1 hx0 hx1
    have e : (ColMajor.ctor m n).offset y x = x * m + y := rfl
    rw [e] at r0 r1
    have hkl : (x * m + y).toNat < p.length := by omega
    refine ⟨p.get ⟨(x * m + y).toNat, hkl⟩, List.getElem?_eq_getElem hkl, _,
      elem_ok (P := ColMajor) _ h a p rfl ha y x r0 ?_ ?_, read_some h a p ha _ hkl⟩
    · show x * m + y < n * m
      linarith
    · show x * m + y < (p.length : Int)
      omega

/-- C25 for the array `10, 11, 12, 13, 14, 15` wrapped as `2 x 3`. -/
theorem wrap_access_witness :
    (∀ (P : Type) [Policy P] (W : Matrix Int P), Matrix.wrap Int P (some 0) 2 3 = .ok W →
      ∀ k : Int, 0 ≤ k → k < 2 * 3 →
        ∃ v : Int, [10, 11, 12, 13, 14, 15][k.toNat]? = some v ∧
          ∃ ref : Ref, W.index [[10, 11, 12, 13, 14, 15]] k = .ok ref ∧
            Heap.read [[10, 11, 12, 13, 14, 15]] ref = some v) ∧
    (∃ W : Matrix Int RowMajor, Matrix.wrap Int RowMajor (some 0) 2 3 = .ok W ∧
      ∀ y x : Int, 0 ≤ y → y < 2 → 0 ≤ x → x < 3 →
        ∃ v : Int, [10, 11, 12, 13, 14, 15][(y * 3 + x).toNat]? = some v ∧
          ∃ ref : Ref, W.elem [[10, 11, 12, 13, 14, 15]] y x = .ok ref ∧
            Heap.read [[10, 11, 12, 13, 14, 15]] ref = some v) ∧
    (∃ W : Matrix Int ColMajor, Matrix.wrap Int ColMajor (some 0) 2 3 = .ok W ∧
      ∀ y x : Int, 0 ≤ y → y < 2 → 0 ≤ x → x < 3 →
        ∃ v : Int, [10, 11, 12, 13, 14, 15][(x * 2 + y).toNat]? = some v ∧
          ∃ ref : Ref, W.elem [[10, 11, 12, 13, 14, 15]] y x = .ok ref ∧
            Heap.read [[10, 11, 12, 13, 14, 15]] ref = some v) :=
  wrap_access [[10, 11, 12, 13, 14, 15]] 0 [10, 11, 12, 13, 14, 15] 2 3 rfl (by decide)

/-! ## Time series: the operators on two series -/

/-- A checked read inside the vector. -/
theorem at_some {T : Type} (a : tTimeSeries T) (i : Nat) (v : T) (h : a._data[i]? = some v) :
    a.at (i : Int) = .ok v := by
  simp [tTimeSeries.at, h]

/-- An unchecked read inside the vector. -/
theorem raw_some {T : Type} (a : tTimeSeries T) (i : Nat) (v : T) (h : a._data[i]? = some v) :
    a.raw (i : Int) = .ok v := by
  simp [tTimeSeries.raw, h]

/-- A checked assignment inside the vector. -/
theorem setAt_lt {T : Type} (a : tTimeSeries T) (i : Nat) (v : T) (h : i < a._data.length) :
    a.setAt (i : Int) v = .ok { _data := a._data.set i v } := by
  simp [tTimeSeries.setAt, h]

/-- An unchecked assignment inside the vector. -/
theorem setRaw_lt {T : Type} (a : tTimeSeries T) (i : Nat) (v : T) (h : i < a._data.length) :
    a.setRaw (i : Int) v = .ok { _data := a._data.set i v } := by
  simp [tTimeSeries.setRaw, h]

/-- Element `i` of the elementwise combination of two lists. -/
theorem zipWith_getElem?_some {T : Type} (op : T → T → T) (a b : List T) (i : Nat) (x y : T)
    (hx : a[i]? = some x) (hy : b[i]? = some y) : (List.zipWith op a b)[i]? = some (op x y) := by
  rw [List.getElem?_zipWith, hx, hy]

/-- Assigning element `k` moves the frontier of a loop that has rewritten the
elements below `k`. -/
theorem frontier_set {T : Type} (l a z : List T) (k : Nat) (v : T) (hl : l.length = a.length)
    (hk : k < a.length) (hz : z[k]? = some v)
    (hinv : ∀ i : Nat, l[i]? = if i < k then z[i]? else a[i]?) (i : Nat) :
    (l.set k v)[i]? = if i < k + 1 then z[i]? else a[i]? := by
  rw [List.getElem?_set]
  by_cases hik : k = i
  · subst hik
    rw [if_pos rfl, if_pos (by omega), if_pos (by omega), hz]
  · rw [if_neg hik, hinv i]
    by_cases h1 : i < k
    · rw [if_pos h1, if_pos (by omega)]
    · rw [if_neg h1, if_neg (by omega)]

/-- The loop of the in-place operators after `k` passes: nothing thrown, the
elements below `k` combined with those of `rhs`, the others as they were. -/
theorem assign_loop {T : Type} (op : T → T → T) (a b : tTimeSeries T)
    (hlen : a._data.length = b._data.length) (k : Nat) (hk : k ≤ a._data.length) :
    ∃ r : tTimeSeries T,
      (List.range k).foldl (tTimeSeries.assignStep op b) (a, none) = (r, none) ∧
      r._data.length = a._data.length ∧
      ∀ i : Nat, r._data[i]? = if i < k then (List.zipWith op a._data b._data)[i]? else a._data[i]? := by
  induction k with
  | zero => exact ⟨a, rfl, rfl, fun i => by simp⟩
  | succ k ih =>
    obtain ⟨r, h1, h2, h3⟩ := ih (by omega)
    have hka : k < a._data.length := by omega
    have hkb : k < b._data.length := by omega
    have ea : a._data[k]? = some (a._data.get ⟨k, hka⟩) := List.getElem?_eq_getElem hka
    have eb : b._data[k]? = some (b._data.get ⟨k, hkb⟩) := List.getElem?_eq_getElem hkb
    have er : r._data[k]? = some (a._data.get ⟨k, hka⟩) := by rw [h3 k, if_neg (by omega), ea]
    refine ⟨{ _data := r._data.set k (op (a._data.get ⟨k, hka⟩) (b._data.get ⟨k, hkb⟩)) }, ?_, ?_, ?_⟩
    · rw [List.range_succ, List.foldl_append, h1]
      simp only [List.foldl_cons, List.foldl_nil, tTimeSeries.assignStep]
      rw [at_some b k _ eb, raw_some r k _ er]
      dsimp only
      rw [setRaw_lt r k _ (by omega)]
    · simp [h2]
    · exact frontier_set r._data a._data _ k _ h2 hka (zipWith_getElem?_some op _ _ k _ _ ea eb) h3

/-- The loop of the const operators after `k` passes. -/
theorem bin_loop {T : Type} (op : T → T → T) (a b : tTimeSeries T)
    (hlen : a._data.length = b._data.length) (k : Nat) (hk : k ≤ a._data.length) :
    ∃ r : tTimeSeries T,
      (List.range k).foldlM (tTimeSeries.binStep op b) a = .ok r ∧
      r._data.length = a._data.length ∧
      ∀ i : Nat, r._data[i]? = if i < k then (List.zipWith op a._data b._data)[i]? else a._data[i]? := by
  induction k with
  | zero => exact ⟨a, rfl, rfl, fun i => by simp⟩
  | succ k ih =>
    obtain ⟨r, h1, h2, h3⟩ := ih (by omega)
    have hka : k < a._data.length := by omega
    have hkb : k < b._data.length := by omega
    have ea : a._data[k]? = some (a._data.get ⟨k, hka⟩) := List.getElem?_eq_getElem hka
    have eb : b._data[k]? = some (b._data.get ⟨k, hkb⟩) := List.getElem?_eq_getElem hkb
    have er : r._data[k]? = some (a._data.get ⟨k, hka⟩) := by rw [h3 k, if_neg (by omega), ea]
    refine ⟨{ _data := r._data.set k (op (a._data.get ⟨k, hka⟩) (b._data.get ⟨k, hkb⟩)) }, ?_, ?_, ?_⟩
    · rw [List.range_succ, List.foldlM_append, h1]
      show (List.foldlM (tTimeSeries.binStep op b) r [k]) = _
      simp only [List.foldlM_cons, List.foldlM_nil, tTimeSeries.binStep]
      rw [at_some b k _ eb, at_some r k _ er]
      dsimp only
      rw [setAt_lt r k _ (by omega)]
      rfl
    · simp [h2]
    · exact frontier_set r._data a._data _ k _ h2 hka (zipWith_getElem?_some op _ _ k _ _ ea eb) h3

/-- A list that agrees with the elementwise combination below its length is
that combination. -/
theorem eq_zipWith_of_frontier {T : Type} (op : T → T → T) (l a b : List T)
    (hlen : a.length = b.length) (hl : l.length = a.length)
    (h : ∀ i : Nat, l[i]? = if i < a.length then (List.zipWith op a b)[i]? else a[i]?) :
    l = List.zipWith op a b := by
  apply List.ext_getElem?
  intro i
  rw [h i]
  by_cases hi : i < a.length
  · rw [if_pos hi]
  · rw [if_neg hi, List.getElem?_eq_none (by omega), List.getElem?_eq_none]
    simp
    omega

/-- The in-place operators: a throw of `runtime_error` that leaves `*this`, or
the elementwise combination, returned and left in `*this`. -/
theorem assignOp_eq {T : Type} (op : T → T → T) (a b : tTimeSeries T) :
    tTimeSeries.assignOp op a b =
      if a._data.length ≠ b._data.length then (.error .runtime_error, a)
      else (.ok { _data := List.zipWith op a._data b._data },
        { _data := List.zipWith op a._data b._data }) := by
  unfold tTimeSeries.assignOp tTimeSeries.size
  by_cases hlen : a._data.length = b._data.length
  · obtain ⟨r, h1, h2, h3⟩ := assign_loop op a b hlen a._data.length le_rfl
    have e : r = { _data := List.zipWith op a._data b._data } := by
      cases r with
      | mk l => exact congrArg _ (eq_zipWith_of_frontier op l _ _ hlen h2 h3)
    rw [if_neg (by simp [hlen]), if_neg (by simp [hlen]), h1, e]
  · rw [if_pos (by exact_mod_cast hlen), if_pos hlen]

/-- The const operators: a throw of `runtime_error`, or the elementwise
combination. -/
theorem binOp_eq {T : Type} (op : T → T → T) (a b : tTimeSeries T) :
    tTimeSeries.binOp op a b =
      if a._data.length ≠ b._data.length then .error .runtime_error
      else .ok { _data := List.zipWith op a._data b._data } := by
  unfold tTimeSeries.binOp tTimeSeries.size
  by_cases hlen : a._data.length = b._data.length
  · obtain ⟨r, h1, h2, h3⟩ := bin_loop op a b hlen a._data.length le_rfl
    have e : r = { _data := List.zipWith op a._data b._data } := by
      cases r with
      | mk l => exact congrArg _ (eq_zipWith_of_frontier op l _ _ hlen h2 h3)
    rw [if_neg (by simp [hlen]), if_neg (by simp [hlen]), h1, e]
  · rw [if_pos (by exact_mod_cast hlen), if_pos hlen]

/-! ## Time series: the loops of the averages -/

/-- A list that agrees with `z` below its length is `z`. -/
theorem eq_of_frontier {T : Type} (l a z : List T) (hz : z.length = a.length)
    (hl : l.length = a.length)
    (h : ∀ i : Nat, l[i]? = if i < a.length then z[i]? else a[i]?) : l = z := by
  apply List.ext_getElem?
  intro i
  rw [h i]
  by_cases hi : i < a.length
  · rw [if_pos hi]
  · rw [if_neg hi, List.getElem?_eq_none (by omega), List.getElem?_eq_none (by omega)]

/-- The sum of the first `k + 1` elements. -/
theorem sum_take_step {T : Type} [Field T] (l : List T) (k : Nat) (x : T) (hx : l[k]? = some x) :
    (l.take (k + 1)).sum = (l.take k).sum + x := by
  rw [List.take_succ, hx]
  simp

/-- The sum of a window one place further on: the element left behind goes,
the element reached comes. -/
theorem sum_window_step {T : Type} [Field T] (l : List T) (j w : Nat) (x y : T)
    (hx : l[j]? = some x) (hy : l[j + (w + 1)]? = some y) :
    ((l.drop (j + 1)).take (w + 1)).sum = ((l.drop j).take (w + 1)).sum - x + y := by
  have hj : j < l.length := by
    by_contra hc
    rw [List.getElem?_eq_none (by omega)] at hx
    cases hx
  have e1 : l.drop j = x :: l.drop (j + 1) := by
    rw [List.drop_eq_getElem_cons hj]
    congr 1
    rw [List.getElem?_eq_getElem hj] at hx
    exact Option.some.inj hx
  have e2 : (l.drop (j + 1))[w]? = some y := by
    rw [List.getElem?_drop]
    rw [← hy]
    congr 1
    omega
  rw [e1, List.take_succ_cons, List.sum_cons, List.take_succ, e2]
  simp

/-- The loop of `running_average` after `k` passes. -/
theorem running_loop {T : Type} [Field T] (a : tTimeSeries T) (k : Nat)
    (hk : k ≤ a._data.length) :
    ∃ r : tTimeSeries T,
      (List.range k).foldlM a.runningStep (0, tTimeSeries.sized (a._data.length : Int)) =
        .ok ((a._data.take k).sum, r) ∧
      r._data.length = a._data.length ∧
      ∀ i : Nat, r._data[i]? =
        if i < k then
          ((List.range a._data.length).map
            (fun i : Nat => (a._data.take (i + 1)).sum / ((i : T) + 1)))[i]?
        else (List.replicate a._data.length (0 : T))[i]? := by
  induction k with
  | zero =>
    refine ⟨tTimeSeries.sized (a._data.length : Int), ?_, ?_, fun i => ?_⟩
    · simp
      rfl
    · simp [tTimeSeries.sized]
    · simp [tTimeSeries.sized]
  | succ k ih =>
    obtain ⟨r, h1, h2, h3⟩ := ih (by omega)
    have hka : k < a._data.length := by omega
    have ea : a._data[k]? = some (a._data.get ⟨k, hka⟩) := List.getElem?_eq_getElem hka
    refine ⟨tTimeSeries.mk (r._data.set k ((a._data.take (k + 1)).sum / ((k : T) + 1))),
      ?_, ?_, ?_⟩
    · rw [List.range_succ, List.foldlM_append, h1]
      show (List.foldlM a.runningStep ((a._data.take k).sum, r) [k]) = _
      simp only [List.foldlM_cons, List.foldlM_nil, tTimeSeries.runningStep]
      rw [raw_some a k _ ea]
      dsimp only
      rw [setAt_lt r k _ (by omega), sum_take_step _ k _ ea]
      simp only [Int.cast_add, Int.cast_natCast, Int.cast_one]
      rfl
    · simp [h2]
    · intro i
      refine frontier_set r._data (List.replicate a._data.length (0 : T)) _ k _ (by simp [h2])
        (by simp [hka]) ?_ h3 i
      simp [hka]

/-- The value `running_average` returns, as a list. -/
theorem running_average_eq {T : Type} [Field T] (a : tTimeSeries T) :
    a.running_average = .ok (tTimeSeries.mk ((List.range a._data.length).map
      (fun i : Nat => (a._data.take (i + 1)).sum / ((i : T) + 1)))) := by
  obtain ⟨r, h1, h2, h3⟩ := running_loop a a._data.length le_rfl
  have e : r = tTimeSeries.mk ((List.range a._data.length).map
      (fun i : Nat => (a._data.take (i + 1)).sum / ((i : T) + 1))) := by
    cases r with
    | mk l =>
      refine congrArg _ (eq_of_frontier l (List.replicate a._data.length (0 : T)) _ (by simp)
        (by simpa using h2) ?_)
      intro i
      rw [h3 i]
      simp
  unfold tTimeSeries.running_average
  rw [h1, e]

/-- The summing loop of `windowed_average` after `k` passes. -/
theorem sum_loop {T : Type} [Field T] (a : tTimeSeries T) (k : Nat) (hk : k ≤ a._data.length) :
    (List.range k).foldlM a.sumStep (0 : T) = .ok (a._data.take k).sum := by
  induction k with
  | zero => simp; rfl
  | succ k ih =>
    have hka : k < a._data.length := by omega
    have ea : a._data[k]? = some (a._data.get ⟨k, hka⟩) := List.getElem?_eq_getElem hka
    rw [List.range_succ, List.foldlM_append, ih (by omega)]
    show (List.foldlM a.sumStep ((a._data.take k).sum) [k]) = _
    simp only [List.foldlM_cons, List.foldlM_nil, tTimeSeries.sumStep]
    rw [raw_some a k _ ea, sum_take_step _ k _ ea]
    rfl

/-! ## Time series: the sliding window -/

/-- The sliding loop of `windowed_average` after the passes `i = 1, ..., j`,
started from the sum of the first window and from `result` with element `0`
assigned. -/
theorem slide_loop {T : Type} [Field T] (a : tTimeSeries T) (w len : Nat)
    (hlen : len + (w + 1) = a._data.length) (r1 : tTimeSeries T) (hr1 : r1._data.length = len)
    (h0 : r1._data[0]? = some (((a._data.drop 0).take (w + 1)).sum / (((w + 1 : Nat) : Int) : T)))
    (j : Nat) (hj : j + 1 ≤ len) :
    ∃ r : tTimeSeries T,
      (List.range' 1 j).foldlM (a.slideStep ((w + 1 : Nat) : Int))
          (((a._data.drop 0).take (w + 1)).sum, r1) =
        .ok (((a._data.drop j).take (w + 1)).sum, r) ∧
      r._data.length = r1._data.length ∧
      ∀ i : Nat, r._data[i]? =
        if i < j + 1 then
          ((List.range len).map (fun i : Nat =>
            ((a._data.drop i).take (w + 1)).sum / (((w + 1 : Nat) : Int) : T)))[i]?
        else r1._data[i]? := by
  induction j with
  | zero =>
    refine ⟨r1, rfl, rfl, fun i => ?_⟩
    by_cases hi : i < 0 + 1
    · have e : i = 0 := by omega
      subst e
      rw [if_pos hi, h0, List.getElem?_map, List.getElem?_range (by omega)]
      rfl
    · rw [if_neg hi]
  | succ j ih =>
    obtain ⟨r, h1, h2, h3⟩ := ih (by omega)
    have hja : j < a._data.length := by omega
    have hjw : j + (w + 1) < a._data.length := by omega
    have ea : a._data[j]? = some (a._data.get ⟨j, hja⟩) := List.getElem?_eq_getElem hja
    have eb : a._data[j + (w + 1)]? = some (a._data.get ⟨j + (w + 1), hjw⟩) :=
      List.getElem?_eq_getElem hjw
    have c1 : ((1 + j : Nat) : Int) - 1 = ((j : Nat) : Int) := by push_cast; ring
    have c2 : ((1 + j : Nat) : Int) + ((w + 1 : Nat) : Int) - 1 = ((j + (w + 1) : Nat) : Int) := by
      push_cast; ring
    refine ⟨tTimeSeries.mk (r._data.set (j + 1)
      (((a._data.drop (j + 1)).take (w + 1)).sum / (((w + 1 : Nat) : Int) : T))), ?_, ?_, ?_⟩
    · rw [List.range'_1_concat, List.foldlM_append, h1]
      show (List.foldlM (a.slideStep ((w + 1 : Nat) : Int))
        (((a._data.drop j).take (w + 1)).sum, r) [1 + j]) = _
      simp only [List.foldlM_cons, List.foldlM_nil, tTimeSeries.slideStep]
      rw [c1, c2, raw_some a j _ ea, raw_some a (j + (w + 1)) _ eb]
      dsimp only
      rw [setAt_lt r (1 + j) _ (by omega), ← sum_window_step _ j w _ _ ea eb, Nat.add_comm 1 j]
      rfl
    · simp [h2]
    · intro i
      refine frontier_set r._data r1._data _ (j + 1) _ h2 (by omega) ?_ h3 i
      have hjl : j + 1 < len := by omega
      simp [hjl]

/-- The local `result` of `windowed_average` for a window of at least one
element and shorter than the series. -/
theorem windowed_average_eq {T : Type} [Field T] (a : tTimeSeries T) (w len : Nat)
    (hlen : len + 1 + (w + 1) = a._data.length) (hint : ((w + 1 : Nat) : Int) < 2 ^ 31) :
    a.windowed_average_result ((w + 1 : Nat) : Int) = .ok (tTimeSeries.mk ((List.range (len + 1)).map
      (fun i : Nat => ((a._data.drop i).take (w + 1)).sum / (((w + 1 : Nat) : Int) : T)))) := by
  have hmod : ((w + 1 : Nat) : Int) % 2 ^ 64 = ((w + 1 : Nat) : Int) :=
    Int.emod_eq_of_lt (by omega) (by omega)
  have hsz : (((a._data.length : Nat) : Int) - ((w + 1 : Nat) : Int)).toNat = len + 1 := by omega
  have hr0 : (tTimeSeries.sized (((a._data.length : Nat) : Int) - ((w + 1 : Nat) : Int)) :
      tTimeSeries T) = tTimeSeries.mk (List.replicate (len + 1) 0) := by
    unfold tTimeSeries.sized
    rw [hsz]
  have hset : (tTimeSeries.mk (List.replicate (len + 1) (0 : T))).setAt 0
      ((a._data.take (w + 1)).sum / (((w + 1 : Nat) : Int) : T)) =
      .ok (tTimeSeries.mk ((List.replicate (len + 1) (0 : T)).set 0
        ((a._data.take (w + 1)).sum / (((w + 1 : Nat) : Int) : T)))) := by
    have := setAt_lt (tTimeSeries.mk (List.replicate (len + 1) (0 : T))) 0
      ((a._data.take (w + 1)).sum / (((w + 1 : Nat) : Int) : T)) (by simp)
    simpa using this
  obtain ⟨r, h1, h2, h3⟩ := slide_loop a w (len + 1) hlen
    (tTimeSeries.mk ((List.replicate (len + 1) (0 : T)).set 0
      ((a._data.take (w + 1)).sum / (((w + 1 : Nat) : Int) : T)))) (by simp) (by simp) len le_rfl
  have e : r = tTimeSeries.mk ((List.range (len + 1)).map
      (fun i : Nat => ((a._data.drop i).take (w + 1)).sum / (((w + 1 : Nat) : Int) : T))) := by
    cases r with
    | mk l =>
      refine congrArg _ (eq_of_frontier l ((List.replicate (len + 1) (0 : T)).set 0
        ((a._data.take (w + 1)).sum / (((w + 1 : Nat) : Int) : T))) _ (by simp)
        (by simpa using h2) ?_)
      intro i
      rw [h3 i]
      simp
  unfold tTimeSeries.windowed_average_result
  simp only [hmod]
  rw [if_neg (by omega), hr0, Int.toNat_ofNat, sum_loop a (w + 1) (by omega)]
  simp only [hset]
  have hl1 : ((List.replicate (len + 1) (0 : T)).set 0
      ((a._data.take (w + 1)).sum / (((w + 1 : Nat) : Int) : T))).length - 1 = len := by simp
  rw [hl1]
  rw [List.drop_zero] at h1
  rw [h1, e]

/-! ## Time series: the contracts -/

/-- C26: each of the six operators on two series, `+=`, `+`, `-=`, `-`, `*=`
and `*`, throws `runtime_error` exactly when the two lengths differ; an
in-place operator that throws leaves the left operand as it was; with equal
lengths the in-place operators return, and leave in the left operand, the
elementwise sum, difference or product, the const operators return it, and it
has the length of the operands. -/
theorem series_ops_size_contract {T : Type} [Add T] [Sub T] [Mul T] (a b : tTimeSeries T) :
    (((a.addAssign b).1 = .error .runtime_error ↔ a._data.length ≠ b._data.length) ∧
      (a.add b = .error .runtime_error ↔ a._data.length ≠ b._data.length) ∧
      ((a.subAssign b).1 = .error .runtime_error ↔ a._data.length ≠ b._data.length) ∧
      (a.sub b = .error .runtime_error ↔ a._data.length ≠ b._data.length) ∧
      ((a.mulAssign b).1 = .error .runtime_error ↔ a._data.length ≠ b._data.length) ∧
      (a.mul b = .error .runtime_error ↔ a._data.length ≠ b._data.length)) ∧
    (a._data.length ≠ b._data.length →
      (a.addAssign b).2 = a ∧ (a.subAssign b).2 = a ∧ (a.mulAssign b).2 = a) ∧
    (a._data.length = b._data.length →
      a.addAssign b = (.ok ⟨List.zipWith (fun x y => x + y) a._data b._data⟩,
        ⟨List.zipWith (fun x y => x + y) a._data b._data⟩) ∧
      a.add b = .ok ⟨List.zipWith (fun x y => x + y) a._data b._data⟩ ∧
      a.subAssign b = (.ok ⟨List.zipWith (fun x y => x - y) a._data b._data⟩,
        ⟨List.zipWith (fun x y => x - y) a._data b._data⟩) ∧
      a.sub b = .ok ⟨List.zipWith (fun x y => x - y) a._data b._data⟩ ∧
      a.mulAssign b = (.ok ⟨List.zipWith (fun x y => x * y) a._data b._data⟩,
        ⟨List.zipWith (fun x y => x * y) a._data b._data⟩) ∧
      a.mul b = .ok ⟨List.zipWith (fun x y => x * y) a._data b._data⟩ ∧
      (List.zipWith (fun x y => x + y) a._data b._data).length = a._data.length ∧
      (List.zipWith (fun x y => x - y) a._data b._data).length = a._data.length ∧
      (List.zipWith (fun x y => x * y) a._data b._data).length = a._data.length) := by
  unfold tTimeSeries.addAssign tTimeSeries.subAssign tTimeSeries.mulAssign tTimeSeries.add
    tTimeSeries.sub tTimeSeries.mul
  simp only [assignOp_eq, binOp_eq]
  by_cases h : a._data.length = b._data.length
  · simp [h]
  · simp [h]

/-- C26 for the series `1, 2, 3` with `10, 20, 30` and with `10, 20`. -/
theorem series_ops_size_contract_witness :
    (tTimeSeries.addAssign (⟨[1, 2, 3]⟩ : tTimeSeries Int) ⟨[10, 20, 30]⟩ =
        (.ok ⟨[11, 22, 33]⟩, ⟨[11, 22, 33]⟩) ∧
      tTimeSeries.sub (⟨[1, 2, 3]⟩ : tTimeSeries Int) ⟨[10, 20, 30]⟩ = .ok ⟨[-9, -18, -27]⟩ ∧
      tTimeSeries.mul (⟨[1, 2, 3]⟩ : tTimeSeries Int) ⟨[10, 20, 30]⟩ = .ok ⟨[10, 40, 90]⟩) ∧
    (tTimeSeries.mulAssign (⟨[1, 2, 3]⟩ : tTimeSeries Int) ⟨[10, 20]⟩).1 =
      .error .runtime_error ∧
    (tTimeSeries.mulAssign (⟨[1, 2, 3]⟩ : tTimeSeries Int) ⟨[10, 20]⟩).2 = ⟨[1, 2, 3]⟩ :=
  ⟨⟨((series_ops_size_contract (⟨[1, 2, 3]⟩ : tTimeSeries Int) ⟨[10, 20, 30]⟩).2.2 rfl).1,
      ((series_ops_size_contract (⟨[1, 2, 3]⟩ : tTimeSeries Int) ⟨[10, 20, 30]⟩).2.2 rfl).2.2.2.1,
      ((series_ops_size_contract (⟨[1, 2, 3]⟩ : tTimeSeries Int) ⟨[10, 20, 30]⟩).2.2 rfl).2.2.2.2.2.1⟩,
    ((series_ops_size_contract (⟨[1, 2, 3]⟩ : tTimeSeries Int) ⟨[10, 20]⟩).1.2.2.2.2.1).2
      (by decide),
    ((series_ops_size_contract (⟨[1, 2, 3]⟩ : tTimeSeries Int) ⟨[10, 20]⟩).2.1 (by decide)).2.2⟩

/-- C27 fails: for a series with data `d` of length `N` and an `int` window with
`1 ≤ window < N`, over a field, `windowed_average(window)` hands no series to
its caller, because its body ends without a `return` statement.  The local
`result` it has built by then has `N - window` values, and value `i` of it is
`(1 / window) * (d[i] + ... + d[i + window - 1])`: only the `return` is
missing. -/
theorem windowed_average_never_returns {T : Type} [Field T] (a : tTimeSeries T) (window : Int)
    (h1 : 1 ≤ window) (h2 : window < (a._data.length : Int)) (hint : window < 2 ^ 31) :
    a.windowed_average window = .error .missing_return ∧
    ∃ r : tTimeSeries T, a.windowed_average_result window = .ok r ∧
      (r._data.length : Int) = (a._data.length : Int) - window ∧
      ∀ i : Nat, i < r._data.length →
        r._data[i]? = some ((1 / (window : T)) * ((a._data.drop i).take window.toNat).sum) := by
  obtain ⟨W, rfl⟩ := Int.eq_ofNat_of_zero_le (by omega : 0 ≤ window)
  obtain ⟨w, rfl⟩ : ∃ w : Nat, W = w + 1 := ⟨W - 1, by omega⟩
  obtain ⟨len, hlen⟩ : ∃ len : Nat, len + 1 + (w + 1) = a._data.length :=
    ⟨a._data.length - (w + 1) - 1, by omega⟩
  have hres := windowed_average_eq a w len hlen hint
  refine ⟨?_, _, hres, ?_, ?_⟩
  · unfold tTimeSeries.windowed_average
    rw [hres]
  · simp only [List.length_map, List.length_range]
    omega
  · intro i hi
    simp only [List.length_map, List.length_range] at hi
    rw [List.getElem?_map, List.getElem?_range hi, Int.toNat_ofNat]
    simp only [Option.map_some', Option.some.injEq]
    rw [div_eq_inv_mul, one_div]

/-- C27 at the series `1, 2, 3, 6, 10` over the rationals and the window `2`:
no series is returned. -/
theorem windowed_average_never_returns_witness :
    tTimeSeries.windowed_average (⟨[1, 2, 3, 6, 10]⟩ : tTimeSeries ℚ) 2 =
      .error .missing_return ∧
    ∃ r : tTimeSeries ℚ,
      tTimeSeries.windowed_average_result ⟨[1, 2, 3, 6, 10]⟩ 2 = .ok r ∧
      (r._data.length : Int) = (([1, 2, 3, 6, 10] : List ℚ).length : Int) - 2 ∧
      ∀ i : Nat, i < r._data.length →
        r._data[i]? = some ((1 / ((2 : Int) : ℚ)) *
          ((([1, 2, 3, 6, 10] : List ℚ).drop i).take (2 : Int).toNat).sum) :=
  windowed_average_never_returns ⟨[1, 2, 3, 6, 10]⟩ 2 (by decide) (by decide) (by decide)

/-- C28 fails at a window as long as the series: the guard
`window > _data.size()` does not hold, `result` is built with
`_data.size() - window = 0` elements, and `result[0]` throws `out_of_range`. -/
theorem windowed_average_throws_at_full_window {T : Type} [Field T] (a : tTimeSeries T)
    (h1 : 1 ≤ a._data.length) (hint : ((a._data.length : Nat) : Int) < 2 ^ 31) :
    ¬ (((a._data.length : Nat) : Int) % 2 ^ 64 > (a._data.length : Int)) ∧
    (tTimeSeries.sized ((a._data.length : Int) - ((a._data.length : Nat) : Int) % 2 ^ 64) :
      tTimeSeries T).size = 0 ∧
    a.windowed_average ((a._data.length : Nat) : Int) = .error .out_of_range := by
  have hmod : ((a._data.length : Nat) : Int) % 2 ^ 64 = ((a._data.length : Nat) : Int) :=
    Int.emod_eq_of_lt (by omega) (by omega)
  refine ⟨by omega, ?_, ?_⟩
  · rw [hmod]
    simp [tTimeSeries.sized, tTimeSeries.size]
  · have hres : a.windowed_average_result ((a._data.length : Nat) : Int) =
        .error .out_of_range := by
      unfold tTimeSeries.windowed_average_result
      simp only [hmod]
      rw [if_neg (by omega), Int.toNat_ofNat, sum_loop a _ le_rfl]
      simp [tTimeSeries.sized, tTimeSeries.setAt]
    unfold tTimeSeries.windowed_average
    rw [hres]

/-- C28 at the series `1, 2, 3` over the rationals with the window `3`. -/
theorem windowed_average_throws_at_full_window_witness :
    ¬ ((((([1, 2, 3] : List ℚ).length : Nat) : Int)) % 2 ^ 64 >
      ((([1, 2, 3] : List ℚ).length : Nat) : Int)) ∧
    (tTimeSeries.sized (((([1, 2, 3] : List ℚ).length : Nat) : Int) -
      ((([1, 2, 3] : List ℚ).length : Nat) : Int) % 2 ^ 64) : tTimeSeries ℚ).size = 0 ∧
    tTimeSeries.windowed_average (⟨[1, 2, 3]⟩ : tTimeSeries ℚ) 3 = .error .out_of_range :=
  windowed_average_throws_at_full_window ⟨[1, 2, 3]⟩ (by decide) (by decide)

/-- C29: for a series with data `d` of length `N`, over a field,
`running_average()` returns, without throwing, a series of length `N` whose
value `i` is `(d[0] + ... + d[i]) / (i + 1)` for every `i < N`.  The method is
`const` and the series it is called on is a value the call only reads. -/
theorem running_average_values {T : Type} [Field T] (a : tTimeSeries T) :
    ∃ r : tTimeSeries T, a.running_average = .ok r ∧ r._data.length = a._data.length ∧
      ∀ i : Nat, i < a._data.length →
        r._data[i]? = some ((a._data.take (i + 1)).sum / ((i : T) + 1)) := by
  refine ⟨_, running_average_eq a, by simp, ?_⟩
  intro i hi
  rw [List.getElem?_map, List.getElem?_range hi]
  rfl

/-- C29 for the series `1, 2, 3, 6` over the rationals. -/
theorem running_average_values_witness :
    ∃ r : tTimeSeries ℚ, tTimeSeries.running_average ⟨[1, 2, 3, 6]⟩ = .ok r ∧
      r._data.length = 4 ∧
      ∀ i : Nat, i < 4 →
        r._data[i]? = some ((([1, 2, 3, 6] : List ℚ).take (i + 1)).sum / ((i : ℚ) + 1)) :=
  running_average_values ⟨[1, 2, 3, 6]⟩

/-! ## Iterators: termination, and the ColMajor permutation -/

/-- C31 fails as stated when a start coordinate is negative: the RowMajor
iterator with size `(2, 3)`, start `(-1, 0)` and end `(1, 3)`, for which
`max(1, end.i - start.i) * max(1, size.j - start.j)` is `6`, returns `-1`, the
value of the sentinel, on its first call, and `0, 1, 2, 3, 4` after it. -/
theorem iterator_sentinel_first_counterexample :
    max 1 ((1 : Int) - (-1)) * max 1 ((3 : Int) - 0) = 6 ∧
    yields RowMajor.iterator.advance 7 (RowMajor.iterator.ctor ⟨2, 3⟩ ⟨-1, 0⟩ ⟨1, 3⟩) =
      [-1, 0, 1, 2, 3, 4, -1] := by
  decide

/-- C31 (amended): for the RowMajor and the ColMajor iterator with a size and a
start of non-negative components and any end, empty and inverted ranges and
zero dimensions included, with
`N = max(1, end.i - start.i) * max(1, size.j - start.j)`: `N` is at least `1`,
each of the first `N` calls of `advance` returns a non-negative value, and
every later call returns `-1` and leaves the iterator as it is. -/
theorem iterator_terminates (m n si sj ei ej : Int) (hm : 0 ≤ m) (hn : 0 ≤ n) (hsi : 0 ≤ si)
    (hsj : 0 ≤ sj) :
    1 ≤ (max 1 (ei - si)).toNat * (max 1 (n - sj)).toNat ∧
    ((∀ k : Nat, k < (max 1 (ei - si)).toNat * (max 1 (n - sj)).toNat →
        0 ≤ (RowMajor.iterator.advance (afterCalls RowMajor.iterator.advance k
          (RowMajor.iterator.ctor ⟨m, n⟩ ⟨si, sj⟩ ⟨ei, ej⟩))).1) ∧
      (∀ k : Nat, (max 1 (ei - si)).toNat * (max 1 (n - sj)).toNat ≤ k →
        RowMajor.iterator.advance (afterCalls RowMajor.iterator.advance k
          (RowMajor.iterator.ctor ⟨m, n⟩ ⟨si, sj⟩ ⟨ei, ej⟩)) =
        (-1, afterCalls RowMajor.iterator.advance k
          (RowMajor.iterator.ctor ⟨m, n⟩ ⟨si, sj⟩ ⟨ei, ej⟩)))) ∧
    ((∀ k : Nat, k < (max 1 (ei - si)).toNat * (max 1 (n - sj)).toNat →
        0 ≤ (ColMajor.iterator.advance (afterCalls ColMajor.iterator.advance k
          (ColMajor.iterator.ctor ⟨m, n⟩ ⟨si, sj⟩ ⟨ei, ej⟩))).1) ∧
      (∀ k : Nat, (max 1 (ei - si)).toNat * (max 1 (n - sj)).toNat ≤ k →
        ColMajor.iterator.advance (afterCalls ColMajor.iterator.advance k
          (ColMajor.iterator.ctor ⟨m, n⟩ ⟨si, sj⟩ ⟨ei, ej⟩)) =
        (-1, afterCalls ColMajor.iterator.advance k
          (ColMajor.iterator.ctor ⟨m, n⟩ ⟨si, sj⟩ ⟨ei, ej⟩)))) := by
  have hw : (((max 1 (ei - si)).toNat : Nat) : Int) = max 1 (ei - si) :=
    Int.toNat_of_nonneg (le_trans (by decide) (le_max_left 1 _))
  have hh : (((max 1 (n - sj)).toNat : Nat) : Int) = max 1 (n - sj) :=
    Int.toNat_of_nonneg (le_trans (by decide) (le_max_left 1 _))
  generalize (max 1 (ei - si)).toNat = w at hw
  generalize (max 1 (n - sj)).toNat = hgt at hh
  have hw1 : 1 ≤ w := by
    have := le_max_left 1 (ei - si)
    omega
  have hh1 : 1 ≤ hgt := by
    have := le_max_left 1 (n - sj)
    omega
  rw [Nat.mul_comm w hgt]
  refine ⟨Nat.mul_pos hh1 hw1, ⟨?_, ?_⟩, ⟨?_, ?_⟩⟩
  · intro k hk
    obtain ⟨ha, hb, hab⟩ := scan_index_split w hgt k hw1 hk
    rw [← hab, rowMajor_value_scan m n si sj ei ej w hgt hw hh _ _ ha hb]
    exact add_nonneg (mul_nonneg (add_nonneg hsj (Int.natCast_nonneg _)) hm)
      (add_nonneg hsi (Int.natCast_nonneg _))
  · intro k hk
    rw [rowMajor_afterCalls_past m n si sj ei ej w hgt hw hh k hk]
    exact rowMajor_advance_eod _ _ _ _
  · intro k hk
    obtain ⟨ha, hb, hab⟩ := scan_index_split w hgt k hw1 hk
    rw [← hab, colMajor_value_scan m n si sj ei ej w hgt hw hh _ _ ha hb]
    exact add_nonneg (mul_nonneg (add_nonneg hsi (Int.natCast_nonneg _)) hn)
      (add_nonneg hsj (Int.natCast_nonneg _))
  · intro k hk
    rw [colMajor_afterCalls_past m n si sj ei ej w hgt hw hh k hk]
    exact colMajor_advance_eod _ _ _ _

/-- C31 (amended) for the empty matrix: size `(0, 0)`, start `(0, 0)`, end
`(0, 0)`, where `N` is `1`. -/
theorem iterator_terminates_witness :
    1 ≤ (max 1 ((0 : Int) - 0)).toNat * (max 1 ((0 : Int) - 0)).toNat ∧
    ((∀ k : Nat, k < (max 1 ((0 : Int) - 0)).toNat * (max 1 ((0 : Int) - 0)).toNat →
        0 ≤ (RowMajor.iterator.advance (afterCalls RowMajor.iterator.advance k
          (RowMajor.iterator.ctor ⟨0, 0⟩ ⟨0, 0⟩ ⟨0, 0⟩))).1) ∧
      (∀ k : Nat, (max 1 ((0 : Int) - 0)).toNat * (max 1 ((0 : Int) - 0)).toNat ≤ k →
        RowMajor.iterator.advance (afterCalls RowMajor.iterator.advance k
          (RowMajor.iterator.ctor ⟨0, 0⟩ ⟨0, 0⟩ ⟨0, 0⟩)) =
        (-1, afterCalls RowMajor.iterator.advance k
          (RowMajor.iterator.ctor ⟨0, 0⟩ ⟨0, 0⟩ ⟨0, 0⟩)))) ∧
    ((∀ k : Nat, k < (max 1 ((0 : Int) - 0)).toNat * (max 1 ((0 : Int) - 0)).toNat →
        0 ≤ (ColMajor.iterator.advance (afterCalls ColMajor.iterator.advance k
          (ColMajor.iterator.ctor ⟨0, 0⟩ ⟨0, 0⟩ ⟨0, 0⟩))).1) ∧
      (∀ k : Nat, (max 1 ((0 : Int) - 0)).toNat * (max 1 ((0 : Int) - 0)).toNat ≤ k →
        ColMajor.iterator.advance (afterCalls ColMajor.iterator.advance k
          (ColMajor.iterator.ctor ⟨0, 0⟩ ⟨0, 0⟩ ⟨0, 0⟩)) =
        (-1, afterCalls ColMajor.iterator.advance k
          (ColMajor.iterator.ctor ⟨0, 0⟩ ⟨0, 0⟩ ⟨0, 0⟩)))) :=
  iterator_terminates 0 0 0 0 0 0 (by decide) (by decide) (by decide) (by decide)

/-- The value of a call of the Triangular iterator that is not past `in`. -/
theorem triangular_value (inn : Int) (k : Nat) (hk : (k : Int) ≤ inn) :
    (Triangular.iterator.next
      (afterCalls Triangular.iterator.next k { in_ := inn, ii := 0 })).1 = (k : Int) := by
  rw [triangular_afterCalls inn k (by omega)]
  unfold Triangular.iterator.next
  rw [if_neg (by dsimp only; omega)]

/-- The calls of the Triangular iterator past `in`. -/
theorem triangular_value_past (inn : Int) (K k : Nat) (hK : (K : Int) = inn + 1) (hk : K ≤ k) :
    (Triangular.iterator.next
      (afterCalls Triangular.iterator.next k { in_ := inn, ii := 0 })).1 = -1 := by
  have hfix : Triangular.iterator.next { in_ := inn, ii := (K : Int) } =
      (-1, { in_ := inn, ii := (K : Int) }) := by
    unfold Triangular.iterator.next
    rw [if_pos (by dsimp only; omega)]
  have e : k = K + (k - K) := by omega
  rw [e, afterCalls_add, triangular_afterCalls inn K (by omega),
    afterCalls_fixed _ _ _ hfix, hfix]

/-- C32: the Triangular iterator built for any size `n x n`, `n ≥ 0` in
particular, is a total function of its state, and there is a number `K` of
`next()` calls such that the values of the first `K` calls are non-negative and
strictly ascending and every call after them returns `-1`; so once `-1` has
been returned, it is returned for ever. -/
theorem triangular_iterator_terminates (n : Int) (st en : Duple) :
    ∃ K : Nat,
      (∀ k : Nat, k < K →
        0 ≤ (Triangular.iterator.next (afterCalls Triangular.iterator.next k
          (Triangular.iterator.ctor ⟨n, n⟩ st en))).1) ∧
      (∀ i j : Nat, i < j → j < K →
        (Triangular.iterator.next (afterCalls Triangular.iterator.next i
          (Triangular.iterator.ctor ⟨n, n⟩ st en))).1 <
        (Triangular.iterator.next (afterCalls Triangular.iterator.next j
          (Triangular.iterator.ctor ⟨n, n⟩ st en))).1) ∧
      (∀ k : Nat, K ≤ k →
        (Triangular.iterator.next (afterCalls Triangular.iterator.next k
          (Triangular.iterator.ctor ⟨n, n⟩ st en))).1 = -1) := by
  have hreq : (((n * (n + 1)).tdiv 2).toNat : Int) = (n * (n + 1)).tdiv 2 :=
    Int.toNat_of_nonneg (triangular_size_nonneg n)
  have hctor : Triangular.iterator.ctor ⟨n, n⟩ st en =
      { in_ := (n * (n + 1)).tdiv 2, ii := 0 } := rfl
  rw [hctor]
  generalize (n * (n + 1)).tdiv 2 = req at hreq
  refine ⟨req.toNat + 1, ?_, ?_, ?_⟩
  · intro k hk
    rw [triangular_value req k (by omega)]
    exact Int.natCast_nonneg _
  · intro i j hij hj
    rw [triangular_value req i (by omega), triangular_value req j (by omega)]
    exact_mod_cast hij
  · intro k hk
    exact triangular_value_past req (req.toNat + 1) k (by push_cast; omega) hk

/-- The first `m*n` values of the full-range ColMajor iterator: every offset
of `[0, m*n)` is returned by exactly one of the calls. -/
theorem colMajor_full_once (m n : Int) (hm : 1 ≤ m) (hn : 1 ≤ n) (extra t : Nat)
    (ht : t < n.toNat * m.toNat) :
    ∃! k : Nat, k < n.toNat * m.toNat ∧
      (yields ColMajor.iterator.advance (n.toNat * m.toNat + extra)
        (ColMajor.iterator.ctor ⟨m, n⟩ ⟨0, 0⟩ ⟨m, n⟩))[k]? = some (t : Int) := by
  have hwpos : 1 ≤ m.toNat := by omega
  have hval := colMajor_full_value m n hm hn extra
  have htn : t / n.toNat < m.toNat := Nat.div_lt_of_lt_mul ht
  have htm : t % n.toNat < n.toNat := Nat.mod_lt _ (by omega)
  refine ⟨t % n.toNat * m.toNat + t / n.toNat, ⟨?_, ?_⟩, ?_⟩
  · calc t % n.toNat * m.toNat + t / n.toNat
        < t % n.toNat * m.toNat + m.toNat := by omega
      _ = (t % n.toNat + 1) * m.toNat := by rw [Nat.succ_mul]
      _ ≤ n.toNat * m.toNat := Nat.mul_le_mul_right _ htm
  · rw [hval _ _ htm htn]
    congr 2
    rw [Nat.mul_comm]
    exact Nat.div_add_mod t n.toNat
  · rintro k ⟨hk, hkv⟩
    obtain ⟨ha, hb, hab⟩ := scan_index_split m.toNat n.toNat k hwpos hk
    rw [← hab, hval _ _ ha hb] at hkv
    have hkv' : k % m.toNat * n.toNat + k / m.toNat = t := by
      have := Option.some.inj hkv
      exact_mod_cast this
    have h1 : t / n.toNat = k % m.toNat := by
      rw [← hkv', Nat.mul_comm, Nat.mul_add_div (by omega), Nat.div_eq_of_lt ha]; rfl
    have h2 : t % n.toNat = k / m.toNat := by
      rw [← hkv', Nat.mul_comm, Nat.mul_add_mod, Nat.mod_eq_of_lt ha]
    rw [h1, h2, hab]

/-- C33: for an `m x n` ColMajor matrix with `m, n ≥ 1`, the call number
`c*m + r + 1` of the full-range iterator, `0 ≤ r < m` and `0 ≤ c < n`, returns
`r*n + c`; every offset of `[0, m*n)` is returned by exactly one of the first
`m*n` calls; each of these calls returns an offset of `[0, m*n)`; and every
later call returns `-1`. -/
theorem colMajor_iterator_permutation {T : Type} (M : Matrix T ColMajor) (hm : 1 ≤ M.m)
    (hn : 1 ≤ M.n) (extra : Nat) :
    (∀ r c : Nat, (r : Int) < M.m → (c : Int) < M.n →
      (yields ColMajor.iterator.advance ((M.m * M.n).toNat + extra)
        (Matrix.iterator.ctor M).miter)[c * M.m.toNat + r]? = some ((r : Int) * M.n + c)) ∧
    (∀ t : Nat, t < (M.m * M.n).toNat →
      ∃! k : Nat, k < (M.m * M.n).toNat ∧
        (yields ColMajor.iterator.advance ((M.m * M.n).toNat + extra)
          (Matrix.iterator.ctor M).miter)[k]? = some (t : Int)) ∧
    (∀ k : Nat, k < (M.m * M.n).toNat →
      ∃ t : Nat, t < (M.m * M.n).toNat ∧
        (yields ColMajor.iterator.advance ((M.m * M.n).toNat + extra)
          (Matrix.iterator.ctor M).miter)[k]? = some (t : Int)) ∧
    (∀ k : Nat, (M.m * M.n).toNat ≤ k → k < (M.m * M.n).toNat + extra →
      (yields ColMajor.iterator.advance ((M.m * M.n).toNat + extra)
        (Matrix.iterator.ctor M).miter)[k]? = some (-1)) := by
  have hN := toNat_dims M.m M.n hm hn
  have hit : (Matrix.iterator.ctor M).miter =
      ColMajor.iterator.ctor ⟨M.m, M.n⟩ ⟨0, 0⟩ ⟨M.m, M.n⟩ := rfl
  rw [hit, hN]
  have hwpos : 1 ≤ M.m.toNat := by omega
  have hval := colMajor_full_value M.m M.n hm hn extra
  refine ⟨?_, fun t ht => colMajor_full_once M.m M.n hm hn extra t ht, ?_,
    colMajor_full_sentinel M.m M.n hm hn extra⟩
  · intro r c hr hc
    rw [hval c r (by omega) (by omega)]
    congr 1
    push_cast
    rw [Int.toNat_of_nonneg (by omega)]
  · intro k hk
    obtain ⟨ha, hb, hab⟩ := scan_index_split M.m.toNat M.n.toNat k hwpos hk
    refine ⟨k % M.m.toNat * M.n.toNat + k / M.m.toNat, ?_, ?_⟩
    · calc k % M.m.toNat * M.n.toNat + k / M.m.toNat
          < k % M.m.toNat * M.n.toNat + M.n.toNat := by omega
        _ = (k % M.m.toNat + 1) * M.n.toNat := by rw [Nat.succ_mul]
        _ ≤ M.m.toNat * M.n.toNat := Nat.mul_le_mul_right _ hb
        _ = M.n.toNat * M.m.toNat := Nat.mul_comm _ _
    · conv_lhs => rw [← hab]
      rw [hval _ _ ha hb]

/-- C33 on a `2 x 3` ColMajor matrix of integers. -/
theorem colMajor_iterator_permutation_witness :
    yields ColMajor.iterator.advance 7
      (Matrix.iterator.ctor ({ m := 2, n := 3, mi := 6, pol := { m := 2, n := 3, s := 6 }, dptr := some 0 } :
        Matrix Int ColMajor)).miter = [0, 3, 1, 4, 2, 5, -1] ∧
    (∀ r c : Nat, (r : Int) < 2 → (c : Int) < 3 →
      (yields ColMajor.iterator.advance 7
        (Matrix.iterator.ctor ({ m := 2, n := 3, mi := 6, pol := { m := 2, n := 3, s := 6 }, dptr := some 0 } :
          Matrix Int ColMajor)).miter)[c * 2 + r]? = some ((r : Int) * 3 + c)) :=
  ⟨by decide, (colMajor_iterator_permutation
    ({ m := 2, n := 3, mi := 6, pol := { m := 2, n := 3, s := 6 }, dptr := some 0 } :
      Matrix Int ColMajor) (by decide) (by decide) 1).1⟩

/-! ## Views, free and writes: what stays as it was -/

/-- Access through `operator()` after an element of the block has been
assigned: the same reference as before. -/
theorem elem_after_write {T P : Type} [Policy P] (M : Matrix T P) (h : Heap T) (a : Nat)
    (blk : List T) (hd : M.dptr = some a) (ha : h[a]? = some blk) (y x : Int)
    (h0 : 0 ≤ Policy.offset M.pol y x) (h1 : Policy.offset M.pol y x < M.mi)
    (h2 : Policy.offset M.pol y x < (blk.length : Int)) (i : Nat) (v : T) :
    M.elem (h.write { addr := a, idx := i } v) y x =
      .ok { addr := a, idx := (Policy.offset M.pol y x).toNat } :=
  elem_ok M _ a (blk.set i v) hd (write_getElem?_eq h a blk ha i v) y x h0 h1
    (by rw [List.length_set]; exact h2)

/-- An element that has been assigned holds the value assigned. -/
theorem read_after_write_same {T : Type} (h : Heap T) (a : Nat) (blk : List T)
    (ha : h[a]? = some blk) (i : Nat) (hi : i < blk.length) (v : T) :
    (h.write { addr := a, idx := i } v).read { addr := a, idx := i } = some v := by
  rw [read_of_block _ a (blk.set i v) (write_getElem?_eq h a blk ha i v)]
  exact List.getElem?_set_self (by simpa using hi)

/-- An element other than the one assigned holds what it held. -/
theorem read_after_write_other {T : Type} (h : Heap T) (a : Nat) (blk : List T)
    (ha : h[a]? = some blk) (i j : Nat) (hne : j ≠ i) (v : T) :
    (h.write { addr := a, idx := i } v).read { addr := a, idx := j } =
      h.read { addr := a, idx := j } := by
  rw [read_of_block _ a (blk.set i v) (write_getElem?_eq h a blk ha i v),
    read_of_block h a blk ha]
  exact List.getElem?_set_ne (fun e => hne e.symm)

/-- A strided index `y*n + x` with `0 ≤ x < n` determines `y` and `x`. -/
theorem stride_inj (n y x y' x' : Int) (hx0 : 0 ≤ x) (hx1 : x < n) (hx0' : 0 ≤ x')
    (hx1' : x' < n) (h : y * n + x = y' * n + x') : y = y' ∧ x = x' := by
  have hy : y = y' := by
    rcases lt_trichotomy y y' with h1 | h1 | h1
    · exfalso
      have : (y' - y) * n ≥ 1 * n := mul_le_mul_of_nonneg_right (by omega) (by omega)
      nlinarith
    · exact h1
    · exfalso
      have : (y - y') * n ≥ 1 * n := mul_le_mul_of_nonneg_right (by omega) (by omega)
      nlinarith
  subst hy
  exact ⟨rfl, by linarith⟩

/-- The offset of a valid coordinate under a policy of any of the three
classes: inside the buffer of `size()` elements, which is no larger than
`rows*cols`. -/
theorem kind_offset_facts (k : PolicyKind) (b a : Int) (pol : k.carrier)
    (hpol : (Policy.ctor b a : Except Fault k.carrier) = .ok pol)
    (r c : Int) (hr0 : 0 ≤ r) (hr1 : r < b) (hc0 : 0 ≤ c) (hc1 : c < a) :
    0 ≤ Policy.offset pol r c ∧ Policy.offset pol r c < Policy.size pol ∧
      Policy.size pol ≤ a * b := by
  cases k with
  | triangular =>
    have hp : Triangular.ctor b a = .ok pol := hpol
    unfold Triangular.ctor at hp
    split_ifs at hp with hba
    injection hp with hp
    subst hp
    subst hba
    obtain ⟨-, hl⟩ := triangular_lawful b
    obtain ⟨h1, h2, -⟩ := hl r c hr0 hr1 hc0 hc1
    exact ⟨h1, h2, triangular_size_le_sq b⟩
  | colMajor =>
    have hp : Except.ok (ColMajor.ctor b a) = Except.ok pol := hpol
    injection hp with hp
    subst hp
    obtain ⟨-, hl⟩ := colMajor_lawful b a (by omega) (by omega)
    obtain ⟨h1, h2, -⟩ := hl r c hr0 hr1 hc0 hc1
    exact ⟨h1, h2, le_of_eq (mul_comm b a)⟩
  | rowMajor =>
    have hp : Except.ok (RowMajor.ctor b a) = Except.ok pol := hpol
    injection hp with hp
    subst hp
    obtain ⟨-, hl⟩ := rowMajor_lawful b a (by omega) (by omega)
    obtain ⟨h1, h2, -⟩ := hl r c hr0 hr1 hc0 hc1
    exact ⟨h1, h2, le_of_eq (mul_comm b a)⟩

/-- Two valid coordinates with one offset are one coordinate, or, under
Triangular, mirror images of each other. -/
theorem kind_offset_inj (k : PolicyKind) (b a : Int) (pol : k.carrier)
    (hpol : (Policy.ctor b a : Except Fault k.carrier) = .ok pol)
    (r c r' c' : Int) (hr0 : 0 ≤ r) (hr1 : r < b) (hc0 : 0 ≤ c) (hc1 : c < a)
    (hr0' : 0 ≤ r') (hr1' : r' < b) (hc0' : 0 ≤ c') (hc1' : c' < a)
    (he : Policy.offset pol r' c' = Policy.offset pol r c) :
    (r', c') = (r, c) ∨ (k = PolicyKind.triangular ∧ (r', c') = (c, r)) := by
  cases k with
  | triangular =>
    have he' : Triangular.offset pol r' c' = Triangular.offset pol r c := he
    unfold Triangular.offset at he'
    simp only at he'
    by_cases h1 : c' > r' <;> by_cases h2 : c > r
    · rw [if_pos h1, if_pos h1, if_pos h2, if_pos h2] at he'
      obtain ⟨e1, e2⟩ := packed_index_inj hr0' (by omega) hr0 (by omega) he'
      exact Or.inl (by rw [e1, e2])
    · rw [if_pos h1, if_pos h1, if_neg h2, if_neg h2] at he'
      obtain ⟨e1, e2⟩ := packed_index_inj hr0' (by omega) hc0 (by omega) he'
      exact Or.inr ⟨rfl, by rw [e1, e2]⟩
    · rw [if_neg h1, if_neg h1, if_pos h2, if_pos h2] at he'
      obtain ⟨e1, e2⟩ := packed_index_inj hc0' (by omega) hr0 (by omega) he'
      exact Or.inr ⟨rfl, by rw [e1, e2]⟩
    · rw [if_neg h1, if_neg h1, if_neg h2, if_neg h2] at he'
      obtain ⟨e1, e2⟩ := packed_index_inj hc0' (by omega) hc0 (by omega) he'
      exact Or.inl (by rw [e1, e2])
  | colMajor =>
    have hp : Except.ok (ColMajor.ctor b a) = Except.ok pol := hpol
    injection hp with hp
    subst hp
    have he' : c' * b + r' = c * b + r := he
    obtain ⟨e1, e2⟩ := stride_inj b c' r' c r hr0' hr1' hr0 hr1 he'
    exact Or.inl (by rw [e1, e2])
  | rowMajor =>
    have hp : Except.ok (RowMajor.ctor b a) = Except.ok pol := hpol
    injection hp with hp
    subst hp
    have he' : r' * a + c' = r * a + c := he
    obtain ⟨e1, e2⟩ := stride_inj a r' c' r c hc0' hc1' hc0 hc1 he'
    exact Or.inl (by rw [e1, e2])


/-- C34: for a square ColMajor matrix `A` (and likewise a square RowMajor
matrix `A'`) in the state its constructor left it in, with its buffer behind
it, and `B = reinterpretOrder(A)`: for all `0 ≤ i, j < n`, `B.at(j, i)` and
`A.at(i, j)` are one element, holding one value, and a value written through
`B.at(j, i)` is read back through `A.at(i, j)`. -/
theorem reinterpret_square_transposed {T : Type} [Zero T] (h : Heap T) (raw : Nat → T)
    (A : Matrix T ColMajor) (A' : Matrix T RowMajor) (blk blk' : List T)
    (hpol : A.pol = ColMajor.ctor A.m A.n) (hmi : A.mi = A.n * A.m) (hsq : A.m = A.n)
    (hblk : h.block A.get = some blk) (hlen : A.m * A.n ≤ (blk.length : Int))
    (hpol' : A'.pol = RowMajor.ctor A'.m A'.n) (hmi' : A'.mi = A'.n * A'.m)
    (hsq' : A'.m = A'.n) (hblk' : h.block A'.get = some blk')
    (hlen' : A'.m * A'.n ≤ (blk'.length : Int)) :
    (∃ (B : Matrix T RowMajor) (h2 : Heap T),
      reinterpretOrderColMajor A h raw = .ok (B, h2) ∧
      ∀ i j : Int, 0 ≤ i → i < A.m → 0 ≤ j → j < A.n → ∀ v : T,
        ∃ (ref : Ref) (x : T), B.elem h2 j i = .ok ref ∧ A.elem h2 i j = .ok ref ∧
          h2.read ref = some x ∧
          A.elem (h2.write ref v) i j = .ok ref ∧ (h2.write ref v).read ref = some v) ∧
    (∃ (B : Matrix T ColMajor) (h2 : Heap T),
      reinterpretOrderRowMajor A' h raw = .ok (B, h2) ∧
      ∀ i j : Int, 0 ≤ i → i < A'.m → 0 ≤ j → j < A'.n → ∀ v : T,
        ∃ (ref : Ref) (x : T), B.elem h2 j i = .ok ref ∧ A'.elem h2 i j = .ok ref ∧
          h2.read ref = some x ∧
          A'.elem (h2.write ref v) i j = .ok ref ∧ (h2.write ref v).read ref = some v) := by
  constructor
  · obtain ⟨a, hd, ha, -⟩ := block_some_inv hblk
    have hd' : A.dptr = some a := hd
    have hmn : 0 ≤ A.m * A.n := by rw [hsq]; exact mul_self_nonneg _
    refine ⟨_, _, reinterpretOrderColMajor_eq A h raw hmn, ?_⟩
    intro i j hi0 hi1 hj0 hj1 v
    have ha2 := getElem?_append_old h (List.replicate (A.m * A.n).toNat (0 : T)) a blk ha
    obtain ⟨r0, r1⟩ := colMajor_offset_range A.m A.n i j hi0 hi1 hj0 hj1
    have eA : Policy.offset A.pol i j = (ColMajor.ctor A.m A.n).offset i j := by rw [hpol]; rfl
    have eB : Policy.offset (RowMajor.ctor A.m A.n) j i = (ColMajor.ctor A.m A.n).offset i j := by
      show j * A.n + i = j * A.m + i
      rw [hsq]
    have hidx : ((ColMajor.ctor A.m A.n).offset i j).toNat < blk.length := by omega
    have hA := elem_ok A _ a blk hd' ha2 i j (by rw [eA]; exact r0)
      (by rw [eA, hmi]; linarith) (by rw [eA]; linarith)
    have hB := elem_ok (P := RowMajor)
      { m := A.m, n := A.n, mi := A.n * A.m, pol := RowMajor.ctor A.m A.n, dptr := A.dptr }
      (h ++ [List.replicate (A.m * A.n).toNat (0 : T)]) a blk hd' ha2 j i
      (by rw [eB]; exact r0) (by rw [eB]; show _ < A.n * A.m; linarith)
      (by rw [eB]; linarith)
    have hAw := elem_after_write A _ a blk hd' ha2 i j (by rw [eA]; exact r0)
      (by rw [eA, hmi]; linarith) (by rw [eA]; linarith)
      ((ColMajor.ctor A.m A.n).offset i j).toNat v
    rw [eA] at hA hAw
    rw [eB] at hB
    exact ⟨_, _, hB, hA, read_some _ a blk ha2 _ hidx, hAw,
      read_after_write_same _ a blk ha2 _ hidx v⟩
  · obtain ⟨a, hd, ha, -⟩ := block_some_inv hblk'
    have hd' : A'.dptr = some a := hd
    have hmn : 0 ≤ A'.m * A'.n := by rw [hsq']; exact mul_self_nonneg _
    refine ⟨_, _, reinterpretOrderRowMajor_eq A' h raw hmn, ?_⟩
    intro i j hi0 hi1 hj0 hj1 v
    have ha2 := getElem?_append_old h (List.replicate (A'.m * A'.n).toNat (0 : T)) a blk' ha
    obtain ⟨r0, r1⟩ := rowMajor_offset_range A'.m A'.n i j hi0 hi1 hj0 hj1
    have eA : Policy.offset A'.pol i j = (RowMajor.ctor A'.m A'.n).offset i j := by
      rw [hpol']; rfl
    have eB : Policy.offset (ColMajor.ctor A'.m A'.n) j i =
        (RowMajor.ctor A'.m A'.n).offset i j := by
      show i * A'.m + j = i * A'.n + j
      rw [hsq']
    have hidx : ((RowMajor.ctor A'.m A'.n).offset i j).toNat < blk'.length := by omega
    have hA := elem_ok A' _ a blk' hd' ha2 i j (by rw [eA]; exact r0)
      (by rw [eA, hmi']; linarith) (by rw [eA]; linarith)
    have hB := elem_ok (P := ColMajor)
      { m := A'.m, n := A'.n, mi := A'.n * A'.m, pol := ColMajor.ctor A'.m A'.n, dptr := A'.dptr }
      (h ++ [List.replicate (A'.m * A'.n).toNat (0 : T)]) a blk' hd' ha2 j i
      (by rw [eB]; exact r0) (by rw [eB]; show _ < A'.n * A'.m; linarith)
      (by rw [eB]; linarith)
    have hAw := elem_after_write A' _ a blk' hd' ha2 i j (by rw [eA]; exact r0)
      (by rw [eA, hmi']; linarith) (by rw [eA]; linarith)
      ((RowMajor.ctor A'.m A'.n).offset i j).toNat v
    rw [eA] at hA hAw
    rw [eB] at hB
    exact ⟨_, _, hB, hA, read_some _ a blk' ha2 _ hidx, hAw,
      read_after_write_same _ a blk' ha2 _ hidx v⟩

/-- C34 on a `2 x 2` ColMajor and a `2 x 2` RowMajor matrix of integers over
the buffer `10, 11, 12, 13`. -/
theorem reinterpret_square_transposed_witness :
    (∃ (B : Matrix Int RowMajor) (h2 : Heap Int),
      reinterpretOrderColMajor
        ({ m := 2, n := 2, mi := 4, pol := { m := 2, n := 2, s := 4 }, dptr := some 0 } :
          Matrix Int ColMajor) [[10, 11, 12, 13]] (fun _ => 7) = .ok (B, h2) ∧
      ∀ i j : Int, 0 ≤ i → i < 2 → 0 ≤ j → j < 2 → ∀ v : Int,
        ∃ (ref : Ref) (x : Int), B.elem h2 j i = .ok ref ∧
          Matrix.elem ({ m := 2, n := 2, mi := 4, pol := { m := 2, n := 2, s := 4 }, dptr := some 0 } :
            Matrix Int ColMajor) h2 i j = .ok ref ∧
          h2.read ref = some x ∧
          Matrix.elem ({ m := 2, n := 2, mi := 4, pol := { m := 2, n := 2, s := 4 }, dptr := some 0 } :
            Matrix Int ColMajor) (h2.write ref v) i j = .ok ref ∧
          (h2.write ref v).read ref = some v) ∧
    (∃ (B : Matrix Int ColMajor) (h2 : Heap Int),
      reinterpretOrderRowMajor
        ({ m := 2, n := 2, mi := 4, pol := { m := 2, n := 2, s := 4 }, dptr := some 0 } :
          Matrix Int RowMajor) [[10, 11, 12, 13]] (fun _ => 7) = .ok (B, h2) ∧
      ∀ i j : Int, 0 ≤ i → i < 2 → 0 ≤ j → j < 2 → ∀ v : Int,
        ∃ (ref : Ref) (x : Int), B.elem h2 j i = .ok ref ∧
          Matrix.elem ({ m := 2, n := 2, mi := 4, pol := { m := 2, n := 2, s := 4 }, dptr := some 0 } :
            Matrix Int RowMajor) h2 i j = .ok ref ∧
          h2.read ref = some x ∧
          Matrix.elem ({ m := 2, n := 2, mi := 4, pol := { m := 2, n := 2, s := 4 }, dptr := some 0 } :
            Matrix Int RowMajor) (h2.write ref v) i j = .ok ref ∧
          (h2.write ref v).read ref = some v) :=
  reinterpret_square_transposed [[10, 11, 12, 13]] (fun _ => 7)
    { m := 2, n := 2, mi := 4, pol := { m := 2, n := 2, s := 4 }, dptr := some 0 }
    { m := 2, n := 2, mi := 4, pol := { m := 2, n := 2, s := 4 }, dptr := some 0 }
    [10, 11, 12, 13] [10, 11, 12, 13] rfl rfl rfl rfl (by decide) rfl rfl rfl rfl (by decide)

/-- C35: for every matrix `M`, `free()` leaves the linear bound `mi` and the
policy as they were, so the policy's `size()` and every `offset(y, x)` are as
before, and sets `rows`, `cols` to `0` and the buffer reference to none.  For
a matrix created with `rows*cols > 0`, index `0` is therefore still below the
bound of `operator[]` after `free()`: the assertion of `Matrix` does not fire
and the access goes to a buffer that is not there, which the shared array's
own assertion on its null handle reports. -/
theorem free_frame {T P : Type} [Zero T] [Policy P] (M : Matrix T P) :
    M.free.mi = M.mi ∧ M.free.pol = M.pol ∧
    Policy.size M.free.pol = Policy.size M.pol ∧
    (∀ y x : Int, Policy.offset M.free.pol y x = Policy.offset M.pol y x) ∧
    M.free.rows = 0 ∧ M.free.cols = 0 ∧ M.free.get = none ∧
    (∀ (h0 h1 : Heap T) (raw : Nat → T) (b a : Int),
      Matrix.create P h0 raw b a = .ok (M, h1) → 0 < b * a →
      ∀ h : Heap T, 0 < M.free.mi ∧ M.free.index h 0 = .error .sharedAssertion) := by
  refine ⟨rfl, rfl, rfl, fun _ _ => rfl, rfl, rfl, rfl, ?_⟩
  intro h0 h1 raw b a hc hpos h
  obtain ⟨pol, -, -, hM, -⟩ := create_ok_inv hc
  have hmi : M.free.mi = a * b := by rw [hM]; rfl
  have hlt : 0 < M.free.mi := by rw [hmi]; linarith
  refine ⟨hlt, ?_⟩
  unfold Matrix.index
  rw [if_pos hlt]
  rfl

/-- C35 on the `3 x 4` RowMajor matrix of integers created on an empty heap. -/
theorem free_frame_witness :
    Matrix.mi (Matrix.free ({ m := 3, n := 4, mi := 12, pol := { m := 3, n := 4, s := 12 }, dptr := some 0 } :
      Matrix Int RowMajor)) = 12 ∧
    Matrix.index (Matrix.free ({ m := 3, n := 4, mi := 12, pol := { m := 3, n := 4, s := 12 }, dptr := some 0 } :
      Matrix Int RowMajor)) [[0, 0, 0, 0, 0, 0, 0, 0, 0, 0, 0, 0]] 0 = .error .sharedAssertion :=
  ⟨(free_frame ({ m := 3, n := 4, mi := 12, pol := { m := 3, n := 4, s := 12 }, dptr := some 0 } :
      Matrix Int RowMajor)).1,
    ((free_frame ({ m := 3, n := 4, mi := 12, pol := { m := 3, n := 4, s := 12 }, dptr := some 0 } :
      Matrix Int RowMajor)).2.2.2.2.2.2.2 [] [[0, 0, 0, 0, 0, 0, 0, 0, 0, 0, 0, 0]] (fun _ => 7) 3 4
      (by decide) (by decide) [[0, 0, 0, 0, 0, 0, 0, 0, 0, 0, 0, 0]]).2⟩

/-- C36: for a matrix of any of the three policies in the state its
constructor left it in, with its buffer of `size()` elements behind it, valid
coordinates `(r, c)` and `(r', c')` with `(r', c') ≠ (r, c)` and, under
Triangular, also `(r', c') ≠ (c, r)`: after a value is written to `at(r, c)`,
`at(r', c')` is the element it was and holds the value it held, `at(r, c)`
holds the value written, and the buffer has the length it had.  The write
takes and gives a heap only: the dimensions and the bound `mi` of the matrix
are not touched. -/
theorem write_frame {T : Type} (k : PolicyKind) (M : Matrix T k.carrier) (h : Heap T)
    (blk : List T) (r c r' c' : Int) (v : T)
    (hpol : (Policy.ctor M.m M.n : Except Fault k.carrier) = .ok M.pol)
    (hmi : M.mi = M.n * M.m) (hblk : h.block M.get = some blk)
    (hlen : (blk.length : Int) = Policy.size M.pol)
    (hr0 : 0 ≤ r) (hr1 : r < M.rows) (hc0 : 0 ≤ c) (hc1 : c < M.cols)
    (hr0' : 0 ≤ r') (hr1' : r' < M.rows) (hc0' : 0 ≤ c') (hc1' : c' < M.cols)
    (hne : (r', c') ≠ (r, c)) (htri : k = PolicyKind.triangular → (r', c') ≠ (c, r)) :
    ∃ (ref ref' : Ref) (x : T) (blk2 : List T),
      M.elem h r c = .ok ref ∧ M.elem h r' c' = .ok ref' ∧ h.read ref' = some x ∧
      M.elem (h.write ref v) r' c' = .ok ref' ∧ (h.write ref v).read ref' = some x ∧
      M.elem (h.write ref v) r c = .ok ref ∧ (h.write ref v).read ref = some v ∧
      (h.write ref v).block M.get = some blk2 ∧ blk2.length = blk.length ∧
      (h.write ref v).length = h.length := by
  obtain ⟨a, hd, ha, halt⟩ := block_some_inv hblk
  have hd' : M.dptr = some a := hd
  obtain ⟨p0, p1, p2⟩ := kind_offset_facts k M.m M.n M.pol hpol r c hr0 hr1 hc0 hc1
  obtain ⟨q0, q1, q2⟩ := kind_offset_facts k M.m M.n M.pol hpol r' c' hr0' hr1' hc0' hc1'
  have hoff : Policy.offset M.pol r' c' ≠ Policy.offset M.pol r c := by
    intro he
    rcases kind_offset_inj k M.m M.n M.pol hpol r c r' c' hr0 hr1 hc0 hc1 hr0' hr1' hc0' hc1' he
      with h1 | ⟨h1, h2⟩
    · exact hne h1
    · exact htri h1 h2
  have hidx : (Policy.offset M.pol r c).toNat < blk.length := by omega
  have hidx' : (Policy.offset M.pol r' c').toNat < blk.length := by omega
  have hnat : (Policy.offset M.pol r' c').toNat ≠ (Policy.offset M.pol r c).toNat := by omega
  refine ⟨{ addr := a, idx := (Policy.offset M.pol r c).toNat },
    { addr := a, idx := (Policy.offset M.pol r' c').toNat }, blk.get ⟨_, hidx'⟩,
    blk.set (Policy.offset M.pol r c).toNat v, ?_, ?_, ?_, ?_, ?_, ?_, ?_, ?_, ?_, ?_⟩
  · exact elem_ok M h a blk hd' ha r c p0 (by rw [hmi]; omega) (by omega)
  · exact elem_ok M h a blk hd' ha r' c' q0 (by rw [hmi]; omega) (by omega)
  · exact read_some h a blk ha _ hidx'
  · exact elem_after_write M h a blk hd' ha r' c' q0 (by rw [hmi]; omega) (by omega) _ v
  · rw [read_after_write_other h a blk ha _ _ hnat v]
    exact read_some h a blk ha _ hidx'
  · exact elem_after_write M h a blk hd' ha r c p0 (by rw [hmi]; omega) (by omega) _ v
  · exact read_after_write_same h a blk ha _ hidx v
  · show (h.write _ v).block M.dptr = _
    rw [hd']
    exact write_getElem?_eq h a blk ha _ v
  · exact List.length_set _ _ _
  · rw [write_of_block h a blk ha]
    exact List.length_set _ _ _

/-- C36 on the `3 x 3` Triangular matrix of integers over the buffer
`10, ..., 15`: a write to `at(2, 1)` leaves `at(0, 2)` as it was. -/
theorem write_frame_witness :
    ∃ (ref ref' : Ref) (x : Int) (blk2 : List Int),
      Matrix.elem ({ m := 3, n := 3, mi := 9, pol := { m := 3, n := 3, s := 6 }, dptr := some 0 } :
        Matrix Int Triangular) [[10, 11, 12, 13, 14, 15]] 2 1 = .ok ref ∧
      Matrix.elem ({ m := 3, n := 3, mi := 9, pol := { m := 3, n := 3, s := 6 }, dptr := some 0 } :
        Matrix Int Triangular) [[10, 11, 12, 13, 14, 15]] 0 2 = .ok ref' ∧
      Heap.read ([[10, 11, 12, 13, 14, 15]] : Heap Int) ref' = some x ∧
      Matrix.elem ({ m := 3, n := 3, mi := 9, pol := { m := 3, n := 3, s := 6 }, dptr := some 0 } :
        Matrix Int Triangular) (Heap.write [[10, 11, 12, 13, 14, 15]] ref 77) 0 2 = .ok ref' ∧
      (Heap.write ([[10, 11, 12, 13, 14, 15]] : Heap Int) ref 77).read ref' = some x ∧
      Matrix.elem ({ m := 3, n := 3, mi := 9, pol := { m := 3, n := 3, s := 6 }, dptr := some 0 } :
        Matrix Int Triangular) (Heap.write [[10, 11, 12, 13, 14, 15]] ref 77) 2 1 = .ok ref ∧
      (Heap.write ([[10, 11, 12, 13, 14, 15]] : Heap Int) ref 77).read ref = some 77 ∧
      (Heap.write ([[10, 11, 12, 13, 14, 15]] : Heap Int) ref 77).block (some 0) = some blk2 ∧
      blk2.length = ([10, 11, 12, 13, 14, 15] : List Int).length ∧
      (Heap.write ([[10, 11, 12, 13, 14, 15]] : Heap Int) ref 77).length = 1 :=
  write_frame PolicyKind.triangular
    { m := 3, n := 3, mi := 9, pol := { m := 3, n := 3, s := 6 }, dptr := some 0 }
    [[10, 11, 12, 13, 14, 15]] [10, 11, 12, 13, 14, 15] 2 1 0 2 77 rfl rfl rfl rfl
    (by decide) (by decide) (by decide) (by decide) (by decide) (by decide) (by decide)
    (by decide) (by decide) (by decide)

/-! ## The packed triangle, layout duality and 32-bit arithmetic -/

/-- The packed size of `n + 1` rows is the packed size of `n` rows and one row
of `n + 1` elements more. -/
theorem packed_size_succ (n : Int) :
    ((n + 1) * (n + 1 + 1)).tdiv 2 = (n * (n + 1)).tdiv 2 + n + 1 := by
  have h1 := two_mul_tdiv_consec n
  have h2 := two_mul_tdiv_consec (n + 1)
  have h3 : (n + 1) * (n + 1 + 1) = n * (n + 1) + 2 * (n + 1) := by ring
  rw [h3] at h2
  rw [h3]
  omega

/-- Every index below the packed size of `n` rows is the packed index of a
coordinate of the lower triangle. -/
theorem packed_index_exists (n : Nat) :
    ∀ k : Int, 0 ≤ k → k < ((n : Int) * ((n : Int) + 1)).tdiv 2 →
      ∃ y x : Int, 0 ≤ x ∧ x ≤ y ∧ y < (n : Int) ∧ (y * (y + 1)).tdiv 2 + x = k := by
  induction n with
  | zero =>
    intro k hk0 hk1
    simp at hk1
    omega
  | succ n ih =>
    intro k hk0 hk1
    have hs := packed_size_succ (n : Int)
    push_cast at hk1
    rw [hs] at hk1
    by_cases hlt : k < ((n : Int) * ((n : Int) + 1)).tdiv 2
    · obtain ⟨y, x, h1, h2, h3, h4⟩ := ih k hk0 hlt
      exact ⟨y, x, h1, h2, by push_cast; omega, h4⟩
    · exact ⟨(n : Int), k - ((n : Int) * ((n : Int) + 1)).tdiv 2, by omega, by omega,
        by push_cast; omega, by omega⟩

/-- C37: for the Triangular policy built for `n x n` with `n ≥ 1`, every
coordinate `(y, x)` of the lower triangle, `0 ≤ x ≤ y < n`, has its offset in
`[0, size())`, and for every `k` with `0 ≤ k < size()`, where `size()` is
`n*(n+1)/2`, exactly one coordinate of the lower triangle has the offset `k`. -/
theorem triangular_packing_bijective (n : Int) (hn : 1 ≤ n) (p : Triangular)
    (hp : Triangular.ctor n n = .ok p) :
    p.size = n * (n + 1) / 2 ∧
    (∀ y x : Int, 0 ≤ x → x ≤ y → y < n → 0 ≤ p.offset y x ∧ p.offset y x < p.size) ∧
    (∀ k : Int, 0 ≤ k → k < p.size →
      ∃! c : Int × Int, (0 ≤ c.2 ∧ c.2 ≤ c.1 ∧ c.1 < n) ∧ p.offset c.1 c.2 = k) := by
  have hsize : p.size = (n * (n + 1)).tdiv 2 := by
    unfold Triangular.ctor at hp
    rw [if_pos rfl] at hp
    cases hp
    rfl
  have hoff : ∀ y x : Int, x ≤ y → p.offset y x = (y * (y + 1)).tdiv 2 + x := by
    intro y x hxy
    unfold Triangular.offset
    simp only
    rw [if_neg (by omega), if_neg (by omega)]
  refine ⟨by rw [hsize, tdiv_consec_eq_ediv], ?_, ?_⟩
  · intro y x hx0 hxy hy1
    rw [hsize]
    exact triangular_offset_range p n y x (by omega) hy1 hx0 (by omega)
  · intro k hk0 hk1
    rw [hsize] at hk1
    obtain ⟨N, hN⟩ := Int.eq_ofNat_of_zero_le (by omega : 0 ≤ n)
    rw [hN] at hk1
    obtain ⟨y, x, h1, h2, h3, h4⟩ := packed_index_exists N k hk0 hk1
    refine ⟨(y, x), ⟨⟨h1, h2, by rw [hN]; exact h3⟩, by rw [hoff y x h2]; exact h4⟩, ?_⟩
    rintro ⟨y', x'⟩ ⟨⟨g1, g2, g3⟩, g4⟩
    have g1' : 0 ≤ x' := g1
    have g2' : x' ≤ y' := g2
    have g4' : p.offset y' x' = k := g4
    rw [hoff y' x' g2', ← h4] at g4'
    obtain ⟨e1, e2⟩ := packed_index_inj g1' g2' h1 h2 g4'
    rw [e1, e2]

/-- C37 at the `3 x 3` Triangular policy, whose `size()` is `6`. -/
theorem triangular_packing_bijective_witness :
    Triangular.size ⟨3, 3, 6⟩ = 3 * (3 + 1) / 2 ∧
    (∀ y x : Int, 0 ≤ x → x ≤ y → y < 3 →
      0 ≤ Triangular.offset ⟨3, 3, 6⟩ y x ∧
        Triangular.offset ⟨3, 3, 6⟩ y x < Triangular.size ⟨3, 3, 6⟩) ∧
    (∀ k : Int, 0 ≤ k → k < Triangular.size ⟨3, 3, 6⟩ →
      ∃! c : Int × Int, (0 ≤ c.2 ∧ c.2 ≤ c.1 ∧ c.1 < 3) ∧
        Triangular.offset ⟨3, 3, 6⟩ c.1 c.2 = k) :=
  triangular_packing_bijective 3 (by decide) ⟨3, 3, 6⟩ rfl

/-- C38: the ColMajor offset of `(y, x)` in an `m x n` matrix is the RowMajor
offset of `(x, y)` in an `n x m` matrix, both being `x*m + y`; with the
dimensions kept as `m x n`, which is how `reinterpretOrder` builds the policy
of its result, the ColMajor offset of `(y, x)` is the RowMajor offset of
`(x, y)` exactly when `m = n` or `x = 0`. -/
theorem layout_duality (m n y x : Int) :
    (ColMajor.ctor m n).offset y x = (RowMajor.ctor n m).offset x y ∧
    (ColMajor.ctor m n).offset y x = x * m + y ∧
    (RowMajor.ctor n m).offset x y = x * m + y ∧
    ((ColMajor.ctor m n).offset y x = (RowMajor.ctor m n).offset x y ↔ (m = n ∨ x = 0)) ∧
    (∀ (T : Type) [Zero T] (A : Matrix T ColMajor) (h h2 : Heap T) (raw : Nat → T)
        (B : Matrix T RowMajor),
      reinterpretOrderColMajor A h raw = .ok (B, h2) → B.pol = RowMajor.ctor A.m A.n) := by
  refine ⟨rfl, rfl, rfl, ?_, ?_⟩
  · show x * m + y = x * n + y ↔ _
    constructor
    · intro he
      have : x * (m - n) = 0 := by linarith
      rcases mul_eq_zero.mp this with h0 | h0
      · exact Or.inr h0
      · exact Or.inl (by omega)
    · rintro (he | he)
      · rw [he]
      · rw [he]; simp
  · intro T _ A h h2 raw B hB
    unfold reinterpretOrderColMajor at hB
    cases hc : Matrix.create RowMajor h raw A.m A.n with
    | error e => rw [hc] at hB; cases hB
    | ok res =>
      obtain ⟨R, h1⟩ := res
      rw [hc] at hB
      obtain ⟨pol, hpol, -, hR, -⟩ := create_ok_inv hc
      have hpol' : Except.ok (RowMajor.ctor A.m A.n) = Except.ok pol := hpol
      injection hpol' with hpol'
      simp only [Except.ok.injEq, Prod.mk.injEq] at hB
      rw [← hB.1, hR, ← hpol']

/-- Inside the range of a 32-bit `int` nothing wraps. -/
theorem wrapInt_eq (v : Int) (h0 : -2 ^ 31 ≤ v) (h1 : v < 2 ^ 31) : wrapInt v = v := by
  unfold wrapInt
  rw [Int.emod_eq_of_lt (by omega) (by omega)]
  omega

/-- C39: for `0 ≤ n ≤ 46340`, the size `n*(n+1)/2` of the Triangular policy and
the bound `mi = n*n` of the matrix, and for all `0 ≤ x, y < n` the Triangular
offset of `(y, x)`, computed with 32-bit wrap-around `int` arithmetic, are the
exact values; at `n = 46341` the products `n*(n+1)` and `n*n` exceed
`2^31 - 1`, and the wrapped size and bound are not the exact values. -/
theorem int32_exact_up_to_46340 (n : Int) (hn0 : 0 ≤ n) (hn1 : n ≤ 46340) (p : Triangular)
    (hp : Triangular.ctor n n = .ok p) :
    (Triangular.sizeWrapped n = p.size ∧ p.size = n * (n + 1) / 2 ∧
      Matrix.miWrapped n n = n * n ∧
      ∀ y x : Int, 0 ≤ x → x < n → 0 ≤ y → y < n →
        Triangular.offsetWrapped y x = p.offset y x) ∧
    ((46341 : Int) * (46341 + 1) > 2 ^ 31 - 1 ∧ (46341 : Int) * 46341 > 2 ^ 31 - 1 ∧
      Triangular.sizeWrapped 46341 ≠ (46341 : Int) * (46341 + 1) / 2 ∧
      Matrix.miWrapped 46341 46341 ≠ (46341 : Int) * 46341) := by
  have hsize : p.size = (n * (n + 1)).tdiv 2 := by
    unfold Triangular.ctor at hp
    rw [if_pos rfl] at hp
    cases hp
    rfl
  have hprod : ∀ b : Int, 0 ≤ b → b ≤ 46340 → 0 ≤ b * (b + 1) ∧ b * (b + 1) ≤ 2147441940 := by
    intro b hb0 hb1
    constructor
    · exact mul_nonneg hb0 (by omega)
    · have := mul_le_mul hb1 (by omega : b + 1 ≤ 46341) (by omega) (by norm_num)
      linarith
  have hsz : ∀ b : Int, 0 ≤ b → b ≤ 46340 →
      (wrapInt (b * wrapInt (b + 1))).tdiv 2 = (b * (b + 1)).tdiv 2 := by
    intro b hb0 hb1
    obtain ⟨q0, q1⟩ := hprod b hb0 hb1
    rw [wrapInt_eq (b + 1) (by omega) (by omega), wrapInt_eq (b * (b + 1)) (by omega) (by omega)]
  refine ⟨⟨?_, ?_, ?_, ?_⟩, ?_⟩
  · rw [hsize]
    exact hsz n hn0 hn1
  · rw [hsize, tdiv_consec_eq_ediv]
  · unfold Matrix.miWrapped
    have h1 : 0 ≤ n * n := mul_nonneg hn0 hn0
    have h2 := mul_le_mul hn1 hn1 hn0 (by norm_num : (0 : Int) ≤ 46340)
    exact wrapInt_eq _ (by omega) (by omega)
  · intro y x hx0 hx1 hy0 hy1
    unfold Triangular.offsetWrapped Triangular.offset
    simp only
    have key : ∀ b a : Int, 0 ≤ b → b < n → 0 ≤ a → a < n →
        wrapInt ((wrapInt (b * wrapInt (b + 1))).tdiv 2 + a) = (b * (b + 1)).tdiv 2 + a := by
      intro b a hb0 hb1 ha0 ha1
      rw [hsz b hb0 (by omega)]
      obtain ⟨q0, q1⟩ := hprod b hb0 (by omega)
      have e := two_mul_tdiv_consec b
      exact wrapInt_eq _ (by omega) (by omega)
    by_cases hxy : x > y
    · rw [if_pos hxy, if_pos hxy]
      exact key x y hx0 hx1 hy0 hy1
    · rw [if_neg hxy, if_neg hxy]
      exact key y x hy0 hy1 hx0 hx1
  · decide

/-- C39 at `n = 46340`, the largest dimension of exact 32-bit results. -/
theorem int32_exact_up_to_46340_witness :
    (Triangular.sizeWrapped 46340 = Triangular.size ⟨46340, 46340, 1073720970⟩ ∧
      Triangular.size ⟨46340, 46340, 1073720970⟩ = 46340 * (46340 + 1) / 2 ∧
      Matrix.miWrapped 46340 46340 = 46340 * 46340 ∧
      ∀ y x : Int, 0 ≤ x → x < 46340 → 0 ≤ y → y < 46340 →
        Triangular.offsetWrapped y x = Triangular.offset ⟨46340, 46340, 1073720970⟩ y x) ∧
    ((46341 : Int) * (46341 + 1) > 2 ^ 31 - 1 ∧ (46341 : Int) * 46341 > 2 ^ 31 - 1 ∧
      Triangular.sizeWrapped 46341 ≠ (46341 : Int) * (46341 + 1) / 2 ∧
      Matrix.miWrapped 46341 46341 ≠ (46341 : Int) * 46341) :=
  int32_exact_up_to_46340 46340 (by decide) (by decide) ⟨46340, 46340, 1073720970⟩ (by decide)

/-! ## Mean first-passage time -/

/-- Every completed passage has a length of at least one frame. -/
theorem passageLengths_pos (x y : Nat) (rest : List Nat) :
    ∀ mode : Option Nat, (∀ l0 : Nat, mode = some l0 → 1 ≤ l0) →
      ∀ l ∈ passageLengths x y mode rest, 1 ≤ l := by
  induction rest with
  | nil =>
    intro mode _ l hl
    cases mode <;> simp [passageLengths] at hl
  | cons a rest ih =>
    intro mode hmode l hl
    cases mode with
    | none =>
      simp only [passageLengths] at hl
      split_ifs at hl
      · exact ih (some 1) (fun l0 h0 => by cases h0; exact le_refl 1) l hl
      · exact ih none (fun l0 h0 => by cases h0) l hl
    | some l1 =>
      simp only [passageLengths] at hl
      split_ifs at hl
      · rcases List.mem_cons.mp hl with h1 | h1
        · rw [h1]; exact hmode l1 rfl
        · exact ih none (fun l0 h0 => by cases h0) l h1
      · exact ih (some (l1 + 1)) (fun l0 h0 => by cases h0; omega) l hl

/-- A list of lengths of at least one sums to at least its number of entries. -/
theorem length_le_sum_of_pos (L : List Nat) (h : ∀ l ∈ L, 1 ≤ l) : L.length ≤ L.sum := by
  induction L with
  | nil => simp
  | cons a L ih =>
    have h1 := h a (List.mem_cons_self a L)
    have h2 := ih (fun l hl => h l (List.mem_cons_of_mem a hl))
    simp only [List.length_cons, List.sum_cons]
    omega

/-- The loop of `mfpt` from index `j` on: it adds to `n` the number of the
passages completed from there on and to `fpt` the sum of their lengths. -/
theorem mfptLoop_spec (x y : Nat) (rest : List Nat) :
    ∀ (j : Nat) (s : MfptLocals), j + rest.length < 2 ^ 32 → s.n + rest.length < 2 ^ 32 →
      (s.state = false →
        (mfptLoop x y j rest s).n = s.n + (passageLengths x y none rest).length ∧
        (mfptLoop x y j rest s).fpt =
          s.fpt + (((passageLengths x y none rest).sum : Nat) : ℚ)) ∧
      (∀ l : Nat, s.state = true → s.start + l = j →
        (mfptLoop x y j rest s).n = s.n + (passageLengths x y (some l) rest).length ∧
        (mfptLoop x y j rest s).fpt =
          s.fpt + (((passageLengths x y (some l) rest).sum : Nat) : ℚ)) := by
  induction rest with
  | nil =>
    intro j s _ _
    refine ⟨fun _ => ?_, fun l _ _ => ?_⟩ <;> simp [mfptLoop, passageLengths]
  | cons a rest ih =>
    intro j s hj hn
    simp only [List.length_cons] at hj hn
    refine ⟨fun hs => ?_, fun l hs hl => ?_⟩
    · simp only [mfptLoop, mfptBody, hs, passageLengths]
      by_cases hax : a = x
      · simp only [hax, if_true, Bool.not_false]
        have := (ih (j + 1) { s with start := j, state := true } (by omega)
          (by show s.n + rest.length < 2 ^ 32; omega)).2 1 rfl rfl
        simpa using this
      · simp only [hax, if_false, if_true, Bool.not_false]
        have := (ih (j + 1) s (by omega) (by omega)).1 hs
        simpa using this
    · simp only [mfptLoop, mfptBody, hs, passageLengths]
      by_cases hay : a = y
      · simp only [hay, if_true, Bool.not_true, Bool.false_eq_true, if_false]
        have hsub : (j + 2 ^ 32 - s.start) % 2 ^ 32 = l := by omega
        have hinc : (s.n + 1) % 2 ^ 32 = s.n + 1 := by omega
        have := (ih (j + 1) { s with fpt := s.fpt + (((j + 2 ^ 32 - s.start) % 2 ^ 32 : Nat) : ℚ),
                                     n := (s.n + 1) % 2 ^ 32, state := false } (by omega)
          (by show (s.n + 1) % 2 ^ 32 + rest.length < 2 ^ 32; omega)).1 rfl
        obtain ⟨t1, t2⟩ := this
        refine ⟨?_, ?_⟩
        · rw [t1]
          simp only [List.length_cons]
          omega
        · rw [t2]
          simp only [List.sum_cons, hsub]
          push_cast
          ring
      · simp only [hay, if_false, Bool.not_true, Bool.false_eq_true]
        have := (ih (j + 1) s (by omega) (by omega)).2 (l + 1) hs (by omega)
        simpa using this

/-- C40: for an assignment vector shorter than `2^32` and states `x`, `y`, with
exact arithmetic for the `double`s: when the loop of `mfpt` is left, `n` is the
number of completed passages from `x` to `y` and `fpt` the sum of their
lengths, each at least `1`; so `fpt ≥ n`, the division `n / fpt` is made only
with `fpt ≠ 0`, `mfpt` returns `0` when no passage completes and `n / fpt` with
`n ≥ 1` otherwise, and the value returned lies in `[0, 1]`. -/
theorem mfpt_in_unit_interval (assign : List Nat) (x y : Nat) (hlen : assign.length < 2 ^ 32) :
    (mfptFinal assign x y).n = (passageLengths x y none assign).length ∧
    (mfptFinal assign x y).fpt = (((passageLengths x y none assign).sum : Nat) : ℚ) ∧
    (∀ l ∈ passageLengths x y none assign, 1 ≤ l) ∧
    ((mfptFinal assign x y).n ≠ 0 →
      ((mfptFinal assign x y).n : ℚ) ≤ (mfptFinal assign x y).fpt ∧
        (mfptFinal assign x y).fpt ≠ 0) ∧
    ((mfptFinal assign x y).n = 0 → mfpt assign x y = 0) ∧
    ((mfptFinal assign x y).n ≠ 0 → 1 ≤ (mfptFinal assign x y).n ∧
      mfpt assign x y = ((mfptFinal assign x y).n : ℚ) / (mfptFinal assign x y).fpt) ∧
    0 ≤ mfpt assign x y ∧ mfpt assign x y ≤ 1 := by
  obtain ⟨hn, hf⟩ := (mfptLoop_spec x y assign 0
    { fpt := 0, n := 0, state := false, start := 0 } (by omega) (by simpa using hlen)).1 rfl
  have hn' : (mfptFinal assign x y).n = (passageLengths x y none assign).length := by
    unfold mfptFinal; rw [hn]; simp
  have hf' : (mfptFinal assign x y).fpt = (((passageLengths x y none assign).sum : Nat) : ℚ) := by
    unfold mfptFinal; rw [hf]; simp
  have hpos := passageLengths_pos x y assign none (fun l0 h0 => by cases h0)
  have hle := length_le_sum_of_pos _ hpos
  have hleq : ((mfptFinal assign x y).n : ℚ) ≤ (mfptFinal assign x y).fpt := by
    rw [hn', hf']
    exact_mod_cast hle
  have hnn : (0 : ℚ) ≤ ((mfptFinal assign x y).n : ℚ) := Nat.cast_nonneg _
  refine ⟨hn', hf', hpos, ?_, ?_, ?_, ?_, ?_⟩
  · intro h0
    have h1 : (1 : ℚ) ≤ ((mfptFinal assign x y).n : ℚ) := by
      exact_mod_cast Nat.one_le_iff_ne_zero.mpr h0
    exact ⟨hleq, by linarith⟩
  · intro h0
    unfold mfpt
    rw [if_neg (by simpa using h0)]
  · intro h0
    refine ⟨Nat.one_le_iff_ne_zero.mpr h0, ?_⟩
    unfold mfpt
    rw [if_pos h0]
  · unfold mfpt
    split_ifs with h0
    · exact div_nonneg hnn (le_trans hnn hleq)
    · exact le_refl 0
  · unfold mfpt
    split_ifs with h0
    · have h1 : (1 : ℚ) ≤ ((mfptFinal assign x y).n : ℚ) := by
        exact_mod_cast Nat.one_le_iff_ne_zero.mpr h0
      exact (div_le_one (by linarith)).mpr hleq
    · exact zero_le_one

/-- C40 for the assignments `0, 1, 0, 0, 1, 2, 1` and the passage from state
`0` to state `1`: two passages, of lengths `1` and `2`. -/
theorem mfpt_in_unit_interval_witness :
    passageLengths 0 1 none [0, 1, 0, 0, 1, 2, 1] = [1, 2] ∧
    (mfptFinal [0, 1, 0, 0, 1, 2, 1] 0 1).n =
      (passageLengths 0 1 none [0, 1, 0, 0, 1, 2, 1]).length ∧
    (mfptFinal [0, 1, 0, 0, 1, 2, 1] 0 1).fpt =
      (((passageLengths 0 1 none [0, 1, 0, 0, 1, 2, 1]).sum : Nat) : ℚ) ∧
    0 ≤ mfpt [0, 1, 0, 0, 1, 2, 1] 0 1 ∧ mfpt [0, 1, 0, 0, 1, 2, 1] 0 1 ≤ 1 :=
  ⟨by decide,
    (mfpt_in_unit_interval [0, 1, 0, 0, 1, 2, 1] 0 1 (by decide)).1,
    (mfpt_in_unit_interval [0, 1, 0, 0, 1, 2, 1] 0 1 (by decide)).2.1,
    (mfpt_in_unit_interval [0, 1, 0, 0, 1, 2, 1] 0 1 (by decide)).2.2.2.2.2.2⟩

/-! ## Access outside the dimensions or outside the linear range -/

/-- C10: in a RowMajor or ColMajor matrix allocated with `m x n`, linear access
`operator[]` at `i` gives the element `i` of the block when `0 ≤ i < m*n`, and
fails with a fatal assertion for every other `i`: the assertion of `Matrix`
when `i ≥ m*n`, that of the shared array when `i < 0`; so it succeeds exactly
when `0 ≤ i < m*n`. -/
theorem linear_access_iff_in_range {T : Type} [Zero T] (h : Heap T) (raw : Nat → T)
    (m n i : Int) (hm : 0 ≤ m) (hn : 0 ≤ n) :
    (∃ (M : Matrix T RowMajor) (h1 : Heap T),
      Matrix.create RowMajor h raw m n = .ok (M, h1) ∧
      (0 ≤ i → i < m * n → M.index h1 i = .ok { addr := h.length, idx := i.toNat }) ∧
      (i < 0 → M.index h1 i = .error .sharedAssertion) ∧
      (m * n ≤ i → M.index h1 i = .error .assertion) ∧
      ((∃ ref : Ref, M.index h1 i = .ok ref) ↔ (0 ≤ i ∧ i < m * n))) ∧
    (∃ (M : Matrix T ColMajor) (h1 : Heap T),
      Matrix.create ColMajor h raw m n = .ok (M, h1) ∧
      (0 ≤ i → i < m * n → M.index h1 i = .ok { addr := h.length, idx := i.toNat }) ∧
      (i < 0 → M.index h1 i = .error .sharedAssertion) ∧
      (m * n ≤ i → M.index h1 i = .error .assertion) ∧
      ((∃ ref : Ref, M.index h1 i = .ok ref) ↔ (0 ≤ i ∧ i < m * n))) := by
  have hmn : 0 ≤ m * n := mul_nonneg hm hn
  have key : ∀ {P : Type} (M : Matrix T P), M.mi = n * m → M.dptr = some h.length →
      (0 ≤ i → i < m * n → M.index (h ++ [List.replicate (m * n).toNat (0 : T)]) i =
        .ok { addr := h.length, idx := i.toNat }) ∧
      (i < 0 → M.index (h ++ [List.replicate (m * n).toNat (0 : T)]) i =
        .error .sharedAssertion) ∧
      (m * n ≤ i → M.index (h ++ [List.replicate (m * n).toNat (0 : T)]) i =
        .error .assertion) ∧
      ((∃ ref : Ref, M.index (h ++ [List.replicate (m * n).toNat (0 : T)]) i = .ok ref) ↔
        (0 ≤ i ∧ i < m * n)) := by
    intro P M hmi hd
    have h1 : 0 ≤ i → i < m * n → M.index (h ++ [List.replicate (m * n).toNat (0 : T)]) i =
        .ok { addr := h.length, idx := i.toNat } := by
      intro h0 hlt
      unfold Matrix.index
      rw [if_pos (by rw [hmi, mul_comm n m]; exact hlt), hd]
      apply sharedIndex_last _ _ _ h0
      rw [List.length_replicate, Int.toNat_of_nonneg hmn]
      exact hlt
    have h2 : i < 0 → M.index (h ++ [List.replicate (m * n).toNat (0 : T)]) i =
        .error .sharedAssertion := by
      intro hlt
      unfold Matrix.index
      rw [if_pos (by rw [hmi, mul_comm n m]; omega), hd]
      simp only [sharedIndex, hlt, if_true]
    have h3 : m * n ≤ i → M.index (h ++ [List.replicate (m * n).toNat (0 : T)]) i =
        .error .assertion := by
      intro hge
      unfold Matrix.index
      rw [if_neg (by rw [hmi, mul_comm n m]; omega)]
    refine ⟨h1, h2, h3, ?_⟩
    constructor
    · rintro ⟨ref, href⟩
      by_contra hcon
      rcases lt_or_le i 0 with hl | hl
      · rw [h2 hl] at href; cases href
      · have hge : m * n ≤ i := by
          by_contra hc
          exact hcon ⟨hl, by omega⟩
        rw [h3 hge] at href; cases href
    · rintro ⟨h0, hlt⟩
      exact ⟨_, h1 h0 hlt⟩
  refine ⟨⟨_, _, create_eq h raw m n (RowMajor.ctor m n) rfl hmn, key _ rfl rfl⟩,
    ⟨_, _, create_eq h raw m n (ColMajor.ctor m n) rfl hmn, key _ rfl rfl⟩⟩

/-- C10 on `3 x 4` matrices of integers and the index `-1`. -/
theorem linear_access_iff_in_range_witness :
    (∃ (M : Matrix Int RowMajor) (h1 : Heap Int),
      Matrix.create RowMajor [] (fun _ => 7) 3 4 = .ok (M, h1) ∧
      ((0 : Int) ≤ -1 → (-1 : Int) < 3 * 4 →
        M.index h1 (-1) = .ok { addr := ([] : Heap Int).length, idx := (-1 : Int).toNat }) ∧
      ((-1 : Int) < 0 → M.index h1 (-1) = .error .sharedAssertion) ∧
      ((3 : Int) * 4 ≤ -1 → M.index h1 (-1) = .error .assertion) ∧
      ((∃ ref : Ref, M.index h1 (-1) = .ok ref) ↔ ((0 : Int) ≤ -1 ∧ (-1 : Int) < 3 * 4))) ∧
    (∃ (M : Matrix Int ColMajor) (h1 : Heap Int),
      Matrix.create ColMajor [] (fun _ => 7) 3 4 = .ok (M, h1) ∧
      ((0 : Int) ≤ -1 → (-1 : Int) < 3 * 4 →
        M.index h1 (-1) = .ok { addr := ([] : Heap Int).length, idx := (-1 : Int).toNat }) ∧
      ((-1 : Int) < 0 → M.index h1 (-1) = .error .sharedAssertion) ∧
      ((3 : Int) * 4 ≤ -1 → M.index h1 (-1) = .error .assertion) ∧
      ((∃ ref : Ref, M.index h1 (-1) = .ok ref) ↔ ((0 : Int) ≤ -1 ∧ (-1 : Int) < 3 * 4))) :=
  linear_access_iff_in_range [] (fun _ => 7) 3 4 (-1) (by decide) (by decide)

end loos
